import Mathlib

/-!
# Fixed-point Mandelbrot panner (`mandelbrot.c`): embedding and verification

A shallow embedding of `mandelbrot.c` : the fixed-point escape-time evaluator
`mandelbrot_pixel`, the row/column renderers, the pan-direction selector
`mandelbrot_pan_direction` and the scroll-and-redraw step of the frame loop of
`main`, followed by theorems about them.

Machine integers are modelled as `Int`, with an explicit reduction at every
conversion to a narrower or unsigned type (`toSint16`, `toSint32`, `toUint8`,
`toUint32`).  `>>` on a signed value is the arithmetic shift (`sar`).
-/

namespace Mandelbrot

/-! ## Machine integers -/

/-- Conversion to `Sint16` : reduction modulo 2^16 into [-32768, 32767]. -/
def toSint16 (x : Int) : Int := (x + 32768) % 65536 - 32768

/-- Conversion to `Sint32` (also the result of `int` arithmetic):
reduction modulo 2^32 into [-2^31, 2^31 - 1]. -/
def toSint32 (x : Int) : Int := (x + 2147483648) % 4294967296 - 2147483648

/-- Conversion to `Uint32` : reduction modulo 2^32 into [0, 2^32 - 1]. -/
def toUint32 (x : Int) : Int := x % 4294967296

/-- Conversion to `Uint8` : reduction modulo 2^8 into [0, 255]. -/
def toUint8 (x : Int) : Int := x % 256

/-- The operator `>>` of C on a signed value: arithmetic right shift. -/
def sar (x : Int) (bits : Nat) : Int := Int.shiftRight x bits

/-! ## Constants and conversion helpers (lines 3-30) -/

/-- Source: `#define DECIMAL_BITS (12)` -/
def DECIMAL_BITS : Nat := 12

/-- Source: `#define TO_FP_CONST(x) (Sint32)((x)*(1<<DECIMAL_BITS))`.  The argument is a
decimal constant, given here as the fraction `num / den`; the conversion of the
product to `Sint32` truncates toward zero. -/
def TO_FP_CONST (num den : Int) : Int := toSint32 (Int.tdiv (num * 2 ^ DECIMAL_BITS) den)

/-- Source: `#define FROM_FP(x) (Sint16)((x)>>DECIMAL_BITS)` -/
def FROM_FP (x : Int) : Int := toSint16 (sar x DECIMAL_BITS)

/-- Source: `#define FROM_FP_BITS(x,bits) (Sint32)((x)>>(bits))` -/
def FROM_FP_BITS (x : Int) (bits : Nat) : Int := toSint32 (sar x bits)

/-- Source: `#define UPPER_LEFT_R_FP (TO_FP_CONST(-1.4))` -/
def UPPER_LEFT_R_FP : Int := TO_FP_CONST (-14) 10

/-- Source: `#define UPPER_LEFT_I_FP (TO_FP_CONST(0.2))` -/
def UPPER_LEFT_I_FP : Int := TO_FP_CONST 2 10

/-- Source: `#define WIDTH (800)` -/
def WIDTH : Int := 800

/-- Source: `#define HEIGHT (600)` -/
def HEIGHT : Int := 600

/-- Source: `#define PIXEL_SIZE_FP (TO_FP_CONST(0.55/WIDTH))` : 0.55/800 = 55/80000. -/
def PIXEL_SIZE_FP : Int := TO_FP_CONST 55 (100 * WIDTH)

/-- Source: `#define RADIUS (1750)` -/
def RADIUS : Int := 1750

/-- Source: `#define RADIUS_SQR (RADIUS*RADIUS)` -/
def RADIUS_SQR : Int := RADIUS * RADIUS

/-- Source: `#define MAXITER (30)` -/
def MAXITER : Int := 30

/-- Source: `#define BAIL_OUT_SQR (TO_FP_CONST(4.0))` -/
def BAIL_OUT_SQR : Int := TO_FP_CONST 4 1

/-- Source: `static const Uint8 RIGHT = 0;` -/
def RIGHT : Int := 0
/-- Source: `static const Uint8 UP_RIGHT = 1;` -/
def UP_RIGHT : Int := 1
/-- Source: `static const Uint8 UP = 2;` -/
def UP : Int := 2
/-- Source: `static const Uint8 UP_LEFT = 3;` -/
def UP_LEFT : Int := 3
/-- Source: `static const Uint8 LEFT = 4;` -/
def LEFT : Int := 4
/-- Source: `static const Uint8 DOWN_LEFT = 5;` -/
def DOWN_LEFT : Int := 5
/-- Source: `static const Uint8 DOWN = 6;` -/
def DOWN : Int := 6
/-- Source: `static const Uint8 DOWN_RIGHT = 7;` -/
def DOWN_RIGHT : Int := 7
/-- Source: `static const Uint8 NO_DIRECTION = 8;` -/
def NO_DIRECTION : Int := 8

/-! ## Escape-time evaluator `mandelbrot_pixel` (lines 34-93) -/

/-- The straight-line part of `mandelbrot_pixel` (lines 41-76): the five
shortcut tests.  `some v` when a test fires and the function returns `v`,
`none` when control reaches the iteration loop. -/
def mandelbrot_shortcuts (c_r c_i : Int) : Option Int :=
  let z_r := c_r
  let z_i := c_i
  let xsqr := FROM_FP (toSint32 (z_r * z_r))
  let ysqr := FROM_FP (toSint32 (z_i * z_i))
  -- Already out of bounds on one axis
  if z_r ≤ TO_FP_CONST (-2) 1 ∨ z_r ≥ TO_FP_CONST 2 1
      ∨ z_i ≤ TO_FP_CONST (-2) 1 ∨ z_i ≥ TO_FP_CONST 2 1 then some 0
  -- Already out of bounds axis combined
  else if xsqr + ysqr ≥ TO_FP_CONST 4 1 then some 0
  else
    -- We know it will bail out
    let tmp16 := toSint16 (z_r + TO_FP_CONST 1 2)
    let tmp16 := FROM_FP (toSint32 (tmp16 * tmp16))
    if tmp16 + ysqr > TO_FP_CONST 9 4 then some 0
    else
      -- We know it will never bail out (large Mandelbrot blob)
      let tmp16 := toSint16 (z_r - TO_FP_CONST 1 4)
      let tmp16 := FROM_FP (toSint32 (tmp16 * tmp16))
      if FROM_FP_BITS
          (toSint32 ((tmp16 + ysqr) * (xsqr + sar z_r 1 + ysqr - TO_FP_CONST 3 16)))
          (DECIMAL_BITS - 2) < ysqr then some (toUint8 (MAXITER + 1))
      else
        -- We know it will never bail out (smaller Mandelbrot blob)
        let tmp16 := toSint16 (z_r + TO_FP_CONST 1 1)
        let tmp16 := FROM_FP (toSint32 (tmp16 * tmp16))
        if tmp16 + ysqr < TO_FP_CONST 1 16 then some (toUint8 (MAXITER + 1))
        else none

/-- The iteration loop `for (n=0;; n++)` of `mandelbrot_pixel` (lines 79-90),
started at `(n, z_r, z_i)`.  Each test of the loop condition uses one unit of
`fuel`; `none` means the fuel ran out before the `break`.  The last component
counts the executions of the loop body, i.e. the updates of `(z_r, z_i)`; the
result is `(n, updates)` at the `break`. -/
def mandelbrot_loop (c_r c_i : Int) : Nat → Int → Int → Int → Nat → Option (Int × Nat)
  | 0, _, _, _, _ => none
  | fuel + 1, n, z_r, z_i, updates =>
    let tmp32_1 := toSint32 (z_r * z_r)
    let tmp32_2 := toSint32 (z_i * z_i)
    if n > MAXITER ∨ toSint32 (tmp32_1 + tmp32_2) ≥ TO_FP_CONST BAIL_OUT_SQR 1 then
      some (n, updates)
    else
      let tmp16 := toSint16 (FROM_FP tmp32_1 - FROM_FP tmp32_2 + c_r)
      let z_i' := toSint16 (sar (toSint32 (z_r * z_i)) (DECIMAL_BITS - 1) + c_i)
      let z_r' := tmp16
      mandelbrot_loop c_r c_i fuel (toUint8 (n + 1)) z_r' z_i' (updates + 1)

/-- Source: `Uint8 mandelbrot_pixel(Sint16 c_r, Sint16 c_i)` with a bound `fuel` on the
number of tests of the loop condition. -/
def mandelbrot_pixel_fuel (fuel : Nat) (c_r c_i : Int) : Option Int :=
  match mandelbrot_shortcuts c_r c_i with
  | some v => some v
  | none => (mandelbrot_loop c_r c_i fuel 0 c_r c_i 0).map Prod.fst

/-- The function `mandelbrot_pixel` as a total function: the loop condition is tested at most
`MAXITER + 2 = 32` times (theorem `mandelbrot_loop_returns`), so the default
value is never used. -/
def mandelbrot_pixel (c_r c_i : Int) : Int :=
  (mandelbrot_pixel_fuel 32 c_r c_i).getD 0

/-! ## Direction selector `mandelbrot_pan_direction` (lines 137-175) -/

/-- Array store `a[i] = v`. -/
def write {α : Type} (a : Int → α) (i : Int) (v : α) : Int → α :=
  fun j => if j = i then v else a j

/-- The operation `previous ^= 4` on a `Uint8`. -/
def xor4 (previous : Int) : Int := ((previous.toNat ^^^ 4 : Nat) : Int)

/-- The first loop of `mandelbrot_pan_direction` (lines 153-157),
`for (tmp=RIGHT; tmp<=DOWN_RIGHT; tmp++)`, with `k` iterations left: every
entry is replaced by its unsigned absolute difference to entry `NO_DIRECTION`. -/
def absdiff_loop : Nat → Int → (Int → Int) → (Int → Int)
  | 0, _, direction_cache => direction_cache
  | k + 1, tmp, direction_cache =>
    absdiff_loop k (tmp + 1)
      (write direction_cache tmp
        (if direction_cache tmp > direction_cache NO_DIRECTION then
          toUint32 (direction_cache tmp - direction_cache NO_DIRECTION)
        else toUint32 (direction_cache NO_DIRECTION - direction_cache tmp)))

/-- The second loop of `mandelbrot_pan_direction` (lines 166-172),
`for (tmp=UP; tmp<=DOWN_RIGHT; tmp++)`, with `k` iterations left. -/
def select_loop (previous : Int) (direction_cache : Int → Int) : Nat → Int → Int → Int
  | 0, _, direction => direction
  | k + 1, tmp, direction =>
    select_loop previous direction_cache k (tmp + 1)
      (if previous ≠ tmp ∧ direction_cache tmp < direction_cache direction then tmp
       else direction)

/-- The assignments of lines 141-150 of `mandelbrot_pan_direction` : the table
of squared distances.  Arithmetic on `Uint32` is modulo 2^32. -/
def fill_cache (direction_cache : Int → Int) (cx cy : Int) : Int → Int :=
  let c := write direction_cache NO_DIRECTION (toUint32 RADIUS_SQR)
  let v := toUint32 (toSint32 (toSint32 (cx * cx) + toSint32 (cy * cy)))
  let c := write (write c DOWN v) UP v
  let v := toUint32 (c UP - cx - toSint32 (cx - 1))
  let c := write (write (write c DOWN_LEFT v) LEFT v) UP_LEFT v
  let v := toUint32 (c UP + cx + toSint32 (cx + 1))
  let c := write (write (write c DOWN_RIGHT v) RIGHT v) UP_RIGHT v
  let c := write c UP_LEFT (toUint32 (c UP_LEFT + toSint32 (cy + toSint32 (cy + 1))))
  let c := write c UP (toUint32 (c UP + toSint32 (cy + toSint32 (cy + 1))))
  let c := write c UP_RIGHT (toUint32 (c UP_RIGHT + toSint32 (cy + toSint32 (cy + 1))))
  let c := write c DOWN_LEFT (toUint32 (c DOWN_LEFT + toSint32 (toSint32 (-cy) - toSint32 (cy - 1))))
  let c := write c DOWN (toUint32 (c DOWN + toSint32 (toSint32 (-cy) - toSint32 (cy - 1))))
  let c := write c DOWN_RIGHT (toUint32 (c DOWN_RIGHT + toSint32 (toSint32 (-cy) - toSint32 (cy - 1))))
  c

/-- Source: `Uint8 mandelbrot_pan_direction(int cx, int cy, Uint8 previous)`.  The global
table `direction_cache` is an explicit argument; the result is the returned
direction and the table the call leaves behind. -/
def mandelbrot_pan_direction (direction_cache : Int → Int) (cx cy previous : Int) :
    Int × (Int → Int) :=
  let previous := xor4 previous
  let c := fill_cache direction_cache cx cy
  let c := absdiff_loop 8 RIGHT c
  let direction :=
    if previous = RIGHT then UP_RIGHT
    else if previous ≠ UP_RIGHT ∧ c UP_RIGHT < c RIGHT then UP_RIGHT else RIGHT
  (select_loop previous c 6 UP direction, c)

/-! ## Row and column renderers (lines 96-135) -/

/-- A pixel of the surface.  The pixel-format mapping `SDL_MapRGB` belongs to the
windowing library; a pixel is modelled by the three 8-bit channels it was built
from. -/
structure Color where
  r : Int
  g : Int
  b : Int
deriving DecidableEq

/-- Model of `SDL_MapRGB(surface->format, r, g, b)` with `Uint8` arguments. -/
def SDL_MapRGB (r g b : Int) : Color := ⟨toUint8 r, toUint8 g, toUint8 b⟩

/-- The fields of `SDL_Surface` the program uses: the width `w` and the pixel
array `pixels`, indexed by `y * w + x`. -/
structure SDL_Surface where
  w : Int
  pixels : Int → Color

/-- The loop `for (x = 0; x < WIDTH; x++)` of `sdl_draw_horizontal_mandelbrot`
(lines 103-109), with `k` iterations left. -/
def draw_horizontal_loop (w y c_i_fp : Int) : Nat → Int → Int → (Int → Color) → (Int → Color)
  | 0, _, _, pixels => pixels
  | k + 1, x, c_r_fp, pixels =>
    let rgb := Int.tdiv (mandelbrot_pixel c_r_fp c_i_fp * 255) (MAXITER + 1)
    draw_horizontal_loop w y c_i_fp k (x + 1) (toSint16 (c_r_fp + PIXEL_SIZE_FP))
      (write pixels (y * w + x) (SDL_MapRGB rgb rgb rgb))

/-- Source: `void sdl_draw_horizontal_mandelbrot(window, surface, upper_left_r_fp,
upper_left_i_fp, y)`. -/
def sdl_draw_horizontal_mandelbrot (surface : SDL_Surface)
    (upper_left_r_fp upper_left_i_fp y : Int) : SDL_Surface :=
  let c_r_fp := upper_left_r_fp
  let c_i_fp := toSint16 (upper_left_i_fp - y * PIXEL_SIZE_FP)
  { surface with
    pixels := draw_horizontal_loop surface.w y c_i_fp WIDTH.toNat 0 c_r_fp surface.pixels }

/-- The loop `for (y = 0; y < HEIGHT; y++)` of `sdl_draw_vertical_mandelbrot`
(lines 119-125), with `k` iterations left. -/
def draw_vertical_loop (w x c_r_fp : Int) : Nat → Int → Int → (Int → Color) → (Int → Color)
  | 0, _, _, pixels => pixels
  | k + 1, y, c_i_fp, pixels =>
    let rgb := Int.tdiv (mandelbrot_pixel c_r_fp c_i_fp * 255) (MAXITER + 1)
    draw_vertical_loop w x c_r_fp k (y + 1) (toSint16 (c_i_fp - PIXEL_SIZE_FP))
      (write pixels (y * w + x) (SDL_MapRGB rgb rgb rgb))

/-- Source: `void sdl_draw_vertical_mandelbrot(window, surface, upper_left_r_fp,
upper_left_i_fp, x)`. -/
def sdl_draw_vertical_mandelbrot (surface : SDL_Surface)
    (upper_left_r_fp upper_left_i_fp x : Int) : SDL_Surface :=
  let c_r_fp := toSint16 (upper_left_r_fp + x * PIXEL_SIZE_FP)
  let c_i_fp := upper_left_i_fp
  { surface with
    pixels := draw_vertical_loop surface.w x c_r_fp HEIGHT.toNat 0 c_i_fp surface.pixels }

/-- The loop `for (int y = 0; y < HEIGHT; y++)` of `sdl_draw_mandelbrot`
(lines 130-133), with `k` iterations left. -/
def draw_rows_loop (upper_left_r_fp upper_left_i_fp : Int) : Nat → Int → SDL_Surface → SDL_Surface
  | 0, _, surface => surface
  | k + 1, y, surface =>
    draw_rows_loop upper_left_r_fp upper_left_i_fp k (y + 1)
      (sdl_draw_horizontal_mandelbrot surface upper_left_r_fp upper_left_i_fp y)

/-- Source: `void sdl_draw_mandelbrot(window, surface, upper_left_r_fp, upper_left_i_fp)` :
the full from-scratch render. -/
def sdl_draw_mandelbrot (surface : SDL_Surface) (upper_left_r_fp upper_left_i_fp : Int) :
    SDL_Surface :=
  draw_rows_loop upper_left_r_fp upper_left_i_fp HEIGHT.toNat 0 surface

/-! ## The frame loop of `main` (lines 203-253) -/

/-- The variables of `main` that the direction branches (lines 221-228) set. -/
structure PanVars where
  cx : Int
  cy : Int
  upper_left_r_fp : Int
  upper_left_i_fp : Int
  dx : Int
  dy : Int
  mx1 : Int
  mx2 : Int
  my1 : Int
  my2 : Int
deriving DecidableEq

/-- The chain `if (direction==RIGHT) {...} else if ... ` of lines 221-228.  `cx`,
`cy` are `int`, the upper-left coordinates are `Sint16`. -/
def pan_update (direction : Int) (v : PanVars) : PanVars :=
  if direction = RIGHT then
    { cx := toSint32 (v.cx + 1), cy := v.cy,
      upper_left_r_fp := toSint16 (v.upper_left_r_fp + PIXEL_SIZE_FP),
      upper_left_i_fp := v.upper_left_i_fp,
      dx := 1, dy := 0, mx1 := 0, mx2 := WIDTH - 1, my1 := 0, my2 := HEIGHT }
  else if direction = UP_RIGHT then
    { cx := toSint32 (v.cx + 1), cy := toSint32 (v.cy + 1),
      upper_left_r_fp := toSint16 (v.upper_left_r_fp + PIXEL_SIZE_FP),
      upper_left_i_fp := toSint16 (v.upper_left_i_fp + PIXEL_SIZE_FP),
      dx := 1, dy := 1, mx1 := 0, mx2 := WIDTH - 1, my1 := HEIGHT - 1, my2 := 0 }
  else if direction = UP then
    { cx := v.cx, cy := toSint32 (v.cy + 1),
      upper_left_r_fp := v.upper_left_r_fp,
      upper_left_i_fp := toSint16 (v.upper_left_i_fp + PIXEL_SIZE_FP),
      dx := 0, dy := 1, mx1 := 0, mx2 := WIDTH - 1, my1 := HEIGHT - 1, my2 := 0 }
  else if direction = UP_LEFT then
    { cx := toSint32 (v.cx - 1), cy := toSint32 (v.cy + 1),
      upper_left_r_fp := toSint16 (v.upper_left_r_fp - PIXEL_SIZE_FP),
      upper_left_i_fp := toSint16 (v.upper_left_i_fp + PIXEL_SIZE_FP),
      dx := -1, dy := 1, mx1 := WIDTH - 1, mx2 := 0, my1 := HEIGHT - 1, my2 := 0 }
  else if direction = LEFT then
    { cx := toSint32 (v.cx - 1), cy := v.cy,
      upper_left_r_fp := toSint16 (v.upper_left_r_fp - PIXEL_SIZE_FP),
      upper_left_i_fp := v.upper_left_i_fp,
      dx := -1, dy := 0, mx1 := WIDTH - 1, mx2 := 0, my1 := 0, my2 := HEIGHT }
  else if direction = DOWN_LEFT then
    { cx := toSint32 (v.cx - 1), cy := toSint32 (v.cy - 1),
      upper_left_r_fp := toSint16 (v.upper_left_r_fp - PIXEL_SIZE_FP),
      upper_left_i_fp := toSint16 (v.upper_left_i_fp - PIXEL_SIZE_FP),
      dx := -1, dy := -1, mx1 := WIDTH - 1, mx2 := 0, my1 := 0, my2 := HEIGHT - 1 }
  else if direction = DOWN then
    { cx := v.cx, cy := toSint32 (v.cy - 1),
      upper_left_r_fp := v.upper_left_r_fp,
      upper_left_i_fp := toSint16 (v.upper_left_i_fp - PIXEL_SIZE_FP),
      dx := 0, dy := -1, mx1 := 0, mx2 := WIDTH - 1, my1 := 0, my2 := HEIGHT - 1 }
  else if direction = DOWN_RIGHT then
    { cx := toSint32 (v.cx + 1), cy := toSint32 (v.cy - 1),
      upper_left_r_fp := toSint16 (v.upper_left_r_fp + PIXEL_SIZE_FP),
      upper_left_i_fp := toSint16 (v.upper_left_i_fp - PIXEL_SIZE_FP),
      dx := 1, dy := -1, mx1 := 0, mx2 := WIDTH - 1, my1 := 0, my2 := HEIGHT - 1 }
  else v

/-- The inner shift loop `for (tmpy=my1; tmpy!=my2;)` of lines 232-237, at
column `tmpx`.  Each test of the loop condition uses one unit of `fuel`;
`none` means the fuel ran out. -/
def shift_inner (w dx dy my1 my2 tmpx : Int) : Nat → Int → (Int → Color) → Option (Int → Color)
  | 0, _, _ => none
  | fuel + 1, tmpy, pixels =>
    if tmpy ≠ my2 then
      shift_inner w dx dy my1 my2 tmpx fuel (if my1 > my2 then tmpy - 1 else tmpy + 1)
        (write pixels (tmpy * w + tmpx) (pixels ((tmpy - dy) * w + (tmpx + dx))))
    else some pixels

/-- The outer shift loop `for (tmpx=mx1; tmpx!=mx2; )` of lines 230-240.  Each
test of a loop condition, outer or inner, uses one unit of the `fuel` of its
loop; `none` means the fuel ran out. -/
def shift_outer (w dx dy mx1 mx2 my1 my2 : Int) (inner_fuel : Nat) :
    Nat → Int → (Int → Color) → Option (Int → Color)
  | 0, _, _ => none
  | fuel + 1, tmpx, pixels =>
    if tmpx ≠ mx2 then
      match shift_inner w dx dy my1 my2 tmpx inner_fuel my1 pixels with
      | none => none
      | some pixels' =>
        shift_outer w dx dy mx1 mx2 my1 my2 inner_fuel fuel
          (if mx1 > mx2 then tmpx - 1 else tmpx + 1) pixels'
    else some pixels

/-- The state of the frame loop: the surface, the variables set by the
direction branches, and `previous`. -/
structure FrameState where
  surface : SDL_Surface
  vars : PanVars
  previous : Int

/-- Lines 221-250 of `main` for a given `direction` : update of the offset and of
the upper-left coordinate, in-place shift of the pixels, redraw of the exposed
column when `dx != 0` and of the exposed row when `dy != 0`.  `fuel` bounds the
tests of each shift loop. -/
def scroll_and_redraw (fuel : Nat) (direction : Int) (s : FrameState) : Option FrameState :=
  let v := pan_update direction s.vars
  match shift_outer s.surface.w v.dx v.dy v.mx1 v.mx2 v.my1 v.my2 fuel fuel v.mx1
      s.surface.pixels with
  | none => none
  | some pixels =>
    let surface : SDL_Surface := { s.surface with pixels := pixels }
    let surface :=
      if v.dx ≠ 0 then
        sdl_draw_vertical_mandelbrot surface v.upper_left_r_fp v.upper_left_i_fp
          (if v.dx = -1 then 0 else WIDTH - 1)
      else surface
    let surface :=
      if v.dy ≠ 0 then
        sdl_draw_horizontal_mandelbrot surface v.upper_left_r_fp v.upper_left_i_fp
          (if v.dy = -1 then HEIGHT - 1 else 0)
      else surface
    some { surface := surface, vars := v, previous := s.previous }

/-- One iteration of the frame loop (lines 220-252): the direction is chosen by
`mandelbrot_pan_direction`, the frame is scrolled and redrawn, and `previous`
becomes the chosen direction. -/
def frame_step (fuel : Nat) (direction_cache : Int → Int) (s : FrameState) :
    Option (FrameState × (Int → Int)) :=
  let r := mandelbrot_pan_direction direction_cache s.vars.cx s.vars.cy s.previous
  match scroll_and_redraw fuel r.1 s with
  | none => none
  | some s' => some ({ s' with previous := r.1 }, r.2)

/-- The initial values of `cx`, `cy` and of the upper-left coordinate (lines
187-188 and 203-204); the variables `dx` ... `my2` are not initialised by the
source and are given the value 0. -/
def initial_vars : PanVars :=
  { cx := -RADIUS, cy := 0, upper_left_r_fp := toSint16 UPPER_LEFT_R_FP,
    upper_left_i_fp := toSint16 UPPER_LEFT_I_FP,
    dx := 0, dy := 0, mx1 := 0, mx2 := 0, my1 := 0, my2 := 0 }

/-! ## The fixed-point orbit, as the specification states it -/

/-- One step `z -> z^2 + c` of the fixed-point orbit over unbounded integers:
`z_r' = (z_r*z_r >> 12) - (z_i*z_i >> 12) + c_r`, `z_i' = ((z_r*z_i) >> 11) + c_i`. -/
def orbit_step (c_r c_i : Int) (z : Int × Int) : Int × Int :=
  (sar (z.1 * z.1) 12 - sar (z.2 * z.2) 12 + c_r, sar (z.1 * z.2) 11 + c_i)

/-- The fixed-point orbit `z_0 = (c_r, c_i)`, `z_(k+1) = orbit_step z_k`. -/
def orbit (c_r c_i : Int) : Nat → Int × Int
  | 0 => (c_r, c_i)
  | k + 1 => orbit_step c_r c_i (orbit c_r c_i k)

/-- The squared magnitude of `z` is at least 4.0 at 24 fractional bits. -/
def escaped (z : Int × Int) : Prop := z.1 * z.1 + z.2 * z.2 ≥ 2 ^ 26

instance (z : Int × Int) : Decidable (escaped z) := by unfold escaped; infer_instance

/-! ## Scores of the direction selector, as the specification states them -/

/-- The change of `(cx, cy)` that the frame loop (lines 221-228) applies for
`direction`, read off `pan_update` at the offset `(0, 0)`. -/
def offset_change (direction : Int) : Int × Int :=
  let v := pan_update direction
    { cx := 0, cy := 0, upper_left_r_fp := 0, upper_left_i_fp := 0,
      dx := 0, dy := 0, mx1 := 0, mx2 := 0, my1 := 0, my2 := 0 }
  (v.cx, v.cy)

/-- The score of `direction` at the offset `(cx, cy)` : the distance of the squared
radius after the move to `RADIUS^2`. -/
def score (cx cy direction : Int) : Int :=
  |(cx + (offset_change direction).1) ^ 2 + (cy + (offset_change direction).2) ^ 2 - RADIUS ^ 2|

/-- The directions the selector may return: the eight compass directions except
the opposite of `previous`. -/
def eligible (previous direction : Int) : Prop :=
  0 ≤ direction ∧ direction ≤ 7 ∧ direction ≠ xor4 previous

/-- The offset walk of the frame loop without the pixels (lines 220-228 and
252), `k` iterations from the table `direction_cache`, the variables `v` and
`previous` : the variables and `previous` reached. -/
def offset_walk : Nat → (Int → Int) → PanVars → Int → PanVars × Int
  | 0, _, v, previous => (v, previous)
  | k + 1, direction_cache, v, previous =>
    let r := mandelbrot_pan_direction direction_cache v.cx v.cy previous
    offset_walk k r.2 (pan_update r.1 v) r.1

/-- The offset `(cx, cy)` lies in the band `(RADIUS-1)^2 <= cx^2 + cy^2 <= (RADIUS+1)^2`. -/
def in_band (v : PanVars) : Prop :=
  (RADIUS - 1) ^ 2 ≤ v.cx ^ 2 + v.cy ^ 2 ∧ v.cx ^ 2 + v.cy ^ 2 ≤ (RADIUS + 1) ^ 2

instance (v : PanVars) : Decidable (in_band v) := by unfold in_band; infer_instance

/-- Checks `in_band` after each of the next `k` iterations of the offset walk. -/
def band_check : Nat → (Int → Int) → PanVars → Int → Bool
  | 0, _, _, _ => true
  | k + 1, direction_cache, v, previous =>
    let r := mandelbrot_pan_direction direction_cache v.cx v.cy previous
    decide (in_band (pan_update r.1 v)) && band_check k r.2 (pan_update r.1 v) r.1

/-- The gray pixel that both renderers store for the iteration count `n` (lines
105-106 and 121-122): the three channels are `n * 255 / (MAXITER + 1)`. -/
def gray (n : Int) : Color :=
  SDL_MapRGB (Int.tdiv (n * 255) (MAXITER + 1)) (Int.tdiv (n * 255) (MAXITER + 1))
    (Int.tdiv (n * 255) (MAXITER + 1))

/-- The pixel of the full render of the window `(upper_left_r_fp, upper_left_i_fp)`
at column `x`, row `y`. -/
def window_pixel (upper_left_r_fp upper_left_i_fp x y : Int) : Color :=
  gray (mandelbrot_pixel (toSint16 (upper_left_r_fp + x * PIXEL_SIZE_FP))
    (toSint16 (upper_left_i_fp - y * PIXEL_SIZE_FP)))

/-- The score as section 4.3 of the specification describes it (steps 1 to 3): the
absolute difference between the squared distance reached by one step in
`direction` and the reference value `cx^2 + cy^2`, the squared distance of the
unmoved offset. -/
def score_unmoved (cx cy direction : Int) : Int :=
  |(cx + (offset_change direction).1) ^ 2 + (cy + (offset_change direction).2) ^ 2
    - (cx ^ 2 + cy ^ 2)|

/-! ## Accesses of the shift loops and the shift from a snapshot -/

/-- One assignment of line 234: the destination pixel `(tmpx, tmpy)` that is written
and the source pixel `(tmpx+dx, tmpy-dy)` that is read. -/
structure ShiftAccess where
  dst_x : Int
  dst_y : Int
  src_x : Int
  src_y : Int
deriving DecidableEq

/-- The accesses of the inner shift loop (lines 232-237) at column `tmpx`, in the
order of execution: the loop of `shift_inner` with the assignment recorded instead
of carried out.  `none` means the fuel ran out. -/
def shift_inner_accesses (dx dy my1 my2 tmpx : Int) : Nat → Int → Option (List ShiftAccess)
  | 0, _ => none
  | fuel + 1, tmpy =>
    if tmpy ≠ my2 then
      match shift_inner_accesses dx dy my1 my2 tmpx fuel
          (if my1 > my2 then tmpy - 1 else tmpy + 1) with
      | none => none
      | some l => some (⟨tmpx, tmpy, tmpx + dx, tmpy - dy⟩ :: l)
    else some []

/-- The accesses of the outer shift loop (lines 230-240), in the order of
execution.  `none` means the fuel of a loop ran out. -/
def shift_outer_accesses (dx dy mx1 mx2 my1 my2 : Int) (inner_fuel : Nat) :
    Nat → Int → Option (List ShiftAccess)
  | 0, _ => none
  | fuel + 1, tmpx =>
    if tmpx ≠ mx2 then
      match shift_inner_accesses dx dy my1 my2 tmpx inner_fuel my1 with
      | none => none
      | some l =>
        match shift_outer_accesses dx dy mx1 mx2 my1 my2 inner_fuel fuel
            (if mx1 > mx2 then tmpx - 1 else tmpx + 1) with
        | none => none
        | some l' => some (l ++ l')
    else some []

/-- Carrying out a list of accesses in place, in order: each one reads its source
in the current buffer and writes its destination. -/
def apply_accesses (w : Int) (l : List ShiftAccess) (pixels : Int → Color) : Int → Color :=
  l.foldl (fun p a => write p (a.dst_y * w + a.dst_x) (p (a.src_y * w + a.src_x))) pixels

/-- Carrying out a list of accesses with every source read in `snapshot`. -/
def apply_accesses_snapshot (w : Int) (snapshot : Int → Color) (l : List ShiftAccess)
    (pixels : Int → Color) : Int → Color :=
  l.foldl (fun p a => write p (a.dst_y * w + a.dst_x) (snapshot (a.src_y * w + a.src_x))) pixels

/-- The inner shift loop with the source pixels read in a snapshot copy of the
buffer instead of the buffer itself. -/
def shift_inner_snapshot (snapshot : Int → Color) (w dx dy my1 my2 tmpx : Int) :
    Nat → Int → (Int → Color) → Option (Int → Color)
  | 0, _, _ => none
  | fuel + 1, tmpy, pixels =>
    if tmpy ≠ my2 then
      shift_inner_snapshot snapshot w dx dy my1 my2 tmpx fuel
        (if my1 > my2 then tmpy - 1 else tmpy + 1)
        (write pixels (tmpy * w + tmpx) (snapshot ((tmpy - dy) * w + (tmpx + dx))))
    else some pixels

/-- The outer shift loop with the source pixels read in a snapshot copy of the
buffer instead of the buffer itself. -/
def shift_outer_snapshot (snapshot : Int → Color) (w dx dy mx1 mx2 my1 my2 : Int)
    (inner_fuel : Nat) : Nat → Int → (Int → Color) → Option (Int → Color)
  | 0, _, _ => none
  | fuel + 1, tmpx, pixels =>
    if tmpx ≠ mx2 then
      match shift_inner_snapshot snapshot w dx dy my1 my2 tmpx inner_fuel my1 pixels with
      | none => none
      | some pixels' =>
        shift_outer_snapshot snapshot w dx dy mx1 mx2 my1 my2 inner_fuel fuel
          (if mx1 > mx2 then tmpx - 1 else tmpx + 1) pixels'
    else some pixels

/-- Every source pixel is read before any write to it: for accesses `a` before `b`
in the order of execution, the pixel that `a` writes is not the pixel that `b`
reads. -/
def read_before_write (w : Int) (l : List ShiftAccess) : Prop :=
  l.Pairwise (fun a b => a.dst_y * w + a.dst_x ≠ b.src_y * w + b.src_x)

/-- The conditions on the shift parameters under which the in-place shift of an
800x600 surface is safe: the loop bounds are at most 800 apart, columns and rows
are visited against the shift, and every visited pixel and its source lie on the
surface. -/
def shift_params_ok (dx dy mx1 mx2 my1 my2 : Int) : Prop :=
  (mx1 - mx2 ≤ 800 ∧ mx2 - mx1 ≤ 800) ∧ (my1 - my2 ≤ 800 ∧ my2 - my1 ≤ 800)
    ∧ (if mx1 > mx2 then dx ≤ 0 else 0 ≤ dx)
    ∧ (dx ≠ 0 ∨ (if my1 > my2 then 0 ≤ dy else dy ≤ 0))
    ∧ (∀ x, (if mx1 > mx2 then mx2 < x ∧ x ≤ mx1 else mx1 ≤ x ∧ x < mx2) →
        0 ≤ x ∧ x < 800 ∧ 0 ≤ x + dx ∧ x + dx < 800)
    ∧ (∀ t, (if my1 > my2 then my2 < t ∧ t ≤ my1 else my1 ≤ t ∧ t < my2) →
        0 ≤ t ∧ t < 600 ∧ 0 ≤ t - dy ∧ t - dy < 600)

/-! ## The evaluator with explicit conversions -/

/-- What stops an evaluation with checked conversions: a value that does not fit
the type it is converted to, or the fuel of the loop. -/
inductive Fault where
  | overflow8
  | overflow16
  | overflow32
  | fuel
deriving DecidableEq

/-- Conversion to `Uint8` as the machine does it. -/
def wrap8 (x : Int) : Except Fault Int := .ok (toUint8 x)
/-- Conversion to `Sint16` as the machine does it. -/
def wrap16 (x : Int) : Except Fault Int := .ok (toSint16 x)
/-- Conversion to `Sint32` (`int` arithmetic) as the machine does it. -/
def wrap32 (x : Int) : Except Fault Int := .ok (toSint32 x)

/-- Conversion to `Uint8` that refuses a value outside `[0, 255]`. -/
def check8 (x : Int) : Except Fault Int :=
  if 0 ≤ x ∧ x ≤ 255 then .ok x else .error .overflow8
/-- Conversion to `Sint16` that refuses a value outside `[-32768, 32767]`. -/
def check16 (x : Int) : Except Fault Int :=
  if -32768 ≤ x ∧ x ≤ 32767 then .ok x else .error .overflow16
/-- Conversion to `Sint32` that refuses a value outside `[-2^31, 2^31 - 1]`. -/
def check32 (x : Int) : Except Fault Int :=
  if -2147483648 ≤ x ∧ x ≤ 2147483647 then .ok x else .error .overflow32

/-- No conversion: arithmetic over unbounded integers. -/
def unbounded (x : Int) : Except Fault Int := .ok x

/-- The straight-line part of `mandelbrot_pixel` (lines 41-76) with every
conversion to a 8-, 16- or 32-bit type made through `to8`, `to16`, `to32`, in the
order of evaluation of the source. -/
def mandelbrot_shortcuts_conv (to8 to16 to32 : Int → Except Fault Int) (c_r c_i : Int) :
    Except Fault (Option Int) := do
  let z_r := c_r
  let z_i := c_i
  let xsqr ← to16 (sar (← to32 (z_r * z_r)) DECIMAL_BITS)
  let ysqr ← to16 (sar (← to32 (z_i * z_i)) DECIMAL_BITS)
  if z_r ≤ TO_FP_CONST (-2) 1 ∨ z_r ≥ TO_FP_CONST 2 1
      ∨ z_i ≤ TO_FP_CONST (-2) 1 ∨ z_i ≥ TO_FP_CONST 2 1 then return some 0
  else if xsqr + ysqr ≥ TO_FP_CONST 4 1 then return some 0
  else do
    let tmp16 ← to16 (z_r + TO_FP_CONST 1 2)
    let tmp16 ← to16 (sar (← to32 (tmp16 * tmp16)) DECIMAL_BITS)
    if tmp16 + ysqr > TO_FP_CONST 9 4 then return some 0
    else do
      let tmp16 ← to16 (z_r - TO_FP_CONST 1 4)
      let tmp16 ← to16 (sar (← to32 (tmp16 * tmp16)) DECIMAL_BITS)
      let product ← to32 ((tmp16 + ysqr) * (xsqr + sar z_r 1 + ysqr - TO_FP_CONST 3 16))
      let shifted ← to32 (sar product (DECIMAL_BITS - 2))
      if shifted < ysqr then return some (← to8 (MAXITER + 1))
      else do
        let tmp16 ← to16 (z_r + TO_FP_CONST 1 1)
        let tmp16 ← to16 (sar (← to32 (tmp16 * tmp16)) DECIMAL_BITS)
        if tmp16 + ysqr < TO_FP_CONST 1 16 then return some (← to8 (MAXITER + 1))
        else return none

/-- The iteration loop of `mandelbrot_pixel` (lines 79-90) with every conversion
made through `to8`, `to16`, `to32`, in the order of evaluation of the source (the
sum of the squares is formed only when `n > MAXITER` is false). -/
def mandelbrot_loop_conv (to8 to16 to32 : Int → Except Fault Int) (c_r c_i : Int) :
    Nat → Int → Int → Int → Except Fault Int
  | 0, _, _, _ => .error .fuel
  | fuel + 1, n, z_r, z_i => do
    let tmp32_1 ← to32 (z_r * z_r)
    let tmp32_2 ← to32 (z_i * z_i)
    if n > MAXITER then return n
    else do
      let sum ← to32 (tmp32_1 + tmp32_2)
      if sum ≥ TO_FP_CONST BAIL_OUT_SQR 1 then return n
      else do
        let a ← to16 (sar tmp32_1 DECIMAL_BITS)
        let b ← to16 (sar tmp32_2 DECIMAL_BITS)
        let tmp16 ← to16 (a - b + c_r)
        let z_i' ← to16 (sar (← to32 (z_r * z_i)) (DECIMAL_BITS - 1) + c_i)
        let z_r' := tmp16
        let n' ← to8 (n + 1)
        mandelbrot_loop_conv to8 to16 to32 c_r c_i fuel n' z_r' z_i'

/-- The function `mandelbrot_pixel` with every conversion made through `to8`, `to16`,
`to32`. -/
def mandelbrot_pixel_conv (to8 to16 to32 : Int → Except Fault Int) (fuel : Nat)
    (c_r c_i : Int) : Except Fault Int := do
  match ← mandelbrot_shortcuts_conv to8 to16 to32 c_r c_i with
  | some v => return v
  | none => mandelbrot_loop_conv to8 to16 to32 c_r c_i fuel 0 c_r c_i

/-- The result of a run with fuel as a result with faults: running out of fuel is
the fault `Fault.fuel`. -/
def of_fuel (r : Option Int) : Except Fault Int :=
  match r with
  | some v => .ok v
  | none => .error .fuel

/-! ## Evaluation on concrete inputs -/

example : TO_FP_CONST (-14) 10 = -5734 := by decide
example : PIXEL_SIZE_FP = 2 := by decide
example : mandelbrot_pixel 0 0 = 31 := by decide
example : mandelbrot_pixel 1500 0 = 7 := by decide
example : mandelbrot_pixel (-4042) (-1161) = 31 := by decide
example : mandelbrot_pixel (-4042) (-1163) = 30 := by decide
example : (mandelbrot_pan_direction (fun _ => 0) (-1750) 0 6).1 = 6 := by decide
example : gray 31 = ⟨255, 255, 255⟩ := by decide
example : gray 30 = ⟨246, 246, 246⟩ := by decide
example : mandelbrot_pixel_conv wrap8 wrap16 wrap32 32 1500 0 = .ok 7 := rfl
example : mandelbrot_pixel_conv check8 check16 check32 32 1500 0 = .ok 7 := rfl
example : mandelbrot_pixel_conv unbounded unbounded unbounded 32 (-5734) 819 = .ok 5 := rfl
example : mandelbrot_pixel_conv wrap8 wrap16 check32 32 32767 (-32768) = .ok 0 := rfl
example : mandelbrot_pixel_conv check8 check16 check32 32 32767 0 = .error .overflow16 := rfl
example : mandelbrot_pixel_conv check8 check16 check32 3 0 0 = .ok 31 := rfl
example : mandelbrot_pixel_conv check8 check16 check32 3 1500 0 = .error .fuel := rfl

/-! ## Conversions and constants -/

theorem toSint16_of_range {x : Int} (h1 : -32768 ≤ x) (h2 : x ≤ 32767) : toSint16 x = x := by
  unfold toSint16; omega

theorem toSint32_of_range {x : Int} (h1 : -2147483648 ≤ x) (h2 : x ≤ 2147483647) :
    toSint32 x = x := by
  unfold toSint32; omega

theorem toUint8_of_range {x : Int} (h1 : 0 ≤ x) (h2 : x ≤ 255) : toUint8 x = x := by
  unfold toUint8; omega

theorem toUint32_of_range {x : Int} (h1 : 0 ≤ x) (h2 : x ≤ 4294967295) : toUint32 x = x := by
  unfold toUint32; omega

theorem toSint16_range (x : Int) : -32768 ≤ toSint16 x ∧ toSint16 x ≤ 32767 := by
  unfold toSint16; omega

theorem sar_eq_ediv (x : Int) (bits : Nat) : sar x bits = x / 2 ^ bits := by
  show x >>> bits = _
  rw [Int.shiftRight_eq_div_pow]; norm_cast

theorem sar_12 (x : Int) : sar x DECIMAL_BITS = x / 4096 := by
  rw [sar_eq_ediv]; rfl

theorem sar_11 (x : Int) : sar x (DECIMAL_BITS - 1) = x / 2048 := by
  rw [sar_eq_ediv]; rfl

theorem sar_10 (x : Int) : sar x (DECIMAL_BITS - 2) = x / 1024 := by
  rw [sar_eq_ediv]; rfl

theorem sar_1 (x : Int) : sar x 1 = x / 2 := by
  rw [sar_eq_ediv]; rfl

theorem fp_neg_two : TO_FP_CONST (-2) 1 = -8192 := by decide
theorem fp_two : TO_FP_CONST 2 1 = 8192 := by decide
theorem fp_four : TO_FP_CONST 4 1 = 16384 := by decide
theorem fp_half : TO_FP_CONST 1 2 = 2048 := by decide
theorem fp_nine_quarters : TO_FP_CONST 9 4 = 9216 := by decide
theorem fp_quarter : TO_FP_CONST 1 4 = 1024 := by decide
theorem fp_three_sixteenths : TO_FP_CONST 3 16 = 768 := by decide
theorem fp_one : TO_FP_CONST 1 1 = 4096 := by decide
theorem fp_sixteenth : TO_FP_CONST 1 16 = 256 := by decide
theorem fp_bail_out : TO_FP_CONST BAIL_OUT_SQR 1 = 67108864 := by decide
theorem pixel_size_fp_eq : PIXEL_SIZE_FP = 2 := by decide
theorem upper_left_r_fp_eq : UPPER_LEFT_R_FP = -5734 := by decide
theorem upper_left_i_fp_eq : UPPER_LEFT_I_FP = 819 := by decide
theorem maxiter_succ : toUint8 (MAXITER + 1) = 31 := by decide

/-- Square of a value below 2.0 in magnitude. -/
theorem sq_lt_of_box {x : Int} (h1 : -8192 < x) (h2 : x < 8192) :
    0 ≤ x * x ∧ x * x < 67108864 := by
  constructor
  · exact mul_self_nonneg x
  · nlinarith

/-- When both coordinates are below 2.0 in magnitude no conversion of
`mandelbrot_shortcuts` changes a value: the five tests are the tests on the
exact quotients. -/
theorem mandelbrot_shortcuts_box (c_r c_i : Int) (hr1 : -8192 < c_r) (hr2 : c_r < 8192)
    (hi1 : -8192 < c_i) (hi2 : c_i < 8192) :
    mandelbrot_shortcuts c_r c_i =
      if c_r * c_r / 4096 + c_i * c_i / 4096 ≥ 16384 then some 0
      else if (c_r + 2048) * (c_r + 2048) / 4096 + c_i * c_i / 4096 > 9216 then some 0
      else if ((c_r - 1024) * (c_r - 1024) / 4096 + c_i * c_i / 4096)
            * (c_r * c_r / 4096 + c_r / 2 + c_i * c_i / 4096 - 768) / 1024
            < c_i * c_i / 4096 then some 31
      else if (c_r + 4096) * (c_r + 4096) / 4096 + c_i * c_i / 4096 < 256 then some 31
      else none := by
  obtain ⟨hA0, hA1⟩ := sq_lt_of_box hr1 hr2
  obtain ⟨hB0, hB1⟩ := sq_lt_of_box hi1 hi2
  have e1 : (c_r + 2048) * (c_r + 2048) = c_r * c_r + 4096 * c_r + 4194304 := by ring
  have e2 : (c_r - 1024) * (c_r - 1024) = c_r * c_r - 2048 * c_r + 1048576 := by ring
  have e3 : (c_r + 4096) * (c_r + 4096) = c_r * c_r + 8192 * c_r + 16777216 := by ring
  have x1 : FROM_FP (toSint32 (c_r * c_r)) = c_r * c_r / 4096 := by
    unfold FROM_FP; rw [sar_12, toSint32_of_range (by omega) (by omega),
      toSint16_of_range (by omega) (by omega)]
  have y1 : FROM_FP (toSint32 (c_i * c_i)) = c_i * c_i / 4096 := by
    unfold FROM_FP; rw [sar_12, toSint32_of_range (by omega) (by omega),
      toSint16_of_range (by omega) (by omega)]
  have t1 : FROM_FP (toSint32 (toSint16 (c_r + 2048) * toSint16 (c_r + 2048)))
      = (c_r + 2048) * (c_r + 2048) / 4096 := by
    have a : toSint16 (c_r + 2048) = c_r + 2048 := toSint16_of_range (by omega) (by omega)
    unfold FROM_FP
    rw [a, sar_12, e1, toSint32_of_range (by omega) (by omega),
      toSint16_of_range (by omega) (by omega)]
  have t2 : FROM_FP (toSint32 (toSint16 (c_r - 1024) * toSint16 (c_r - 1024)))
      = (c_r - 1024) * (c_r - 1024) / 4096 := by
    have a : toSint16 (c_r - 1024) = c_r - 1024 := toSint16_of_range (by omega) (by omega)
    unfold FROM_FP
    rw [a, sar_12, e2, toSint32_of_range (by omega) (by omega),
      toSint16_of_range (by omega) (by omega)]
  have sq2 : 0 ≤ (c_r - 1024) * (c_r - 1024) := mul_self_nonneg _
  have hq0 : 0 ≤ (c_r - 1024) * (c_r - 1024) / 4096 + c_i * c_i / 4096 := by rw [e2]; omega
  have hq1 : (c_r - 1024) * (c_r - 1024) / 4096 + c_i * c_i / 4096 ≤ 37120 := by rw [e2]; omega
  have hp0 : -4865 ≤ c_r * c_r / 4096 + c_r / 2 + c_i * c_i / 4096 - 768 := by omega
  have hp1 : c_r * c_r / 4096 + c_r / 2 + c_i * c_i / 4096 - 768 ≤ 36864 := by omega
  have p1 : FROM_FP_BITS (toSint32 (((c_r - 1024) * (c_r - 1024) / 4096 + c_i * c_i / 4096)
            * (c_r * c_r / 4096 + c_r / 2 + c_i * c_i / 4096 - 768))) (DECIMAL_BITS - 2)
      = ((c_r - 1024) * (c_r - 1024) / 4096 + c_i * c_i / 4096)
            * (c_r * c_r / 4096 + c_r / 2 + c_i * c_i / 4096 - 768) / 1024 := by
    unfold FROM_FP_BITS
    generalize (c_r - 1024) * (c_r - 1024) / 4096 + c_i * c_i / 4096 = q at hq0 hq1 ⊢
    generalize c_r * c_r / 4096 + c_r / 2 + c_i * c_i / 4096 - 768 = p at hp0 hp1 ⊢
    have b1 : -2147483648 ≤ q * p := by nlinarith
    have b2 : q * p ≤ 2147483647 := by nlinarith
    rw [toSint32_of_range b1 b2, sar_10, toSint32_of_range (by omega) (by omega)]
  unfold mandelbrot_shortcuts
  simp only [fp_neg_two, fp_two, fp_four, fp_half, fp_nine_quarters, fp_quarter,
    fp_three_sixteenths, fp_one, fp_sixteenth, maxiter_succ, x1, y1, t1, t2, sar_1, p1]
  rw [if_neg (by omega)]
  by_cases hA : c_r * c_r / 4096 + c_i * c_i / 4096 ≥ 16384
  · rw [if_pos hA, if_pos hA]
  rw [if_neg hA, if_neg hA]
  by_cases hB : (c_r + 2048) * (c_r + 2048) / 4096 + c_i * c_i / 4096 > 9216
  · rw [if_pos hB, if_pos hB]
  rw [if_neg hB, if_neg hB]
  have hsq : (c_r + 2048) * (c_r + 2048) ≤ 37752831 := by omega
  have hcr : c_r ≤ 4096 := by
    by_contra hc
    have : 4097 ≤ c_r := by omega
    nlinarith
  have t3 : FROM_FP (toSint32 (toSint16 (c_r + 4096) * toSint16 (c_r + 4096)))
      = (c_r + 4096) * (c_r + 4096) / 4096 := by
    have a : toSint16 (c_r + 4096) = c_r + 4096 := toSint16_of_range (by omega) (by omega)
    unfold FROM_FP
    rw [a, sar_12, e3, toSint32_of_range (by omega) (by omega),
      toSint16_of_range (by omega) (by omega)]
  rw [t3]

/-! ## Renderers and the scroll step -/

theorem toSint16_add_left (a b : Int) : toSint16 (toSint16 a + b) = toSint16 (a + b) := by
  unfold toSint16; omega

theorem toSint16_idem (a : Int) : toSint16 (toSint16 a) = toSint16 a := by
  unfold toSint16; omega

/-- The row loop writes the `k` pixels from column `x` of row `y` and nothing else. -/
theorem draw_horizontal_loop_apply (w y c_i : Int) :
    ∀ (k : Nat) (x c_r : Int) (p : Int → Color) (idx : Int), toSint16 c_r = c_r →
    draw_horizontal_loop w y c_i k x c_r p idx =
      if y * w + x ≤ idx ∧ idx < y * w + x + k then
        gray (mandelbrot_pixel (toSint16 (c_r + (idx - (y * w + x)) * PIXEL_SIZE_FP)) c_i)
      else p idx := by
  intro k
  induction k with
  | zero =>
    intro x c_r p idx _
    have hc : ¬ (y * w + x ≤ idx ∧ idx < y * w + x + ((0 : Nat) : Int)) := by push_cast; omega
    rw [if_neg hc]; rfl
  | succ k ih =>
    intro x c_r p idx hc
    unfold draw_horizontal_loop
    simp only
    rw [ih (x + 1) _ _ idx (toSint16_idem _)]
    by_cases h1 : y * w + (x + 1) ≤ idx ∧ idx < y * w + (x + 1) + (k : Int)
    · have h2 : y * w + x ≤ idx ∧ idx < y * w + x + ((k + 1 : Nat) : Int) := by
        push_cast; omega
      rw [if_pos h1, if_pos h2, toSint16_add_left]
      congr 3
      rw [pixel_size_fp_eq]; ring
    · rw [if_neg h1]
      unfold write
      by_cases h3 : idx = y * w + x
      · have h2 : y * w + x ≤ idx ∧ idx < y * w + x + ((k + 1 : Nat) : Int) := by
          push_cast; omega
        rw [if_pos h3, if_pos h2, h3]
        have : c_r + (y * w + x - (y * w + x)) * PIXEL_SIZE_FP = c_r := by ring
        rw [this, hc]; rfl
      · have h2 : ¬ (y * w + x ≤ idx ∧ idx < y * w + x + ((k + 1 : Nat) : Int)) := by
          push_cast; omega
        rw [if_neg h3, if_neg h2]

/-- The row renderer writes the row `y` of the window and nothing else. -/
theorem sdl_draw_horizontal_mandelbrot_apply (surface : SDL_Surface) (ul_r ul_i y idx : Int)
    (hr : toSint16 ul_r = ul_r) :
    (sdl_draw_horizontal_mandelbrot surface ul_r ul_i y).pixels idx =
      if y * surface.w ≤ idx ∧ idx < y * surface.w + WIDTH then
        window_pixel ul_r ul_i (idx - y * surface.w) y
      else surface.pixels idx := by
  unfold sdl_draw_horizontal_mandelbrot
  simp only
  rw [draw_horizontal_loop_apply _ _ _ _ _ _ _ _ hr]
  have e : ((WIDTH.toNat : Nat) : Int) = WIDTH := by decide
  rw [e]
  simp only [add_zero]
  rfl

theorem sdl_draw_horizontal_mandelbrot_w (surface : SDL_Surface) (ul_r ul_i y : Int) :
    (sdl_draw_horizontal_mandelbrot surface ul_r ul_i y).w = surface.w := by
  unfold sdl_draw_horizontal_mandelbrot; simp only

/-- The rows loop writes the rows `y .. y + k - 1` of the window and nothing else,
on a surface of width `WIDTH`. -/
theorem draw_rows_loop_apply (ul_r ul_i : Int) (hr : toSint16 ul_r = ul_r) :
    ∀ (k : Nat) (y : Int) (surface : SDL_Surface) (idx : Int), surface.w = WIDTH →
    (draw_rows_loop ul_r ul_i k y surface).pixels idx =
      if y * WIDTH ≤ idx ∧ idx < (y + k) * WIDTH then
        window_pixel ul_r ul_i (idx % WIDTH) (idx / WIDTH)
      else surface.pixels idx := by
  intro k
  induction k with
  | zero =>
    intro y surface idx _
    have hc : ¬ (y * WIDTH ≤ idx ∧ idx < (y + ((0 : Nat) : Int)) * WIDTH) := by
      unfold WIDTH; push_cast; omega
    rw [if_neg hc]; rfl
  | succ k ih =>
    intro y surface idx hw
    unfold draw_rows_loop
    rw [ih (y + 1) _ idx (by rw [sdl_draw_horizontal_mandelbrot_w]; exact hw),
      sdl_draw_horizontal_mandelbrot_apply _ _ _ _ _ hr, hw]
    unfold WIDTH
    by_cases h1 : (y + 1) * 800 ≤ idx ∧ idx < (y + 1 + (k : Int)) * 800
    · have h2 : y * 800 ≤ idx ∧ idx < (y + ((k + 1 : Nat) : Int)) * 800 := by
        push_cast; omega
      rw [if_pos h1, if_pos h2]
    · rw [if_neg h1]
      by_cases h3 : y * 800 ≤ idx ∧ idx < y * 800 + 800
      · have h2 : y * 800 ≤ idx ∧ idx < (y + ((k + 1 : Nat) : Int)) * 800 := by
          push_cast; omega
        rw [if_pos h3, if_pos h2]
        congr 1 <;> omega
      · have h2 : ¬ (y * 800 ≤ idx ∧ idx < (y + ((k + 1 : Nat) : Int)) * 800) := by
          push_cast; omega
        rw [if_neg h3, if_neg h2]

/-- The full render stores `window_pixel` at every pixel of the 800x600 surface. -/
theorem sdl_draw_mandelbrot_apply (surface : SDL_Surface) (ul_r ul_i x y : Int)
    (hw : surface.w = WIDTH) (hr : toSint16 ul_r = ul_r)
    (hx : 0 ≤ x ∧ x < WIDTH) (hy : 0 ≤ y ∧ y < HEIGHT) :
    (sdl_draw_mandelbrot surface ul_r ul_i).pixels (y * WIDTH + x) = window_pixel ul_r ul_i x y := by
  unfold sdl_draw_mandelbrot
  rw [draw_rows_loop_apply ul_r ul_i hr _ _ _ _ hw]
  have e : ((HEIGHT.toNat : Nat) : Int) = HEIGHT := by decide
  rw [e]
  unfold WIDTH HEIGHT at *
  rw [if_pos (by omega)]
  congr 1 <;> omega

/-- The inner shift loop terminates when it may test its condition once more than
the distance from `tmpy` to `my2`, and it writes in column `tmpx` only. -/
theorem shift_inner_frame (w dx dy my1 my2 tmpx : Int) :
    ∀ (fuel : Nat) (tmpy : Int) (p : Int → Color),
    (if my1 > my2 then my2 ≤ tmpy ∧ tmpy - my2 < fuel else tmpy ≤ my2 ∧ my2 - tmpy < fuel) →
    ∃ p', shift_inner w dx dy my1 my2 tmpx fuel tmpy p = some p'
      ∧ ∀ idx, (∀ t : Int, idx ≠ t * w + tmpx) → p' idx = p idx := by
  intro fuel
  induction fuel with
  | zero =>
    intro tmpy p h
    exfalso
    split_ifs at h <;> push_cast at h <;> omega
  | succ fuel ih =>
    intro tmpy p h
    unfold shift_inner
    by_cases hc : tmpy ≠ my2
    · rw [if_pos hc]
      obtain ⟨p', hp1, hp2⟩ := ih (if my1 > my2 then tmpy - 1 else tmpy + 1)
        (write p (tmpy * w + tmpx) (p ((tmpy - dy) * w + (tmpx + dx))))
        (by split_ifs at h ⊢ <;> push_cast at h <;> omega)
      refine ⟨p', hp1, fun idx hidx => ?_⟩
      rw [hp2 idx hidx]
      unfold write
      rw [if_neg (hidx tmpy)]
    · rw [if_neg hc]
      exact ⟨p, rfl, fun _ _ => rfl⟩

/-- The outer shift loop terminates when each loop may test its condition once
more than the distance between its bounds, and it writes only in the columns
between `tmpx` and `mx2`, the latter excluded. -/
theorem shift_outer_frame (w dx dy mx1 mx2 my1 my2 : Int) (inner_fuel : Nat)
    (hin : my1 - my2 < inner_fuel ∧ my2 - my1 < inner_fuel) :
    ∀ (fuel : Nat) (tmpx : Int) (p : Int → Color),
    (if mx1 > mx2 then mx2 ≤ tmpx ∧ tmpx - mx2 < fuel else tmpx ≤ mx2 ∧ mx2 - tmpx < fuel) →
    ∃ p', shift_outer w dx dy mx1 mx2 my1 my2 inner_fuel fuel tmpx p = some p'
      ∧ ∀ idx, (∀ t x : Int,
          (if mx1 > mx2 then mx2 < x ∧ x ≤ tmpx else tmpx ≤ x ∧ x < mx2) → idx ≠ t * w + x) →
          p' idx = p idx := by
  intro fuel
  induction fuel with
  | zero =>
    intro tmpx p h
    exfalso
    split_ifs at h <;> push_cast at h <;> omega
  | succ fuel ih =>
    intro tmpx p h
    unfold shift_outer
    by_cases hc : tmpx ≠ mx2
    · rw [if_pos hc]
      obtain ⟨q, hq1, hq2⟩ := shift_inner_frame w dx dy my1 my2 tmpx inner_fuel my1 p
        (by split_ifs <;> omega)
      rw [hq1]
      simp only
      obtain ⟨p', hp1, hp2⟩ := ih (if mx1 > mx2 then tmpx - 1 else tmpx + 1) q
        (by split_ifs at h ⊢ <;> push_cast at h <;> omega)
      refine ⟨p', hp1, fun idx hidx => ?_⟩
      rw [hp2 idx (fun t x hx => hidx t x (by split_ifs at hx ⊢ <;> omega))]
      exact hq2 idx (fun t => hidx t tmpx (by split_ifs at h ⊢ <;> omega))
    · rw [if_neg hc]
      exact ⟨p, rfl, fun _ _ => rfl⟩

/-- A frame step DOWN, on a surface of width `WIDTH`, keeps the pixels of the last
column above the last row as they were: the shift loops stop before column
`WIDTH - 1` and no column is redrawn. -/
theorem scroll_down_last_column (fuel : Nat) (hf : 801 ≤ fuel) (s : FrameState)
    (hw : s.surface.w = WIDTH) (hr : toSint16 s.vars.upper_left_r_fp = s.vars.upper_left_r_fp)
    (y : Int) (hy : 0 ≤ y ∧ y < HEIGHT - 1) :
    ∃ s', scroll_and_redraw fuel DOWN s = some s'
      ∧ s'.vars.upper_left_r_fp = s.vars.upper_left_r_fp
      ∧ s'.vars.upper_left_i_fp = toSint16 (s.vars.upper_left_i_fp - PIXEL_SIZE_FP)
      ∧ s'.surface.w = WIDTH
      ∧ s'.surface.pixels (y * WIDTH + (WIDTH - 1)) = s.surface.pixels (y * WIDTH + (WIDTH - 1)) := by
  have hv : pan_update DOWN s.vars =
      { cx := s.vars.cx, cy := toSint32 (s.vars.cy - 1),
        upper_left_r_fp := s.vars.upper_left_r_fp,
        upper_left_i_fp := toSint16 (s.vars.upper_left_i_fp - PIXEL_SIZE_FP),
        dx := 0, dy := -1, mx1 := 0, mx2 := WIDTH - 1, my1 := 0, my2 := HEIGHT - 1 } := by
    unfold pan_update
    simp [RIGHT, UP_RIGHT, UP, UP_LEFT, LEFT, DOWN_LEFT, DOWN]
  obtain ⟨p', hp1, hp2⟩ := shift_outer_frame s.surface.w 0 (-1) 0 (WIDTH - 1) 0 (HEIGHT - 1) fuel
    (by unfold HEIGHT; omega) fuel 0 s.surface.pixels
    (by unfold WIDTH; rw [if_neg (by norm_num)]; omega)
  unfold scroll_and_redraw
  simp only [hv, hp1]
  refine ⟨_, rfl, rfl, rfl, ?_, ?_⟩
  · simp only [ne_eq, not_true_eq_false, if_false]
    rw [if_pos (by norm_num), sdl_draw_horizontal_mandelbrot_w]
    exact hw
  · simp only [ne_eq, not_true_eq_false, if_false]
    rw [if_pos (by norm_num), sdl_draw_horizontal_mandelbrot_apply _ _ _ _ _ hr]
    simp only [if_true]
    rw [hw] at hp2 ⊢
    unfold WIDTH HEIGHT at *
    rw [if_neg (by omega)]
    apply hp2
    intro t x hx
    rw [if_neg (by norm_num)] at hx
    omega

theorem draw_rows_loop_w (ul_r ul_i : Int) : ∀ (k : Nat) (y : Int) (surface : SDL_Surface),
    (draw_rows_loop ul_r ul_i k y surface).w = surface.w := by
  intro k
  induction k with
  | zero => intro y surface; rfl
  | succ k ih =>
    intro y surface
    unfold draw_rows_loop
    rw [ih, sdl_draw_horizontal_mandelbrot_w]

theorem sdl_draw_mandelbrot_w (surface : SDL_Surface) (ul_r ul_i : Int) :
    (sdl_draw_mandelbrot surface ul_r ul_i).w = surface.w := by
  unfold sdl_draw_mandelbrot; exact draw_rows_loop_w _ _ _ _ _

set_option maxRecDepth 1000000 in
/-- The variables of the frame loop after its first 401 iterations. -/
theorem offset_walk_401 :
    offset_walk 401 (fun _ => 0) initial_vars DOWN =
      ({ cx := -1703, cy := -401, upper_left_r_fp := -5640, upper_left_i_fp := 17,
         dx := 1, dy := -1, mx1 := 0, mx2 := WIDTH - 1, my1 := 0, my2 := HEIGHT - 1 },
       DOWN_RIGHT) := by
  decide!

/-- Claim C1 (evaluation of the code at a failing input).  The frame state is the
one the program reaches before its 402nd frame (the variables are those of the
offset walk after 401 iterations): window `(-5640, 17)`, offset `(-1703, -401)`,
`previous = DOWN_RIGHT`, the surface holding the full render of the window; the
selector chooses DOWN.  After the frame step the window is `(-5640, 15)`
but pixel `(799, 589)` still holds the gray level of 31 iterations, while the full
render of the new window has the gray level of 30 iterations there: the shift for
DOWN stops before column `WIDTH - 1` and that column is not redrawn. -/
theorem scroll_down_breaks_invariant :
    offset_walk 401 (fun _ => 0) initial_vars DOWN =
        ({ cx := -1703, cy := -401, upper_left_r_fp := -5640, upper_left_i_fp := 17,
           dx := 1, dy := -1, mx1 := 0, mx2 := WIDTH - 1, my1 := 0, my2 := HEIGHT - 1 },
         DOWN_RIGHT)
      ∧ (mandelbrot_pan_direction (fun _ => 0) (-1703) (-401) DOWN_RIGHT).1 = DOWN
      ∧ ∃ s', scroll_and_redraw 1000 DOWN
          { surface := sdl_draw_mandelbrot ⟨WIDTH, fun _ => ⟨0, 0, 0⟩⟩ (-5640) 17,
            vars := { cx := -1703, cy := -401, upper_left_r_fp := -5640, upper_left_i_fp := 17,
                      dx := 1, dy := -1, mx1 := 0, mx2 := WIDTH - 1, my1 := 0,
                      my2 := HEIGHT - 1 },
            previous := DOWN_RIGHT } = some s'
        ∧ s'.vars.upper_left_r_fp = -5640 ∧ s'.vars.upper_left_i_fp = 15
        ∧ s'.surface.pixels (589 * WIDTH + 799) = ⟨255, 255, 255⟩
        ∧ (sdl_draw_mandelbrot ⟨WIDTH, fun _ => ⟨0, 0, 0⟩⟩ s'.vars.upper_left_r_fp
              s'.vars.upper_left_i_fp).pixels (589 * WIDTH + 799) = ⟨246, 246, 246⟩ := by
  refine ⟨offset_walk_401, by decide, ?_⟩
  obtain ⟨s', h1, h2, h3, -, h5⟩ := scroll_down_last_column 1000 (by norm_num)
    { surface := sdl_draw_mandelbrot ⟨WIDTH, fun _ => ⟨0, 0, 0⟩⟩ (-5640) 17,
      vars := { cx := -1703, cy := -401, upper_left_r_fp := -5640, upper_left_i_fp := 17,
                dx := 1, dy := -1, mx1 := 0, mx2 := WIDTH - 1, my1 := 0, my2 := HEIGHT - 1 },
      previous := DOWN_RIGHT }
    (by simp only [sdl_draw_mandelbrot_w]) (by decide) 589 (by decide)
  simp only at h2 h3 h5
  have e3 : toSint16 (17 - PIXEL_SIZE_FP) = 15 := by decide
  rw [e3] at h3
  refine ⟨s', h1, h2, h3, ?_, ?_⟩
  · have e : (589 : Int) * WIDTH + 799 = 589 * WIDTH + (WIDTH - 1) := by decide
    rw [e, h5, ← e,
      sdl_draw_mandelbrot_apply _ _ _ 799 589 rfl (by decide) (by decide) (by decide)]
    decide
  · rw [h2, h3,
      sdl_draw_mandelbrot_apply _ _ _ 799 589 rfl (by decide) (by decide) (by decide)]
    decide

/-! ## The iteration loop -/

/-- The loop started at `n` in [0, 31] breaks after at most `31 - n` updates when
it may test its condition `32 - n` times. -/
theorem mandelbrot_loop_returns (c_r c_i : Int) :
    ∀ (fuel : Nat) (n z_r z_i : Int) (u : Nat), 0 ≤ n → n ≤ 31 → 32 ≤ (fuel : Int) + n →
      ∃ (m : Int) (k : Nat), mandelbrot_loop c_r c_i fuel n z_r z_i u = some (m, u + k)
        ∧ n ≤ m ∧ m ≤ 31 ∧ (k : Int) = m - n := by
  intro fuel
  induction fuel with
  | zero => intro n z_r z_i u h0 h1 h2; omega
  | succ fuel ih =>
    intro n z_r z_i u h0 h1 h2
    unfold mandelbrot_loop
    simp only [fp_bail_out]
    split_ifs with hb
    · exact ⟨n, 0, rfl, le_refl _, h1, by simp⟩
    · have hn : n ≤ 30 := by
        have : ¬ n > MAXITER := fun h => hb (Or.inl h)
        unfold MAXITER at this; omega
      rw [toUint8_of_range (by omega) (by omega)]
      obtain ⟨m, k, hk, hm1, hm2, hm3⟩ := ih (n + 1) _ _ (u + 1) (by omega) (by omega)
        (by push_cast at h2 ⊢; omega)
      exact ⟨m, k + 1, by rw [hk]; congr 2; omega, by omega, hm2, by push_cast; omega⟩

/-- More fuel does not change a result. -/
theorem mandelbrot_loop_mono (c_r c_i : Int) :
    ∀ (fuel : Nat) (n z_r z_i : Int) (u : Nat) (r : Int × Nat),
      mandelbrot_loop c_r c_i fuel n z_r z_i u = some r →
      ∀ extra : Nat, mandelbrot_loop c_r c_i (fuel + extra) n z_r z_i u = some r := by
  intro fuel
  induction fuel with
  | zero => intro n z_r z_i u r h; simp [mandelbrot_loop] at h
  | succ fuel ih =>
    intro n z_r z_i u r h extra
    rw [show fuel + 1 + extra = (fuel + extra) + 1 by omega]
    unfold mandelbrot_loop at h ⊢
    simp only at h ⊢
    split_ifs at h ⊢ with hb
    · exact h
    · exact ih _ _ _ _ _ h extra

/-- With 32 tests of the loop condition or more, `mandelbrot_pixel_fuel` returns
the value of `mandelbrot_pixel`. -/
theorem mandelbrot_pixel_fuel_eq (c_r c_i : Int) (fuel : Nat) (hf : 32 ≤ fuel) :
    mandelbrot_pixel_fuel fuel c_r c_i = some (mandelbrot_pixel c_r c_i) := by
  unfold mandelbrot_pixel mandelbrot_pixel_fuel
  cases hs : mandelbrot_shortcuts c_r c_i with
  | some v => rfl
  | none =>
    obtain ⟨m, k, hk, -, -, -⟩ := mandelbrot_loop_returns c_r c_i 32 0 c_r c_i 0
      (le_refl _) (by norm_num) (by norm_num)
    have h2 := mandelbrot_loop_mono c_r c_i 32 0 c_r c_i 0 _ hk (fuel - 32)
    rw [show 32 + (fuel - 32) = fuel by omega] at h2
    simp only [hk, h2, Option.map_some', Option.getD_some]

/-- Claim C2.  For all inputs (in particular all pairs of signed 16-bit values),
as soon as the loop condition may be tested `MAXITER + 2 = 32` times,
`mandelbrot_pixel` returns, its value lies in `[0, MAXITER + 1] = [0, 31]`, and the
iteration loop performs at most `MAXITER + 1 = 31` updates of `(z_r, z_i)`. -/
theorem mandelbrot_pixel_terminates (c_r c_i : Int) (fuel : Nat) (hf : 32 ≤ fuel) :
    (∃ n, mandelbrot_pixel_fuel fuel c_r c_i = some n ∧ mandelbrot_pixel c_r c_i = n
        ∧ 0 ≤ n ∧ n ≤ MAXITER + 1)
      ∧ (∃ n updates, mandelbrot_loop c_r c_i fuel 0 c_r c_i 0 = some (n, updates)
          ∧ updates ≤ 31) := by
  obtain ⟨m, k, hk, hm1, hm2, hm3⟩ := mandelbrot_loop_returns c_r c_i 32 0 c_r c_i 0
    (le_refl _) (by norm_num) (by norm_num)
  have h2 := mandelbrot_loop_mono c_r c_i 32 0 c_r c_i 0 _ hk (fuel - 32)
  rw [show 32 + (fuel - 32) = fuel by omega] at h2
  refine ⟨⟨mandelbrot_pixel c_r c_i, mandelbrot_pixel_fuel_eq c_r c_i fuel hf, rfl, ?_⟩,
    ⟨m, 0 + k, h2, by omega⟩⟩
  unfold mandelbrot_pixel mandelbrot_pixel_fuel
  cases hs : mandelbrot_shortcuts c_r c_i with
  | some v =>
    simp only [Option.getD_some]
    unfold mandelbrot_shortcuts at hs
    simp only [maxiter_succ] at hs
    unfold MAXITER
    split_ifs at hs <;> simp only [Option.some.injEq] at hs <;> omega
  | none =>
    simp only [hk, Option.map_some', Option.getD_some]
    unfold MAXITER; omega

theorem mandelbrot_pixel_terminates_witness :
    (32 ≤ 40) ∧
    (∃ n, mandelbrot_pixel_fuel 40 1500 0 = some n ∧ mandelbrot_pixel 1500 0 = n
        ∧ 0 ≤ n ∧ n ≤ MAXITER + 1)
      ∧ (∃ n updates, mandelbrot_loop 1500 0 40 0 1500 0 0 = some (n, updates)
          ∧ updates ≤ 31) :=
  ⟨by decide, mandelbrot_pixel_terminates 1500 0 40 (by decide)⟩

/-- A shortcut that fires decides the result, whatever the fuel. -/
theorem mandelbrot_pixel_fuel_of_shortcut {c_r c_i v : Int}
    (h : mandelbrot_shortcuts c_r c_i = some v) (fuel : Nat) :
    mandelbrot_pixel_fuel fuel c_r c_i = some v := by
  unfold mandelbrot_pixel_fuel; rw [h]

theorem mandelbrot_pixel_of_shortcut {c_r c_i v : Int}
    (h : mandelbrot_shortcuts c_r c_i = some v) : mandelbrot_pixel c_r c_i = v := by
  unfold mandelbrot_pixel; rw [mandelbrot_pixel_fuel_of_shortcut h]; rfl

/-- The per-axis test (line 48) fires on every input with a coordinate of
magnitude 2.0 or more. -/
theorem mandelbrot_shortcuts_axis (c_r c_i : Int)
    (h : c_r ≤ -8192 ∨ c_r ≥ 8192 ∨ c_i ≤ -8192 ∨ c_i ≥ 8192) :
    mandelbrot_shortcuts c_r c_i = some 0 := by
  unfold mandelbrot_shortcuts
  simp only [fp_neg_two, fp_two]
  rw [if_pos h]

/-- In the box, a point that passes the cardioid inequality passes neither the
combined-axis test nor the bail-out test. -/
theorem cardioid_not_rejected (c_r c_i : Int) (hr1 : -8192 < c_r) (hr2 : c_r < 8192)
    (hi1 : -8192 < c_i) (hi2 : c_i < 8192)
    (h : ((c_r - 1024) * (c_r - 1024) / 4096 + c_i * c_i / 4096)
            * (c_r * c_r / 4096 + c_r / 2 + c_i * c_i / 4096 - 768) / 1024
            < c_i * c_i / 4096) :
    c_r * c_r / 4096 + c_i * c_i / 4096 < 16384 ∧
    (c_r + 2048) * (c_r + 2048) / 4096 + c_i * c_i / 4096 ≤ 9216 := by
  obtain ⟨hA0, hA1⟩ := sq_lt_of_box hr1 hr2
  obtain ⟨hB0, hB1⟩ := sq_lt_of_box hi1 hi2
  have e1 : (c_r + 2048) * (c_r + 2048) = c_r * c_r + 4096 * c_r + 4194304 := by ring
  have sq2 : 0 ≤ (c_r - 1024) * (c_r - 1024) := mul_self_nonneg _
  have hq : c_i * c_i / 4096 ≤ (c_r - 1024) * (c_r - 1024) / 4096 + c_i * c_i / 4096 := by
    omega
  have hy : 0 ≤ c_i * c_i / 4096 := by omega
  by_contra hc
  have hp : 1024 ≤ c_r * c_r / 4096 + c_r / 2 + c_i * c_i / 4096 - 768 := by
    rw [e1] at hc; omega
  generalize (c_r - 1024) * (c_r - 1024) / 4096 + c_i * c_i / 4096 = q at h hq
  generalize c_r * c_r / 4096 + c_r / 2 + c_i * c_i / 4096 - 768 = p at h hp
  generalize c_i * c_i / 4096 = y at h hq hy
  have h1 : q * p < 1024 * y := by omega
  nlinarith [mul_le_mul hq hp (by norm_num) (le_trans hy hq)]

/-- Claim C3.  Whenever a coordinate has magnitude 2.0 or more (`c_r <= -8192`,
`c_r >= 8192`, `c_i <= -8192` or `c_i >= 8192`), `mandelbrot_pixel` returns 0,
for every fuel, whatever the squares computed before the test are; in
particular `mandelbrot_pixel(12288, 0) = 0`. -/
theorem mandelbrot_pixel_outside_axis (c_r c_i : Int)
    (h : c_r ≤ -8192 ∨ c_r ≥ 8192 ∨ c_i ≤ -8192 ∨ c_i ≥ 8192) :
    mandelbrot_pixel c_r c_i = 0 ∧ (∀ fuel, mandelbrot_pixel_fuel fuel c_r c_i = some 0)
      ∧ mandelbrot_pixel 12288 0 = 0 :=
  ⟨mandelbrot_pixel_of_shortcut (mandelbrot_shortcuts_axis c_r c_i h),
   mandelbrot_pixel_fuel_of_shortcut (mandelbrot_shortcuts_axis c_r c_i h),
   by decide⟩

theorem mandelbrot_pixel_outside_axis_witness :
    ((-32768 : Int) ≤ -8192 ∨ (-32768 : Int) ≥ 8192 ∨ (12345 : Int) ≤ -8192 ∨ (12345 : Int) ≥ 8192)
      ∧ mandelbrot_pixel (-32768) 12345 = 0 :=
  ⟨by decide, (mandelbrot_pixel_outside_axis (-32768) 12345 (by decide)).1⟩

/-- Claim C4.  For `-8192 < c_r, c_i < 8192`, a point that satisfies the cardioid
inequality of line 67, `((t + ysqr) * (xsqr + (c_r >> 1) + ysqr - 768)) >> 10 < ysqr`
with `xsqr = (c_r*c_r) >> 12`, `ysqr = (c_i*c_i) >> 12`, `t = ((c_r - 1024)^2) >> 12`,
is not rejected by the combined-axis test nor by the bail-out test, and
`mandelbrot_pixel` returns `MAXITER + 1 = 31` for it, for every fuel; in
particular `mandelbrot_pixel(0, 0) = 31`, decided by the cardioid test. -/
theorem mandelbrot_pixel_cardioid (c_r c_i : Int) (hr1 : -8192 < c_r) (hr2 : c_r < 8192)
    (hi1 : -8192 < c_i) (hi2 : c_i < 8192)
    (h : sar ((sar ((c_r - 1024) * (c_r - 1024)) 12 + sar (c_i * c_i) 12)
            * (sar (c_r * c_r) 12 + sar c_r 1 + sar (c_i * c_i) 12 - 768)) 10
          < sar (c_i * c_i) 12) :
    mandelbrot_pixel c_r c_i = MAXITER + 1
      ∧ (∀ fuel, mandelbrot_pixel_fuel fuel c_r c_i = some 31)
      ∧ sar (c_r * c_r) 12 + sar (c_i * c_i) 12 < 16384
      ∧ sar ((c_r + 2048) * (c_r + 2048)) 12 + sar (c_i * c_i) 12 ≤ 9216
      ∧ mandelbrot_shortcuts 0 0 = some 31
      ∧ sar ((sar ((0 - 1024) * (0 - 1024)) 12 + sar (0 * 0) 12)
            * (sar (0 * 0) 12 + sar 0 1 + sar (0 * 0) 12 - 768)) 10 < sar (0 * 0) 12 := by
  have e12 : ∀ x : Int, sar x 12 = x / 4096 := sar_12
  have e10 : ∀ x : Int, sar x 10 = x / 1024 := sar_10
  simp only [e12, e10, sar_1] at h ⊢
  obtain ⟨hA, hB⟩ := cardioid_not_rejected c_r c_i hr1 hr2 hi1 hi2 h
  have hs : mandelbrot_shortcuts c_r c_i = some 31 := by
    rw [mandelbrot_shortcuts_box c_r c_i hr1 hr2 hi1 hi2, if_neg (by omega), if_neg (by omega),
      if_pos h]
  exact ⟨mandelbrot_pixel_of_shortcut hs, mandelbrot_pixel_fuel_of_shortcut hs, hA, hB,
    by decide, by decide⟩

theorem mandelbrot_pixel_cardioid_witness :
    mandelbrot_pixel (-2000) 1500 = MAXITER + 1 :=
  (mandelbrot_pixel_cardioid (-2000) 1500 (by decide) (by decide) (by decide) (by decide)
    (by decide)).1

/-- Claim C5.  For every coordinate strictly inside the period-2 bulb,
`(c_r + 4096)^2 + c_i^2 < 2^20`, `mandelbrot_pixel` returns `MAXITER + 1 = 31`, for
every fuel. -/
theorem mandelbrot_pixel_bulb (c_r c_i : Int)
    (h : (c_r + 4096) ^ 2 + c_i ^ 2 < 2 ^ 20) :
    mandelbrot_pixel c_r c_i = MAXITER + 1
      ∧ ∀ fuel, mandelbrot_pixel_fuel fuel c_r c_i = some 31 := by
  have h' : (c_r + 4096) * (c_r + 4096) + c_i * c_i < 1048576 := by
    have := h; ring_nf at this ⊢; linarith
  have s1 : 0 ≤ (c_r + 4096) * (c_r + 4096) := mul_self_nonneg _
  have s2 : 0 ≤ c_i * c_i := mul_self_nonneg _
  have hr1 : -5120 < c_r := by
    by_contra hc
    have : c_r + 4096 ≤ -1024 := by omega
    nlinarith
  have hr2 : c_r < -3072 := by
    by_contra hc
    have : 1024 ≤ c_r + 4096 := by omega
    nlinarith
  have hi1 : -1024 < c_i := by
    by_contra hc
    have : c_i ≤ -1024 := by omega
    nlinarith
  have hi2 : c_i < 1024 := by
    by_contra hc
    have : 1024 ≤ c_i := by omega
    nlinarith
  have e1 : (c_r + 2048) * (c_r + 2048) = c_r * c_r + 4096 * c_r + 4194304 := by ring
  have e3 : (c_r + 4096) * (c_r + 4096) = c_r * c_r + 8192 * c_r + 16777216 := by ring
  have hs : mandelbrot_shortcuts c_r c_i = some 31 := by
    rw [mandelbrot_shortcuts_box c_r c_i (by omega) (by omega) (by omega) (by omega),
      if_neg (by omega), if_neg (by rw [e1]; omega)]
    split_ifs with h3 h4
    · rfl
    · rfl
    · exact absurd (show (c_r + 4096) * (c_r + 4096) / 4096 + c_i * c_i / 4096 < 256 by omega) h4
  exact ⟨mandelbrot_pixel_of_shortcut hs, mandelbrot_pixel_fuel_of_shortcut hs⟩

theorem mandelbrot_pixel_bulb_witness :
    ((-4136 : Int) + 4096) ^ 2 + (819 : Int) ^ 2 < 2 ^ 20 ∧ mandelbrot_pixel (-4136) 819 = MAXITER + 1 :=
  ⟨by decide, (mandelbrot_pixel_bulb (-4136) 819 (by decide)).1⟩

/-- A point that reaches the loop has both coordinates below 2.0 in magnitude. -/
theorem box_of_shortcuts_none {c_r c_i : Int} (h : mandelbrot_shortcuts c_r c_i = none) :
    (-8192 < c_r ∧ c_r < 8192) ∧ (-8192 < c_i ∧ c_i < 8192) := by
  by_contra hc
  have h0 := mandelbrot_shortcuts_axis c_r c_i (by omega)
  rw [h] at h0
  exact Option.noConfusion h0

/-- A value whose square is below 2^26 is below 2^13 in magnitude. -/
theorem abs_lt_of_sq_lt {x : Int} (h : x * x < 67108864) : -8192 < x ∧ x < 8192 := by
  constructor
  · by_contra hc
    have : x ≤ -8192 := by omega
    nlinarith
  · by_contra hc
    have : 8192 ≤ x := by omega
    nlinarith

/-- One update of the loop body, for `c` in the box and `z` not escaped: the
stored 16-bit values are those of `orbit_step` and stay within 24576. -/
theorem loop_update_eq (c_r c_i z_r z_i : Int) (hr : -8192 < c_r ∧ c_r < 8192)
    (hi : -8192 < c_i ∧ c_i < 8192) (hz : z_r * z_r + z_i * z_i < 67108864) :
    toSint16 (FROM_FP (toSint32 (z_r * z_r)) - FROM_FP (toSint32 (z_i * z_i)) + c_r)
        = (orbit_step c_r c_i (z_r, z_i)).1
      ∧ toSint16 (sar (toSint32 (z_r * z_i)) (DECIMAL_BITS - 1) + c_i)
        = (orbit_step c_r c_i (z_r, z_i)).2
      ∧ (-24576 ≤ (orbit_step c_r c_i (z_r, z_i)).1 ∧ (orbit_step c_r c_i (z_r, z_i)).1 ≤ 24576)
      ∧ (-24576 ≤ (orbit_step c_r c_i (z_r, z_i)).2 ∧ (orbit_step c_r c_i (z_r, z_i)).2 ≤ 24576) := by
  have sA : 0 ≤ z_r * z_r := mul_self_nonneg _
  have sB : 0 ≤ z_i * z_i := mul_self_nonneg _
  have hP1 : z_r * z_i ≤ 33554431 := by nlinarith [mul_self_nonneg (z_r - z_i)]
  have hP2 : -33554431 ≤ z_r * z_i := by nlinarith [mul_self_nonneg (z_r + z_i)]
  have e12 : ∀ x : Int, sar x 12 = x / 4096 := fun x => by rw [sar_eq_ediv]; rfl
  have e11 : ∀ x : Int, sar x 11 = x / 2048 := fun x => by rw [sar_eq_ediv]; rfl
  unfold orbit_step FROM_FP
  simp only [sar_12, sar_11, e12, e11]
  rw [toSint32_of_range (x := z_r * z_r) (by omega) (by omega),
    toSint32_of_range (x := z_i * z_i) (by omega) (by omega),
    toSint32_of_range (x := z_r * z_i) (by omega) (by omega),
    toSint16_of_range (x := z_r * z_r / 4096) (by omega) (by omega),
    toSint16_of_range (x := z_i * z_i / 4096) (by omega) (by omega),
    toSint16_of_range (x := z_r * z_r / 4096 - z_i * z_i / 4096 + c_r) (by omega) (by omega),
    toSint16_of_range (x := z_r * z_i / 2048 + c_i) (by omega) (by omega)]
  refine ⟨rfl, rfl, ⟨?_, ?_⟩, ⟨?_, ?_⟩⟩ <;> omega

/-- The loop follows the orbit: started at index `j` on `orbit j`, it returns the
first index `n >= j` at which the orbit has escaped, or 31. -/
theorem mandelbrot_loop_orbit (c_r c_i : Int) (hr : -8192 < c_r ∧ c_r < 8192)
    (hi : -8192 < c_i ∧ c_i < 8192) :
    ∀ (fuel j u : Nat), j ≤ 31 → 32 ≤ fuel + j →
      (-24576 ≤ (orbit c_r c_i j).1 ∧ (orbit c_r c_i j).1 ≤ 24576) →
      (-24576 ≤ (orbit c_r c_i j).2 ∧ (orbit c_r c_i j).2 ≤ 24576) →
      ∃ n : Nat, mandelbrot_loop c_r c_i fuel j (orbit c_r c_i j).1 (orbit c_r c_i j).2 u
          = some ((n : Int), u + (n - j))
        ∧ j ≤ n ∧ n ≤ 31 ∧ (∀ k, j ≤ k → k < n → ¬ escaped (orbit c_r c_i k))
        ∧ (n ≤ 30 → escaped (orbit c_r c_i n)) := by
  intro fuel
  induction fuel with
  | zero => intro j u h1 h2; omega
  | succ fuel ih =>
    intro j u h1 h2 hb1 hb2
    generalize hz : orbit c_r c_i j = z at hb1 hb2
    obtain ⟨z_r, z_i⟩ := z
    simp only at hb1 hb2
    have sA : 0 ≤ z_r * z_r := mul_self_nonneg _
    have sB : 0 ≤ z_i * z_i := mul_self_nonneg _
    have sA2 : z_r * z_r ≤ 603979776 := by nlinarith
    have sB2 : z_i * z_i ≤ 603979776 := by nlinarith
    unfold mandelbrot_loop
    simp only [fp_bail_out]
    rw [toSint32_of_range (x := z_r * z_r) (by omega) (by omega),
      toSint32_of_range (x := z_i * z_i) (by omega) (by omega),
      toSint32_of_range (x := z_r * z_r + z_i * z_i) (by omega) (by omega)]
    split_ifs with hb
    · refine ⟨j, by simp, le_refl _, h1, fun k hk1 hk2 => by omega, fun hj => ?_⟩
      rw [hz]; unfold escaped; simp only
      rcases hb with hb | hb
      · unfold MAXITER at hb; omega
      · norm_num; exact hb
    · have hn : j ≤ 30 := by
        have : ¬ (j : Int) > MAXITER := fun h => hb (Or.inl h)
        unfold MAXITER at this; omega
      have hesc : z_r * z_r + z_i * z_i < 67108864 := by
        have : ¬ (z_r * z_r + z_i * z_i ≥ 67108864) := fun h => hb (Or.inr h)
        omega
      obtain ⟨u1, u2, u3, u4⟩ := loop_update_eq c_r c_i z_r z_i hr hi hesc
      have hstep : orbit c_r c_i (j + 1) = orbit_step c_r c_i (z_r, z_i) := by
        show orbit_step c_r c_i (orbit c_r c_i j) = _
        rw [hz]
      rw [toSint32_of_range (x := z_r * z_r) (by omega) (by omega),
        toSint32_of_range (x := z_i * z_i) (by omega) (by omega)] at u1
      rw [toUint8_of_range (by omega) (by omega), u1, u2, ← hstep]
      rw [← hstep] at u3 u4
      obtain ⟨n, hn1, hn2, hn3, hn4, hn5⟩ := ih (j + 1) (u + 1) (by omega) (by omega) u3 u4
      refine ⟨n, ?_, by omega, hn3, fun k hk1 hk2 => ?_, hn5⟩
      · have : ((j : Int) + 1) = ((j + 1 : Nat) : Int) := by push_cast; rfl
        rw [this, hn1]; congr 2; omega
      · by_cases hkj : k = j
        · subst hkj; rw [hz]; unfold escaped; simp only; norm_num; omega
        · exact hn4 k (by omega) hk2

/-- Claim C6.  When none of the five shortcut tests fires, the value of
`mandelbrot_pixel` (for every fuel of 32 or more) is the escape time of the
fixed-point orbit `z_0 = (c_r, c_i)`,
`z_(k+1) = ((z_r*z_r >> 12) - (z_i*z_i >> 12) + c_r, ((z_r*z_i) >> 11) + c_i)` over the
integers: the least `n` in `[0, MAXITER]` with `z_r*z_r + z_i*z_i >= 2^26` at `z_n`, and
`MAXITER + 1 = 31` when there is no such `n`. -/
theorem mandelbrot_pixel_escape_time (c_r c_i : Int)
    (h : mandelbrot_shortcuts c_r c_i = none) :
    ∃ n : Nat, mandelbrot_pixel c_r c_i = n
      ∧ (∀ fuel, 32 ≤ fuel → mandelbrot_pixel_fuel fuel c_r c_i = some (n : Int))
      ∧ n ≤ 31
      ∧ (∀ k, k < n → ¬ escaped (orbit c_r c_i k))
      ∧ (n ≤ 30 → escaped (orbit c_r c_i n))
      ∧ TO_FP_CONST BAIL_OUT_SQR 1 = 2 ^ 26 := by
  obtain ⟨hr, hi⟩ := box_of_shortcuts_none h
  obtain ⟨n, hn1, -, hn3, hn4, hn5⟩ := mandelbrot_loop_orbit c_r c_i hr hi 32 0 0
    (by norm_num) (by norm_num) (by simp only [orbit]; omega) (by simp only [orbit]; omega)
  have hp : mandelbrot_pixel c_r c_i = n := by
    unfold mandelbrot_pixel mandelbrot_pixel_fuel
    rw [h]
    simp only [orbit, Nat.cast_zero] at hn1
    simp only [hn1, Option.map_some', Option.getD_some]
  refine ⟨n, hp, fun fuel hf => ?_, hn3, fun k hk => hn4 k (Nat.zero_le k) hk, hn5, by decide⟩
  rw [mandelbrot_pixel_fuel_eq c_r c_i fuel hf, hp]

theorem mandelbrot_pixel_escape_time_witness :
    mandelbrot_shortcuts 1500 0 = none ∧ mandelbrot_pixel 1500 0 = 7
      ∧ ¬ escaped (orbit 1500 0 6) ∧ escaped (orbit 1500 0 7)
      ∧ ∃ n : Nat, mandelbrot_pixel 1500 0 = n
      ∧ (∀ fuel, 32 ≤ fuel → mandelbrot_pixel_fuel fuel 1500 0 = some (n : Int))
      ∧ n ≤ 31
      ∧ (∀ k, k < n → ¬ escaped (orbit 1500 0 k))
      ∧ (n ≤ 30 → escaped (orbit 1500 0 n))
      ∧ TO_FP_CONST BAIL_OUT_SQR 1 = 2 ^ 26 :=
  ⟨by decide, by decide, by decide, by decide, mandelbrot_pixel_escape_time 1500 0 (by decide)⟩

/-! ## The direction selector -/

theorem offset_change_values :
    offset_change 0 = (1, 0) ∧ offset_change 1 = (1, 1) ∧ offset_change 2 = (0, 1)
      ∧ offset_change 3 = (-1, 1) ∧ offset_change 4 = (-1, 0) ∧ offset_change 5 = (-1, -1)
      ∧ offset_change 6 = (0, -1) ∧ offset_change 7 = (1, -1) := by decide

/-- The first loop leaves outside `[tmp, tmp + k)` every entry as it is and
replaces inside the entry by its distance to entry 8, which lies outside. -/
theorem absdiff_loop_apply : ∀ (k : Nat) (tmp : Int) (c : Int → Int) (i : Int),
    tmp + k ≤ 8 →
    absdiff_loop k tmp c i =
      if tmp ≤ i ∧ i < tmp + k then
        (if c i > c 8 then toUint32 (c i - c 8) else toUint32 (c 8 - c i))
      else c i := by
  intro k
  induction k with
  | zero =>
    intro tmp c i h
    have hc : ¬ (tmp ≤ i ∧ i < tmp + ((0 : Nat) : Int)) := by push_cast; omega
    rw [if_neg hc]; rfl
  | succ k ih =>
    intro tmp c i h
    unfold absdiff_loop
    rw [ih (tmp + 1) _ i (by push_cast at h ⊢; omega)]
    have h8 : (8 : Int) ≠ tmp := by push_cast at h; omega
    simp only [write, NO_DIRECTION, if_neg h8]
    by_cases hi : i = tmp
    · subst hi
      have hc1 : ¬ (i + 1 ≤ i ∧ i < i + 1 + (k : Int)) := by omega
      have hc2 : i ≤ i ∧ i < i + ((k + 1 : Nat) : Int) := by push_cast; omega
      rw [if_neg hc1, if_pos hc2]
      simp only [if_true]
    · simp only [if_neg hi]
      by_cases h2 : tmp + 1 ≤ i ∧ i < tmp + 1 + (k : Int)
      · have hc2 : tmp ≤ i ∧ i < tmp + ((k + 1 : Nat) : Int) := by push_cast; omega
        rw [if_pos h2, if_pos hc2]
      · have hc2 : ¬ (tmp ≤ i ∧ i < tmp + ((k + 1 : Nat) : Int)) := by push_cast; omega
        rw [if_neg h2, if_neg hc2]

/-- What lines 141-150 store in the nine entries, whatever the table held
before. -/
theorem fill_cache_entries (c : Int → Int) (cx cy : Int) :
    let v := toUint32 (toSint32 (toSint32 (cx * cx) + toSint32 (cy * cy)))
    let l := toUint32 (v - cx - toSint32 (cx - 1))
    let r := toUint32 (v + cx + toSint32 (cx + 1))
    let u := toSint32 (cy + toSint32 (cy + 1))
    let d := toSint32 (toSint32 (-cy) - toSint32 (cy - 1))
    fill_cache c cx cy 0 = r ∧ fill_cache c cx cy 1 = toUint32 (r + u)
      ∧ fill_cache c cx cy 2 = toUint32 (v + u) ∧ fill_cache c cx cy 3 = toUint32 (l + u)
      ∧ fill_cache c cx cy 4 = l ∧ fill_cache c cx cy 5 = toUint32 (l + d)
      ∧ fill_cache c cx cy 6 = toUint32 (v + d) ∧ fill_cache c cx cy 7 = toUint32 (r + d)
      ∧ fill_cache c cx cy 8 = toUint32 RADIUS_SQR :=
  ⟨rfl, rfl, rfl, rfl, rfl, rfl, rfl, rfl, rfl⟩

/-- The arithmetic of lines 141-150 without the table: for offsets of magnitude
at most 30000 no conversion changes a value. -/
theorem cache_arith (cx cy : Int) (hx : -30000 ≤ cx ∧ cx ≤ 30000)
    (hy : -30000 ≤ cy ∧ cy ≤ 30000) :
    let v := toUint32 (toSint32 (toSint32 (cx * cx) + toSint32 (cy * cy)))
    let l := toUint32 (v - cx - toSint32 (cx - 1))
    let r := toUint32 (v + cx + toSint32 (cx + 1))
    let u := toSint32 (cy + toSint32 (cy + 1))
    let d := toSint32 (toSint32 (-cy) - toSint32 (cy - 1))
    r = (cx + 1) ^ 2 + (cy + 0) ^ 2 ∧ toUint32 (r + u) = (cx + 1) ^ 2 + (cy + 1) ^ 2
      ∧ toUint32 (v + u) = (cx + 0) ^ 2 + (cy + 1) ^ 2
      ∧ toUint32 (l + u) = (cx + -1) ^ 2 + (cy + 1) ^ 2
      ∧ l = (cx + -1) ^ 2 + (cy + 0) ^ 2 ∧ toUint32 (l + d) = (cx + -1) ^ 2 + (cy + -1) ^ 2
      ∧ toUint32 (v + d) = (cx + 0) ^ 2 + (cy + -1) ^ 2
      ∧ toUint32 (r + d) = (cx + 1) ^ 2 + (cy + -1) ^ 2 := by
  have sA : 0 ≤ cx * cx := mul_self_nonneg _
  have sB : 0 ≤ cy * cy := mul_self_nonneg _
  have sA2 : cx * cx ≤ 900000000 := by nlinarith
  have sB2 : cy * cy ≤ 900000000 := by nlinarith
  have q1 : 0 ≤ cx * cx - 2 * cx + 1 := by nlinarith [mul_self_nonneg (cx - 1)]
  have q2 : 0 ≤ cx * cx + 2 * cx + 1 := by nlinarith [mul_self_nonneg (cx + 1)]
  have q3 : 0 ≤ cy * cy - 2 * cy + 1 := by nlinarith [mul_self_nonneg (cy - 1)]
  have q4 : 0 ≤ cy * cy + 2 * cy + 1 := by nlinarith [mul_self_nonneg (cy + 1)]
  have hV : toUint32 (toSint32 (toSint32 (cx * cx) + toSint32 (cy * cy))) = cx * cx + cy * cy := by
    rw [toSint32_of_range (x := cx * cx) (by omega) (by omega),
      toSint32_of_range (x := cy * cy) (by omega) (by omega),
      toSint32_of_range (by omega) (by omega), toUint32_of_range (by omega) (by omega)]
  have hxm : toSint32 (cx - 1) = cx - 1 := toSint32_of_range (by omega) (by omega)
  have hxp : toSint32 (cx + 1) = cx + 1 := toSint32_of_range (by omega) (by omega)
  have hyp : toSint32 (cy + toSint32 (cy + 1)) = 2 * cy + 1 := by
    rw [toSint32_of_range (x := cy + 1) (by omega) (by omega),
      toSint32_of_range (by omega) (by omega)]; ring
  have hym : toSint32 (toSint32 (-cy) - toSint32 (cy - 1)) = 1 - 2 * cy := by
    rw [toSint32_of_range (x := -cy) (by omega) (by omega),
      toSint32_of_range (x := cy - 1) (by omega) (by omega),
      toSint32_of_range (by omega) (by omega)]; ring
  have hL : toUint32 (cx * cx + cy * cy - cx - (cx - 1)) = cx * cx + cy * cy - 2 * cx + 1 := by
    rw [toUint32_of_range (by omega) (by omega)]; ring
  have hR : toUint32 (cx * cx + cy * cy + cx + (cx + 1)) = cx * cx + cy * cy + 2 * cx + 1 := by
    rw [toUint32_of_range (by omega) (by omega)]; ring
  simp only [hV, hxm, hxp, hyp, hym, hL, hR]
  refine ⟨by ring, ?_, ?_, ?_, by ring, ?_, ?_, ?_⟩ <;>
    rw [toUint32_of_range (by omega) (by omega)] <;> ring

/-- The table of squared distances after lines 141-150, for offsets of
magnitude at most 30000. -/
theorem fill_cache_values (c : Int → Int) (cx cy : Int) (hx : -30000 ≤ cx ∧ cx ≤ 30000)
    (hy : -30000 ≤ cy ∧ cy ≤ 30000) (i : Int) (h0 : 0 ≤ i) (h7 : i ≤ 7) :
    fill_cache c cx cy i
        = (cx + (offset_change i).1) ^ 2 + (cy + (offset_change i).2) ^ 2
      ∧ fill_cache c cx cy 8 = RADIUS ^ 2 := by
  obtain ⟨o0, o1, o2, o3, o4, o5, o6, o7⟩ := offset_change_values
  obtain ⟨f0, f1, f2, f3, f4, f5, f6, f7, f8⟩ := fill_cache_entries c cx cy
  obtain ⟨a0, a1, a2, a3, a4, a5, a6, a7⟩ := cache_arith cx cy hx hy
  refine ⟨?_, f8.trans (by decide)⟩
  have hi : i = 0 ∨ i = 1 ∨ i = 2 ∨ i = 3 ∨ i = 4 ∨ i = 5 ∨ i = 6 ∨ i = 7 := by
    clear f0 f1 f2 f3 f4 f5 f6 f7 f8 a0 a1 a2 a3 a4 a5 a6 a7 o0 o1 o2 o3 o4 o5 o6 o7
    omega
  rcases hi with h | h | h | h | h | h | h | h <;> subst h
  · rw [o0]; exact f0.trans a0
  · rw [o1]; exact f1.trans a1
  · rw [o2]; exact f2.trans a2
  · rw [o3]; exact f3.trans a3
  · rw [o4]; exact f4.trans a4
  · rw [o5]; exact f5.trans a5
  · rw [o6]; exact f6.trans a6
  · rw [o7]; exact f7.trans a7

theorem toUint32_range (x : Int) : 0 ≤ toUint32 x ∧ toUint32 x ≤ 4294967295 := by
  unfold toUint32; omega

/-- After the first loop the entries 0..7 hold the scores. -/
theorem pan_cache_scores (c : Int → Int) (cx cy : Int) (hx : -30000 ≤ cx ∧ cx ≤ 30000)
    (hy : -30000 ≤ cy ∧ cy ≤ 30000) (i : Int) (h0 : 0 ≤ i) (h7 : i ≤ 7) :
    absdiff_loop 8 RIGHT (fill_cache c cx cy) i = score cx cy i := by
  obtain ⟨hv, h8⟩ := fill_cache_values c cx cy hx hy i h0 h7
  have hrange : 0 ≤ fill_cache c cx cy i ∧ fill_cache c cx cy i ≤ 4294967295 := by
    obtain ⟨f0, f1, f2, f3, f4, f5, f6, f7, -⟩ := fill_cache_entries c cx cy
    have hi : i = 0 ∨ i = 1 ∨ i = 2 ∨ i = 3 ∨ i = 4 ∨ i = 5 ∨ i = 6 ∨ i = 7 := by
      clear f0 f1 f2 f3 f4 f5 f6 f7 hv h8
      omega
    rcases hi with h | h | h | h | h | h | h | h <;> subst h
    · rw [f0]; exact toUint32_range _
    · rw [f1]; exact toUint32_range _
    · rw [f2]; exact toUint32_range _
    · rw [f3]; exact toUint32_range _
    · rw [f4]; exact toUint32_range _
    · rw [f5]; exact toUint32_range _
    · rw [f6]; exact toUint32_range _
    · rw [f7]; exact toUint32_range _
  have hin : RIGHT ≤ i ∧ i < RIGHT + ((8 : Nat) : Int) := by
    unfold RIGHT; push_cast; exact ⟨h0, by linarith⟩
  rw [absdiff_loop_apply 8 RIGHT _ i (by unfold RIGHT; norm_num), if_pos hin, h8]
  unfold score
  rw [← hv]
  generalize fill_cache c cx cy i = S at hrange
  have hR : RADIUS ^ 2 = 3062500 := by decide
  rw [hR]
  split_ifs with hgt
  · rw [toUint32_of_range (by omega) (by omega), abs_of_nonneg (by omega)]
  · rw [toUint32_of_range (by omega) (by omega), abs_of_nonpos (by omega)]; ring

/-- The second loop keeps `direction` the first minimum, among the indices other
than `p` that were scanned, of the table `s`. -/
theorem select_loop_spec (p : Int) (s : Int → Int) : ∀ (k : Nat) (tmp d : Int),
    0 ≤ d → d < tmp → d ≠ p →
    (∀ e, 0 ≤ e → e < tmp → e ≠ p → s d ≤ s e) →
    (∀ e, 0 ≤ e → e < d → e ≠ p → s d < s e) →
    0 ≤ select_loop p s k tmp d ∧ select_loop p s k tmp d < tmp + k
      ∧ select_loop p s k tmp d ≠ p
      ∧ (∀ e, 0 ≤ e → e < tmp + k → e ≠ p → s (select_loop p s k tmp d) ≤ s e)
      ∧ (∀ e, 0 ≤ e → e < select_loop p s k tmp d → e ≠ p →
          s (select_loop p s k tmp d) < s e) := by
  intro k
  induction k with
  | zero =>
    intro tmp d h0 h1 h2 h3 h4
    simp only [select_loop, Nat.cast_zero, add_zero]
    exact ⟨h0, h1, h2, h3, h4⟩
  | succ k ih =>
    intro tmp d h0 h1 h2 h3 h4
    unfold select_loop
    have e1 : tmp + ((k + 1 : Nat) : Int) = tmp + 1 + (k : Int) := by push_cast; ring
    rw [e1]
    by_cases hc : p ≠ tmp ∧ s tmp < s d
    · rw [if_pos hc]
      refine ih (tmp + 1) tmp (by omega) (by omega) (fun h => hc.1 h.symm) ?_ ?_
      · intro e he0 he1 he2
        by_cases het : e = tmp
        · rw [het]
        · have := h3 e he0 (by omega) he2
          omega
      · intro e he0 he1 he2
        have := h3 e he0 he1 he2
        omega
    · rw [if_neg hc]
      refine ih (tmp + 1) d h0 (by omega) h2 ?_ h4
      intro e he0 he1 he2
      by_cases het : e = tmp
      · subst het
        have : ¬ s e < s d := fun h => hc ⟨fun h' => he2 h'.symm, h⟩
        omega
      · exact h3 e he0 (by omega) he2

/-- The selector returns the first direction, in the order 0..7, of least score
among the directions other than the opposite of `previous`. -/
theorem pan_direction_spec (c : Int → Int) (cx cy previous : Int)
    (hx : -30000 ≤ cx ∧ cx ≤ 30000) (hy : -30000 ≤ cy ∧ cy ≤ 30000) :
    eligible previous (mandelbrot_pan_direction c cx cy previous).1
      ∧ (∀ e, eligible previous e →
          score cx cy (mandelbrot_pan_direction c cx cy previous).1 ≤ score cx cy e)
      ∧ (∀ e, eligible previous e → e < (mandelbrot_pan_direction c cx cy previous).1 →
          score cx cy (mandelbrot_pan_direction c cx cy previous).1 < score cx cy e) := by
  unfold mandelbrot_pan_direction eligible
  simp only
  generalize hs : absdiff_loop 8 RIGHT (fill_cache c cx cy) = s
  have hsc : ∀ i, 0 ≤ i → i ≤ 7 → s i = score cx cy i := fun i h0 h7 => by
    rw [← hs]; exact pan_cache_scores c cx cy hx hy i h0 h7
  generalize xor4 previous = p at *
  have key := select_loop_spec p s 6 UP
    (if p = RIGHT then UP_RIGHT else if p ≠ UP_RIGHT ∧ s UP_RIGHT < s RIGHT then UP_RIGHT
      else RIGHT)
  generalize hd0 : (if p = RIGHT then UP_RIGHT
    else if p ≠ UP_RIGHT ∧ s UP_RIGHT < s RIGHT then UP_RIGHT else RIGHT) = d0 at key ⊢
  have hinit : 0 ≤ d0 ∧ d0 < UP ∧ d0 ≠ p ∧ (∀ e, 0 ≤ e → e < UP → e ≠ p → s d0 ≤ s e)
      ∧ (∀ e, 0 ≤ e → e < d0 → e ≠ p → s d0 < s e) := by
    unfold RIGHT UP_RIGHT at hd0
    unfold UP
    by_cases h1 : p = 0
    · rw [if_pos h1] at hd0
      subst hd0
      refine ⟨by norm_num, by norm_num, by omega, fun e he0 he1 he2 => ?_,
        fun e he0 he1 he2 => ?_⟩
      · have : e = 1 := by omega
        rw [this]
      · omega
    · rw [if_neg h1] at hd0
      by_cases h2 : p ≠ 1 ∧ s 1 < s 0
      · rw [if_pos h2] at hd0
        subst hd0
        refine ⟨by norm_num, by norm_num, fun h => h2.1 h.symm, fun e he0 he1 he2 => ?_,
          fun e he0 he1 he2 => ?_⟩
        · have : e = 0 ∨ e = 1 := by omega
          rcases this with h | h <;> rw [h]
          exact le_of_lt h2.2
        · have : e = 0 := by omega
          rw [this]; exact h2.2
      · rw [if_neg h2] at hd0
        subst hd0
        refine ⟨by norm_num, by norm_num, fun h => h1 h.symm, fun e he0 he1 he2 => ?_,
          fun e he0 he1 he2 => ?_⟩
        · have : e = 0 ∨ e = 1 := by omega
          rcases this with h | h
          · rw [h]
          · subst h
            have : ¬ s 1 < s 0 := fun h' => h2 ⟨fun h'' => he2 h''.symm, h'⟩
            omega
        · omega
  obtain ⟨i0, i1, i2, i3, i4⟩ := hinit
  obtain ⟨r0, r1, r2, r3, r4⟩ := key i0 i1 i2 i3 i4
  generalize select_loop p s 6 UP d0 = r at r0 r1 r2 r3 r4 ⊢
  have r1' : r ≤ 7 := by unfold UP at r1; push_cast at r1; omega
  refine ⟨⟨r0, r1', r2⟩, fun e he => ?_, fun e he hlt => ?_⟩
  · rw [← hsc r r0 r1', ← hsc e he.1 he.2.1]
    exact r3 e he.1 (by unfold UP; push_cast; omega) he.2.2
  · rw [← hsc r r0 r1', ← hsc e he.1 he.2.1]
    exact r4 e he.1 hlt he.2.2

/-- The entries 0..8 after lines 141-150 do not depend on the table before. -/
theorem fill_cache_indep (c1 c2 : Int → Int) (cx cy i : Int) (h0 : 0 ≤ i) (h8 : i ≤ 8) :
    fill_cache c1 cx cy i = fill_cache c2 cx cy i := by
  obtain ⟨f0, f1, f2, f3, f4, f5, f6, f7, f8⟩ := fill_cache_entries c1 cx cy
  obtain ⟨g0, g1, g2, g3, g4, g5, g6, g7, g8⟩ := fill_cache_entries c2 cx cy
  have hi : i = 0 ∨ i = 1 ∨ i = 2 ∨ i = 3 ∨ i = 4 ∨ i = 5 ∨ i = 6 ∨ i = 7 ∨ i = 8 := by
    clear f0 f1 f2 f3 f4 f5 f6 f7 f8 g0 g1 g2 g3 g4 g5 g6 g7 g8
    omega
  rcases hi with h | h | h | h | h | h | h | h | h <;> subst h
  · exact f0.trans g0.symm
  · exact f1.trans g1.symm
  · exact f2.trans g2.symm
  · exact f3.trans g3.symm
  · exact f4.trans g4.symm
  · exact f5.trans g5.symm
  · exact f6.trans g6.symm
  · exact f7.trans g7.symm
  · exact f8.trans g8.symm

/-- The entries 0..8 after the first loop do not depend on the table before. -/
theorem scores_indep (c1 c2 : Int → Int) (cx cy i : Int) (h0 : 0 ≤ i) (h8 : i ≤ 8) :
    absdiff_loop 8 RIGHT (fill_cache c1 cx cy) i = absdiff_loop 8 RIGHT (fill_cache c2 cx cy) i := by
  rw [absdiff_loop_apply 8 RIGHT _ i (by unfold RIGHT; norm_num),
    absdiff_loop_apply 8 RIGHT _ i (by unfold RIGHT; norm_num),
    fill_cache_indep c1 c2 cx cy i h0 h8, fill_cache_indep c1 c2 cx cy 8 (by norm_num) (by norm_num)]

/-- The second loop reads the table at the indices 0..7 only. -/
theorem select_loop_congr (p : Int) (s1 s2 : Int → Int)
    (h : ∀ i, 0 ≤ i → i ≤ 7 → s1 i = s2 i) : ∀ (k : Nat) (tmp d : Int),
    0 ≤ d → d ≤ 7 → 0 ≤ tmp → tmp + k ≤ 8 →
    select_loop p s1 k tmp d = select_loop p s2 k tmp d := by
  intro k
  induction k with
  | zero => intro tmp d _ _ _ _; rfl
  | succ k ih =>
    intro tmp d hd0 hd7 ht0 ht8
    push_cast at ht8
    unfold select_loop
    rw [h tmp ht0 (by omega), h d hd0 hd7]
    by_cases hc : p ≠ tmp ∧ s2 tmp < s2 d
    · rw [if_pos hc]; exact ih (tmp + 1) tmp ht0 (by omega) (by omega) (by omega)
    · rw [if_neg hc]; exact ih (tmp + 1) d hd0 hd7 (by omega) (by omega)

/-- The returned direction and the entries 0..8 left in the table do not depend
on the table before the call. -/
theorem pan_direction_indep (c1 c2 : Int → Int) (cx cy previous : Int) :
    (mandelbrot_pan_direction c1 cx cy previous).1 = (mandelbrot_pan_direction c2 cx cy previous).1
      ∧ ∀ i, 0 ≤ i → i ≤ 8 →
        (mandelbrot_pan_direction c1 cx cy previous).2 i
          = (mandelbrot_pan_direction c2 cx cy previous).2 i := by
  unfold mandelbrot_pan_direction
  simp only
  refine ⟨?_, fun i h0 h8 => scores_indep c1 c2 cx cy i h0 h8⟩
  have hs := fun i (h0 : 0 ≤ i) (h7 : i ≤ 7) => scores_indep c1 c2 cx cy i h0 (by omega)
  generalize absdiff_loop 8 RIGHT (fill_cache c1 cx cy) = s1 at hs ⊢
  generalize absdiff_loop 8 RIGHT (fill_cache c2 cx cy) = s2 at hs ⊢
  rw [hs UP_RIGHT (by decide) (by decide), hs RIGHT (by decide) (by decide)]
  apply select_loop_congr _ _ _ hs
  · split_ifs <;> decide
  · split_ifs <;> decide
  · decide
  · decide

/-- Claim C7.  For offsets with `|cx|, |cy| <= 30000` and `previous` in `0..7`,
`mandelbrot_pan_direction` returns one of the eight compass directions `0..7`, never
`NO_DIRECTION = 8`, and never the opposite `previous ^ 4` of `previous` (which is the
compass direction `(previous + 4) mod 8`). -/
theorem pan_direction_never_reverses (c : Int → Int) (cx cy previous : Int)
    (hx : -30000 ≤ cx ∧ cx ≤ 30000) (hy : -30000 ≤ cy ∧ cy ≤ 30000)
    (hp : 0 ≤ previous ∧ previous ≤ 7) :
    (RIGHT ≤ (mandelbrot_pan_direction c cx cy previous).1
        ∧ (mandelbrot_pan_direction c cx cy previous).1 ≤ DOWN_RIGHT)
      ∧ (mandelbrot_pan_direction c cx cy previous).1 ≠ NO_DIRECTION
      ∧ (mandelbrot_pan_direction c cx cy previous).1 ≠ xor4 previous
      ∧ xor4 previous = (previous + 4) % 8 := by
  obtain ⟨⟨h0, h7, hne⟩, -, -⟩ := pan_direction_spec c cx cy previous hx hy
  refine ⟨⟨h0, h7⟩, ?_, hne, ?_⟩
  · unfold NO_DIRECTION; omega
  · obtain ⟨hp0, hp7⟩ := hp
    interval_cases previous <;> decide

theorem pan_direction_never_reverses_witness :
    (mandelbrot_pan_direction (fun _ => 0) (-1750) 0 6).1 = 6 ∧ xor4 6 = 2
      ∧ (RIGHT ≤ (mandelbrot_pan_direction (fun _ => 0) (-1750) 0 6).1
        ∧ (mandelbrot_pan_direction (fun _ => 0) (-1750) 0 6).1 ≤ DOWN_RIGHT)
      ∧ (mandelbrot_pan_direction (fun _ => 0) (-1750) 0 6).1 ≠ NO_DIRECTION
      ∧ (mandelbrot_pan_direction (fun _ => 0) (-1750) 0 6).1 ≠ xor4 6
      ∧ xor4 6 = (6 + 4) % 8 :=
  ⟨by decide, by decide,
    pan_direction_never_reverses (fun _ => 0) (-1750) 0 6 (by decide) (by decide) (by decide)⟩

/-- Claim C8.  For offsets with `|cx|, |cy| <= 30000` and `previous` in `0..7`,
`mandelbrot_pan_direction` returns the first direction, in the order RIGHT, UP_RIGHT,
UP, UP_LEFT, LEFT, DOWN_LEFT, DOWN, DOWN_RIGHT, among the seven directions other than
the opposite of `previous`, that minimises the score
`|(cx+dx_D)^2 + (cy+dy_D)^2 - RADIUS^2|`, with `(dx_D, dy_D)` the offset change of the
frame loop for `D` : it is eligible, no eligible direction scores less, and every
eligible direction before it scores more. -/
theorem pan_direction_first_minimum (c : Int → Int) (cx cy previous : Int)
    (hx : -30000 ≤ cx ∧ cx ≤ 30000) (hy : -30000 ≤ cy ∧ cy ≤ 30000)
    (hp : 0 ≤ previous ∧ previous ≤ 7) :
    eligible previous (mandelbrot_pan_direction c cx cy previous).1
      ∧ (∀ e, eligible previous e →
          score cx cy (mandelbrot_pan_direction c cx cy previous).1 ≤ score cx cy e)
      ∧ (∀ e, eligible previous e → e < (mandelbrot_pan_direction c cx cy previous).1 →
          score cx cy (mandelbrot_pan_direction c cx cy previous).1 < score cx cy e)
      ∧ (0 ≤ xor4 previous ∧ xor4 previous ≤ 7)
      ∧ RADIUS = 1750
      ∧ (offset_change RIGHT = (1, 0) ∧ offset_change UP_RIGHT = (1, 1)
          ∧ offset_change UP = (0, 1) ∧ offset_change UP_LEFT = (-1, 1)
          ∧ offset_change LEFT = (-1, 0) ∧ offset_change DOWN_LEFT = (-1, -1)
          ∧ offset_change DOWN = (0, -1) ∧ offset_change DOWN_RIGHT = (1, -1)) := by
  obtain ⟨h1, h2, h3⟩ := pan_direction_spec c cx cy previous hx hy
  refine ⟨h1, h2, h3, ?_, rfl, offset_change_values⟩
  obtain ⟨hp0, hp7⟩ := hp
  interval_cases previous <;> decide

theorem pan_direction_first_minimum_witness :
    (mandelbrot_pan_direction (fun _ => 0) 1238 (-1238) 1).1 = UP
      ∧ eligible 1 LEFT
      ∧ score 1238 (-1238) (mandelbrot_pan_direction (fun _ => 0) 1238 (-1238) 1).1
          ≤ score 1238 (-1238) LEFT
      ∧ ∀ e, eligible 1 e → e < (mandelbrot_pan_direction (fun _ => 0) 1238 (-1238) 1).1 →
          score 1238 (-1238) (mandelbrot_pan_direction (fun _ => 0) 1238 (-1238) 1).1
            < score 1238 (-1238) e :=
  ⟨by decide, by unfold eligible; decide,
    (pan_direction_first_minimum (fun _ => 0) 1238 (-1238) 1 (by decide) (by decide)
      (by decide)).2.1 LEFT (by unfold eligible; decide),
    (pan_direction_first_minimum (fun _ => 0) 1238 (-1238) 1 (by decide) (by decide)
      (by decide)).2.2.1⟩

/-- Claim C9.  For every `(cx, cy, previous)` and any two initial contents of the
table `direction_cache`, `mandelbrot_pan_direction` returns the same direction and
leaves the same nine entries (all nine are overwritten before they are read); so a
repeated call, which starts from the table the first call left, returns the same
direction. -/
theorem pan_direction_deterministic (c1 c2 : Int → Int) (cx cy previous : Int) :
    (mandelbrot_pan_direction c1 cx cy previous).1 = (mandelbrot_pan_direction c2 cx cy previous).1
      ∧ (∀ i, 0 ≤ i → i ≤ 8 →
          (mandelbrot_pan_direction c1 cx cy previous).2 i
            = (mandelbrot_pan_direction c2 cx cy previous).2 i)
      ∧ (mandelbrot_pan_direction (mandelbrot_pan_direction c1 cx cy previous).2 cx cy previous).1
          = (mandelbrot_pan_direction c1 cx cy previous).1 :=
  ⟨(pan_direction_indep c1 c2 cx cy previous).1, (pan_direction_indep c1 c2 cx cy previous).2,
    (pan_direction_indep _ c1 cx cy previous).1⟩

/-- The offset walk does not depend on the table it starts from. -/
theorem offset_walk_indep : ∀ (k : Nat) (c1 c2 : Int → Int) (v : PanVars) (previous : Int),
    offset_walk k c1 v previous = offset_walk k c2 v previous := by
  intro k
  induction k with
  | zero => intro c1 c2 v previous; rfl
  | succ k ih =>
    intro c1 c2 v previous
    unfold offset_walk
    simp only
    rw [(pan_direction_indep c1 c2 v.cx v.cy previous).1]
    exact ih _ _ _ _

/-- Splitting the walk after its first iteration. -/
theorem offset_walk_succ (k : Nat) (c : Int → Int) (v : PanVars) (previous : Int) :
    offset_walk (k + 1) c v previous
      = offset_walk k (mandelbrot_pan_direction c v.cx v.cy previous).2
          (pan_update (mandelbrot_pan_direction c v.cx v.cy previous).1 v)
          (mandelbrot_pan_direction c v.cx v.cy previous).1 := rfl

/-- A successful check bounds every state of the walk. -/
theorem band_check_sound : ∀ (n : Nat) (c : Int → Int) (v : PanVars) (previous : Int),
    band_check n c v previous = true →
    ∀ k, 1 ≤ k → k ≤ n → in_band (offset_walk k c v previous).1 := by
  intro n
  induction n with
  | zero => intro c v previous _ k h1 h2; omega
  | succ n ih =>
    intro c v previous h k h1 h2
    unfold band_check at h
    simp only [Bool.and_eq_true, decide_eq_true_eq] at h
    obtain ⟨k, rfl⟩ : ∃ j, k = j + 1 := ⟨k - 1, by omega⟩
    rw [offset_walk_succ]
    by_cases hk : k = 0
    · subst hk; exact h.1
    · exact ih _ _ _ h.2 k (by omega) (by omega)

set_option maxRecDepth 1000000 in
/-- The first 1000 states of the walk from `(-1750, 0)` with `previous = DOWN`, computed
from the table of zeros, lie in the band. -/
theorem band_check_1000 : band_check 1000 (fun _ => 0) initial_vars DOWN = true := by
  decide!

/-- Claim C10.  Starting from `(cx, cy) = (-1750, 0)` with `previous = DOWN`, whatever
the table `direction_cache` holds, after each of the first 1000 iterations of
`d = mandelbrot_pan_direction(cx, cy, previous)`, offset change of the frame loop for
`d`, `previous = d`, the offset satisfies
`(RADIUS-1)^2 <= cx^2 + cy^2 <= (RADIUS+1)^2`, i.e. `3059001 <= cx^2 + cy^2 <= 3066001`. -/
theorem spiral_radius_band (c : Int → Int) (k : Nat) (h1 : 1 ≤ k) (h2 : k ≤ 1000) :
    3059001 ≤ (offset_walk k c initial_vars DOWN).1.cx ^ 2
        + (offset_walk k c initial_vars DOWN).1.cy ^ 2
      ∧ (offset_walk k c initial_vars DOWN).1.cx ^ 2
        + (offset_walk k c initial_vars DOWN).1.cy ^ 2 ≤ 3066001
      ∧ initial_vars.cx = -1750 ∧ initial_vars.cy = 0 := by
  have h := band_check_sound 1000 (fun _ => 0) initial_vars DOWN band_check_1000 k h1 h2
  rw [offset_walk_indep k c (fun _ => 0)]
  unfold in_band at h
  have e1 : (RADIUS - 1) ^ 2 = 3059001 := by decide
  have e2 : (RADIUS + 1) ^ 2 = 3066001 := by decide
  rw [e1, e2] at h
  exact ⟨h.1, h.2, by decide, by decide⟩

theorem spiral_radius_band_witness :
    3059001 ≤ (offset_walk 3 (fun _ => 7) initial_vars DOWN).1.cx ^ 2
        + (offset_walk 3 (fun _ => 7) initial_vars DOWN).1.cy ^ 2
      ∧ (offset_walk 3 (fun _ => 7) initial_vars DOWN).1.cx ^ 2
        + (offset_walk 3 (fun _ => 7) initial_vars DOWN).1.cy ^ 2 ≤ 3066001
      ∧ initial_vars.cx = -1750 ∧ initial_vars.cy = 0 :=
  spiral_radius_band (fun _ => 7) 3 (by decide) (by decide)

/-! ## The default view -/

/-- Claim C11 (counterexample).  At the default upper-left corner
`(UPPER_LEFT_R_FP, UPPER_LEFT_I_FP) = (-5734, 819)` neither the per-axis test nor
the combined-axis test fires, and `mandelbrot_pixel` does not return 0. -/
theorem default_corner_not_zero :
    ¬ (mandelbrot_pixel UPPER_LEFT_R_FP UPPER_LEFT_I_FP = 0)
      ∧ ¬ (UPPER_LEFT_R_FP ≤ TO_FP_CONST (-2) 1 ∨ UPPER_LEFT_R_FP ≥ TO_FP_CONST 2 1
          ∨ UPPER_LEFT_I_FP ≤ TO_FP_CONST (-2) 1 ∨ UPPER_LEFT_I_FP ≥ TO_FP_CONST 2 1)
      ∧ ¬ (FROM_FP (toSint32 (UPPER_LEFT_R_FP * UPPER_LEFT_R_FP))
          + FROM_FP (toSint32 (UPPER_LEFT_I_FP * UPPER_LEFT_I_FP)) ≥ TO_FP_CONST 4 1) := by
  decide

/-- Claim C11 (amended).  For the default view, upper-left coordinate
`(UPPER_LEFT_R_FP, UPPER_LEFT_I_FP) = (-5734, 819)`, none of the five shortcut tests
fires; the iteration loop classifies the corner: the orbit escapes first at index
5 and `mandelbrot_pixel(-5734, 819) = 5`, for every fuel of 32 or more; the row
renderer stores the gray level `5 * 255 / 31 = 41` at pixel (0,0) of frame 0. -/
theorem default_corner_pixel :
    UPPER_LEFT_R_FP = -5734 ∧ UPPER_LEFT_I_FP = 819
      ∧ mandelbrot_shortcuts UPPER_LEFT_R_FP UPPER_LEFT_I_FP = none
      ∧ mandelbrot_pixel UPPER_LEFT_R_FP UPPER_LEFT_I_FP = 5
      ∧ (∀ fuel, 32 ≤ fuel →
          mandelbrot_pixel_fuel fuel UPPER_LEFT_R_FP UPPER_LEFT_I_FP = some 5)
      ∧ escaped (orbit UPPER_LEFT_R_FP UPPER_LEFT_I_FP 5)
      ∧ (∀ k, k < 5 → ¬ escaped (orbit UPPER_LEFT_R_FP UPPER_LEFT_I_FP k))
      ∧ ∀ surface : SDL_Surface,
          (sdl_draw_horizontal_mandelbrot surface (toSint16 UPPER_LEFT_R_FP)
            (toSint16 UPPER_LEFT_I_FP) 0).pixels (0 * surface.w + 0) = ⟨41, 41, 41⟩ := by
  refine ⟨by decide, by decide, by decide, by decide, fun fuel hf => ?_, by decide,
    by decide, fun surface => ?_⟩
  · rw [mandelbrot_pixel_fuel_eq _ _ fuel hf]; decide
  · rw [sdl_draw_horizontal_mandelbrot_apply _ _ _ _ _ (toSint16_idem _),
      if_pos (by unfold WIDTH; omega)]
    have e : (0 : Int) * surface.w + 0 - 0 * surface.w = 0 := by ring
    rw [e]
    decide

/-! ## The tie between RIGHT and UP_RIGHT -/

/-- The scores of RIGHT and UP_RIGHT are never equal: the squared distances differ
by the odd number `2 * cy + 1` and their sum minus `2 * RADIUS^2` is odd. -/
theorem score_right_ne_up_right (cx cy : Int) :
    score cx cy RIGHT ≠ score cx cy UP_RIGHT := by
  obtain ⟨o0, o1, -⟩ := offset_change_values
  have hR : RADIUS ^ 2 = 3062500 := by decide
  unfold score RIGHT UP_RIGHT
  rw [o0, o1, hR]
  simp only
  intro h
  have p3 : (cy + 1) ^ 2 = cy * cy + 2 * cy + 1 := by ring
  have p6 : (cy + 0) ^ 2 = cy * cy := by ring
  rw [p3, p6] at h
  generalize (cx + 1) ^ 2 = X at h
  generalize cy * cy = Y at h
  rcases abs_eq_abs.mp h with h1 | h1 <;> omega

/-- Claim C17.  For offsets with `|cx|, |cy| <= 30000`, when `previous` is RIGHT the
selector returns RIGHT only if the score of RIGHT is strictly smaller than the
score of UP_RIGHT; a tie between the two never occurs (their scores are never
equal), so UP_RIGHT is never passed over on a tie. -/
theorem pan_direction_right_tie (c : Int → Int) (cx cy : Int)
    (hx : -30000 ≤ cx ∧ cx ≤ 30000) (hy : -30000 ≤ cy ∧ cy ≤ 30000) :
    ((mandelbrot_pan_direction c cx cy RIGHT).1 = RIGHT →
        score cx cy RIGHT < score cx cy UP_RIGHT)
      ∧ score cx cy RIGHT ≠ score cx cy UP_RIGHT := by
  refine ⟨fun h => ?_, score_right_ne_up_right cx cy⟩
  obtain ⟨-, h2, -⟩ := pan_direction_spec c cx cy RIGHT hx hy
  have hle := h2 UP_RIGHT (by unfold eligible; decide)
  rw [h] at hle
  exact lt_of_le_of_ne hle (score_right_ne_up_right cx cy)

theorem pan_direction_right_tie_witness :
    (mandelbrot_pan_direction (fun _ => 0) 0 (-1750) RIGHT).1 = RIGHT
      ∧ score 0 (-1750) RIGHT < score 0 (-1750) UP_RIGHT :=
  ⟨by decide, (pan_direction_right_tie (fun _ => 0) 0 (-1750) (by decide) (by decide)).1
    (by decide)⟩

/-! ## The column renderer and the gray levels -/

/-- The value of `mandelbrot_pixel` lies in `[0, MAXITER + 1]`. -/
theorem mandelbrot_pixel_range (c_r c_i : Int) :
    0 ≤ mandelbrot_pixel c_r c_i ∧ mandelbrot_pixel c_r c_i ≤ 31 := by
  unfold mandelbrot_pixel mandelbrot_pixel_fuel
  cases hs : mandelbrot_shortcuts c_r c_i with
  | some v =>
    simp only [Option.getD_some]
    unfold mandelbrot_shortcuts at hs
    simp only [maxiter_succ] at hs
    split_ifs at hs <;> simp only [Option.some.injEq] at hs <;> omega
  | none =>
    obtain ⟨m, k, hk, hm1, hm2, -⟩ := mandelbrot_loop_returns c_r c_i 32 0 c_r c_i 0
      (le_refl _) (by norm_num) (by norm_num)
    simp only [hk, Option.map_some', Option.getD_some]
    omega

/-- The gray pixel of an iteration count in `[0, 31]` : the three channels are
`floor(255 * n / 31)`, a value in `[0, 255]`. -/
theorem gray_eq (n : Int) (h0 : 0 ≤ n) (h1 : n ≤ 31) :
    gray n = ⟨255 * n / (MAXITER + 1), 255 * n / (MAXITER + 1), 255 * n / (MAXITER + 1)⟩
      ∧ 0 ≤ 255 * n / (MAXITER + 1) ∧ 255 * n / (MAXITER + 1) ≤ 255 := by
  have hM : MAXITER + 1 = 31 := by decide
  have e : Int.tdiv (n * 255) (MAXITER + 1) = 255 * n / 31 := by
    rw [hM, Int.tdiv_eq_ediv (by omega) (by norm_num), mul_comm]
  unfold gray SDL_MapRGB
  rw [e, hM, toUint8_of_range (by omega) (by omega)]
  exact ⟨rfl, by omega, by omega⟩

/-- The column loop, on a surface of width 800, writes the `k` pixels from row `y`
of column `x` and nothing else. -/
theorem draw_vertical_loop_apply (x c_r : Int) :
    ∀ (k : Nat) (y c_i : Int) (p : Int → Color) (idx : Int), toSint16 c_i = c_i →
    draw_vertical_loop 800 x c_r k y c_i p idx =
      if (idx - x) % 800 = 0 ∧ y ≤ (idx - x) / 800 ∧ (idx - x) / 800 < y + k then
        gray (mandelbrot_pixel c_r (toSint16 (c_i - ((idx - x) / 800 - y) * PIXEL_SIZE_FP)))
      else p idx := by
  intro k
  induction k with
  | zero =>
    intro y c_i p idx _
    have hc : ¬ ((idx - x) % 800 = 0 ∧ y ≤ (idx - x) / 800
        ∧ (idx - x) / 800 < y + ((0 : Nat) : Int)) := by push_cast; omega
    rw [if_neg hc]; rfl
  | succ k ih =>
    intro y c_i p idx hc
    unfold draw_vertical_loop
    simp only
    rw [ih (y + 1) _ _ idx (toSint16_idem _)]
    by_cases h1 : (idx - x) % 800 = 0 ∧ y + 1 ≤ (idx - x) / 800
        ∧ (idx - x) / 800 < y + 1 + (k : Int)
    · have h2 : (idx - x) % 800 = 0 ∧ y ≤ (idx - x) / 800
          ∧ (idx - x) / 800 < y + ((k + 1 : Nat) : Int) := by push_cast; omega
      rw [if_pos h1, if_pos h2]
      congr 2
      unfold toSint16
      rw [pixel_size_fp_eq]
      omega
    · rw [if_neg h1]
      unfold write
      by_cases h3 : idx = y * 800 + x
      · have h2 : (idx - x) % 800 = 0 ∧ y ≤ (idx - x) / 800
            ∧ (idx - x) / 800 < y + ((k + 1 : Nat) : Int) := by push_cast; omega
        rw [if_pos h3, if_pos h2]
        have e : (idx - x) / 800 - y = 0 := by omega
        rw [e, zero_mul, sub_zero, hc]
        rfl
      · have h2 : ¬ ((idx - x) % 800 = 0 ∧ y ≤ (idx - x) / 800
            ∧ (idx - x) / 800 < y + ((k + 1 : Nat) : Int)) := by push_cast; omega
        rw [if_neg h3, if_neg h2]

/-- The column renderer, on a surface of width `WIDTH`, writes the column `x` of
the window and nothing else. -/
theorem sdl_draw_vertical_mandelbrot_apply (surface : SDL_Surface) (ul_r ul_i x idx : Int)
    (hw : surface.w = WIDTH) (hi : toSint16 ul_i = ul_i) :
    (sdl_draw_vertical_mandelbrot surface ul_r ul_i x).pixels idx =
      if (idx - x) % WIDTH = 0 ∧ 0 ≤ (idx - x) / WIDTH ∧ (idx - x) / WIDTH < HEIGHT then
        window_pixel ul_r ul_i x ((idx - x) / WIDTH)
      else surface.pixels idx := by
  unfold sdl_draw_vertical_mandelbrot
  simp only
  have e1 : surface.w = 800 := hw
  rw [e1, draw_vertical_loop_apply _ _ _ _ _ _ _ hi]
  have e : ((HEIGHT.toNat : Nat) : Int) = 600 := by decide
  rw [e]
  unfold WIDTH HEIGHT window_pixel
  simp only [sub_zero, zero_add]

theorem sdl_draw_vertical_mandelbrot_w (surface : SDL_Surface) (ul_r ul_i x : Int) :
    (sdl_draw_vertical_mandelbrot surface ul_r ul_i x).w = surface.w := by
  unfold sdl_draw_vertical_mandelbrot; simp only

/-- Claim C12.  On a surface of width `WIDTH`, for every window `(ul_r, ul_i)` of signed
16-bit coordinates and every pixel position `0 <= x < 800`, `0 <= y < 600` : the row
renderer called for row `y` and the column renderer called for column `x` both store
at pixel `(x, y)` the gray level `floor(255 * n / (MAXITER + 1))`, with
`n = mandelbrot_pixel(ul_r + 2*x, ul_i - 2*y)` (coordinates reduced to signed 16 bits,
`PIXEL_SIZE_FP = 2`), the same on the three channels and within `[0, 255]`; the row
renderer changes no pixel outside row `y`, the column renderer none outside column
`x`; and the row renderer run after the column renderer stores at the corner pixel
the value the column renderer stored there. -/
theorem renderers_store_gray (surface : SDL_Surface) (hw : surface.w = WIDTH)
    (ul_r ul_i : Int) (hr : toSint16 ul_r = ul_r) (hi : toSint16 ul_i = ul_i)
    (x y : Int) (hx : 0 ≤ x ∧ x < WIDTH) (hy : 0 ≤ y ∧ y < HEIGHT) :
    ∃ n : Int, n = mandelbrot_pixel (toSint16 (ul_r + 2 * x)) (toSint16 (ul_i - 2 * y))
      ∧ PIXEL_SIZE_FP = 2
      ∧ (sdl_draw_horizontal_mandelbrot surface ul_r ul_i y).pixels (y * WIDTH + x)
          = ⟨255 * n / (MAXITER + 1), 255 * n / (MAXITER + 1), 255 * n / (MAXITER + 1)⟩
      ∧ (sdl_draw_vertical_mandelbrot surface ul_r ul_i x).pixels (y * WIDTH + x)
          = ⟨255 * n / (MAXITER + 1), 255 * n / (MAXITER + 1), 255 * n / (MAXITER + 1)⟩
      ∧ (0 ≤ 255 * n / (MAXITER + 1) ∧ 255 * n / (MAXITER + 1) ≤ 255)
      ∧ (∀ idx, (∀ x', 0 ≤ x' → x' < WIDTH → idx ≠ y * WIDTH + x') →
          (sdl_draw_horizontal_mandelbrot surface ul_r ul_i y).pixels idx = surface.pixels idx)
      ∧ (∀ idx, (∀ y', 0 ≤ y' → y' < HEIGHT → idx ≠ y' * WIDTH + x) →
          (sdl_draw_vertical_mandelbrot surface ul_r ul_i x).pixels idx = surface.pixels idx)
      ∧ (sdl_draw_horizontal_mandelbrot (sdl_draw_vertical_mandelbrot surface ul_r ul_i x)
            ul_r ul_i y).pixels (y * WIDTH + x)
          = (sdl_draw_vertical_mandelbrot surface ul_r ul_i x).pixels (y * WIDTH + x) := by
  obtain ⟨n0, n1⟩ := mandelbrot_pixel_range (toSint16 (ul_r + 2 * x)) (toSint16 (ul_i - 2 * y))
  obtain ⟨g1, g2, g3⟩ := gray_eq _ n0 n1
  have hwp : window_pixel ul_r ul_i x y
      = gray (mandelbrot_pixel (toSint16 (ul_r + 2 * x)) (toSint16 (ul_i - 2 * y))) := by
    unfold window_pixel; rw [pixel_size_fp_eq, mul_comm x 2, mul_comm y 2]
  have hH : ∀ s : SDL_Surface, s.w = WIDTH →
      (sdl_draw_horizontal_mandelbrot s ul_r ul_i y).pixels (y * WIDTH + x)
        = window_pixel ul_r ul_i x y := by
    intro s hs
    rw [sdl_draw_horizontal_mandelbrot_apply _ _ _ _ _ hr, hs, if_pos (by omega)]
    congr 1; ring
  have hV : (sdl_draw_vertical_mandelbrot surface ul_r ul_i x).pixels (y * WIDTH + x)
        = window_pixel ul_r ul_i x y := by
    rw [sdl_draw_vertical_mandelbrot_apply _ _ _ _ _ hw hi]
    unfold WIDTH HEIGHT at *
    rw [if_pos (by omega)]
    congr 1; omega
  refine ⟨_, rfl, pixel_size_fp_eq, ?_, ?_, ⟨g2, g3⟩, fun idx hidx => ?_, fun idx hidx => ?_, ?_⟩
  · rw [hH surface hw, hwp, g1]
  · rw [hV, hwp, g1]
  · rw [sdl_draw_horizontal_mandelbrot_apply _ _ _ _ _ hr, hw, if_neg]
    intro hc
    exact hidx (idx - y * WIDTH) (by omega) (by omega) (by ring)
  · rw [sdl_draw_vertical_mandelbrot_apply _ _ _ _ _ hw hi, if_neg]
    intro hc
    unfold WIDTH HEIGHT at *
    exact hidx ((idx - x) / 800) hc.2.1 hc.2.2 (by omega)
  · rw [hH _ (by rw [sdl_draw_vertical_mandelbrot_w]; exact hw), hV]

theorem renderers_store_gray_witness :
    ∃ n : Int, n = mandelbrot_pixel (toSint16 (-5734 + 2 * 799)) (toSint16 (819 - 2 * 599))
      ∧ PIXEL_SIZE_FP = 2
      ∧ (sdl_draw_horizontal_mandelbrot ⟨WIDTH, fun _ => ⟨0, 0, 0⟩⟩ (-5734) 819 599).pixels
            (599 * WIDTH + 799)
          = ⟨255 * n / (MAXITER + 1), 255 * n / (MAXITER + 1), 255 * n / (MAXITER + 1)⟩
      ∧ (sdl_draw_vertical_mandelbrot ⟨WIDTH, fun _ => ⟨0, 0, 0⟩⟩ (-5734) 819 799).pixels
            (599 * WIDTH + 799)
          = ⟨255 * n / (MAXITER + 1), 255 * n / (MAXITER + 1), 255 * n / (MAXITER + 1)⟩ := by
  obtain ⟨n, h1, h2, h3, h4, -⟩ := renderers_store_gray ⟨WIDTH, fun _ => ⟨0, 0, 0⟩⟩ rfl
    (-5734) 819 (by decide) (by decide) 799 599 (by decide) (by decide)
  exact ⟨n, h1, h2, h3, h4⟩

/-! ## The direction selector without a bound on the offset -/

theorem cast_toSint32 (a : Int) :
    ((toSint32 a : Int) : ZMod 4294967296) = (a : ZMod 4294967296) := by
  rw [ZMod.intCast_eq_intCast_iff]
  unfold toSint32
  rw [Int.ModEq]
  omega

theorem cast_toUint32 (a : Int) :
    ((toUint32 a : Int) : ZMod 4294967296) = (a : ZMod 4294967296) := by
  rw [ZMod.intCast_eq_intCast_iff]
  unfold toUint32
  rw [Int.ModEq]
  omega

theorem toUint32_congr {a b : Int} (h : (a : ZMod 4294967296) = (b : ZMod 4294967296)) :
    toUint32 a = toUint32 b := by
  rw [ZMod.intCast_eq_intCast_iff] at h
  exact h

/-- For every offset, the entry of direction `i` after lines 141-150 is the squared
distance after the move, reduced modulo 2^32. -/
theorem fill_cache_mod (c : Int → Int) (cx cy i : Int) (h0 : 0 ≤ i) (h7 : i ≤ 7) :
    fill_cache c cx cy i
      = toUint32 ((cx + (offset_change i).1) ^ 2 + (cy + (offset_change i).2) ^ 2) := by
  obtain ⟨o0, o1, o2, o3, o4, o5, o6, o7⟩ := offset_change_values
  obtain ⟨f0, f1, f2, f3, f4, f5, f6, f7, -⟩ := fill_cache_entries c cx cy
  have hi : i = 0 ∨ i = 1 ∨ i = 2 ∨ i = 3 ∨ i = 4 ∨ i = 5 ∨ i = 6 ∨ i = 7 := by
    clear f0 f1 f2 f3 f4 f5 f6 f7 o0 o1 o2 o3 o4 o5 o6 o7
    omega
  rcases hi with h | h | h | h | h | h | h | h <;> subst h
  · rw [f0, o0]; apply toUint32_congr; push_cast [cast_toSint32, cast_toUint32]; ring
  · rw [f1, o1]; apply toUint32_congr; push_cast [cast_toSint32, cast_toUint32]; ring
  · rw [f2, o2]; apply toUint32_congr; push_cast [cast_toSint32, cast_toUint32]; ring
  · rw [f3, o3]; apply toUint32_congr; push_cast [cast_toSint32, cast_toUint32]; ring
  · rw [f4, o4]; apply toUint32_congr; push_cast [cast_toSint32, cast_toUint32]; ring
  · rw [f5, o5]; apply toUint32_congr; push_cast [cast_toSint32, cast_toUint32]; ring
  · rw [f6, o6]; apply toUint32_congr; push_cast [cast_toSint32, cast_toUint32]; ring
  · rw [f7, o7]; apply toUint32_congr; push_cast [cast_toSint32, cast_toUint32]; ring

/-- An offset whose squared distance fits a signed 32-bit `int` has coordinates of
magnitude at most 46340. -/
theorem offset_bound_of_fits (cx cy : Int) (H : cx * cx + cy * cy ≤ 2147483647) :
    (-46340 ≤ cx ∧ cx ≤ 46340) ∧ (-46340 ≤ cy ∧ cy ≤ 46340) := by
  have sA : 0 ≤ cx * cx := mul_self_nonneg _
  have sB : 0 ≤ cy * cy := mul_self_nonneg _
  refine ⟨⟨?_, ?_⟩, ⟨?_, ?_⟩⟩ <;> by_contra hc
  · have : cx ≤ -46341 := by omega
    nlinarith
  · have : 46341 ≤ cx := by omega
    nlinarith
  · have : cy ≤ -46341 := by omega
    nlinarith
  · have : 46341 ≤ cy := by omega
    nlinarith

/-- The squared distances after a move fit 32 unsigned bits when `cx*cx + cy*cy` fits
a signed 32-bit `int`. -/
theorem moved_distance_fits (cx cy : Int) (H : cx * cx + cy * cy ≤ 2147483647)
    (i : Int) (h0 : 0 ≤ i) (h7 : i ≤ 7) :
    0 ≤ (cx + (offset_change i).1) ^ 2 + (cy + (offset_change i).2) ^ 2
      ∧ (cx + (offset_change i).1) ^ 2 + (cy + (offset_change i).2) ^ 2 ≤ 4294967295 := by
  obtain ⟨hx, hy⟩ := offset_bound_of_fits cx cy H
  obtain ⟨o0, o1, o2, o3, o4, o5, o6, o7⟩ := offset_change_values
  have sA : 0 ≤ cx * cx := mul_self_nonneg _
  have sB : 0 ≤ cy * cy := mul_self_nonneg _
  have p1 : (cx + 1) ^ 2 = cx * cx + 2 * cx + 1 := by ring
  have p2 : (cx + -1) ^ 2 = cx * cx - 2 * cx + 1 := by ring
  have p3 : (cy + 1) ^ 2 = cy * cy + 2 * cy + 1 := by ring
  have p4 : (cy + -1) ^ 2 = cy * cy - 2 * cy + 1 := by ring
  have p5 : (cx + 0) ^ 2 = cx * cx := by ring
  have p6 : (cy + 0) ^ 2 = cy * cy := by ring
  refine ⟨add_nonneg (sq_nonneg _) (sq_nonneg _), ?_⟩
  have hi : i = 0 ∨ i = 1 ∨ i = 2 ∨ i = 3 ∨ i = 4 ∨ i = 5 ∨ i = 6 ∨ i = 7 := by
    clear o0 o1 o2 o3 o4 o5 o6 o7
    omega
  rcases hi with h | h | h | h | h | h | h | h <;> subst h
  · rw [o0]; simp only [p1, p6]; omega
  · rw [o1]; simp only [p1, p3]; omega
  · rw [o2]; simp only [p5, p3]; omega
  · rw [o3]; simp only [p2, p3]; omega
  · rw [o4]; simp only [p2, p6]; omega
  · rw [o5]; simp only [p2, p4]; omega
  · rw [o6]; simp only [p5, p4]; omega
  · rw [o7]; simp only [p1, p4]; omega

/-- After the first loop the entries 0..7 hold the scores, whenever `cx*cx + cy*cy` fits
a signed 32-bit `int`. -/
theorem pan_cache_scores_int (c : Int → Int) (cx cy : Int)
    (H : cx * cx + cy * cy ≤ 2147483647) (i : Int) (h0 : 0 ≤ i) (h7 : i ≤ 7) :
    absdiff_loop 8 RIGHT (fill_cache c cx cy) i = score cx cy i := by
  obtain ⟨m0, m1⟩ := moved_distance_fits cx cy H i h0 h7
  have hv := fill_cache_mod c cx cy i h0 h7
  rw [toUint32_of_range m0 m1] at hv
  have h8 : fill_cache c cx cy 8 = 3062500 := (fill_cache_entries c cx cy).2.2.2.2.2.2.2.2
  have hin : RIGHT ≤ i ∧ i < RIGHT + ((8 : Nat) : Int) := by
    unfold RIGHT; push_cast; exact ⟨h0, by linarith⟩
  rw [absdiff_loop_apply 8 RIGHT _ i (by unfold RIGHT; norm_num), if_pos hin, h8]
  unfold score
  rw [← hv] at m0 m1 ⊢
  generalize fill_cache c cx cy i = S at m0 m1
  have hR : RADIUS ^ 2 = 3062500 := by decide
  rw [hR]
  split_ifs with hgt
  · rw [toUint32_of_range (by omega) (by omega), abs_of_nonneg (by omega)]
  · rw [toUint32_of_range (by omega) (by omega), abs_of_nonpos (by omega)]; ring

/-- The selector returns the first direction, in the order 0..7, of least score
among the directions other than the opposite of `previous`, whenever `cx*cx + cy*cy`
fits a signed 32-bit `int`. -/
theorem pan_direction_spec_int (c : Int → Int) (cx cy previous : Int)
    (H : cx * cx + cy * cy ≤ 2147483647) :
    eligible previous (mandelbrot_pan_direction c cx cy previous).1
      ∧ (∀ e, eligible previous e →
          score cx cy (mandelbrot_pan_direction c cx cy previous).1 ≤ score cx cy e)
      ∧ (∀ e, eligible previous e → e < (mandelbrot_pan_direction c cx cy previous).1 →
          score cx cy (mandelbrot_pan_direction c cx cy previous).1 < score cx cy e) := by
  unfold mandelbrot_pan_direction eligible
  simp only
  generalize hs : absdiff_loop 8 RIGHT (fill_cache c cx cy) = s
  have hsc : ∀ i, 0 ≤ i → i ≤ 7 → s i = score cx cy i := fun i h0 h7 => by
    rw [← hs]; exact pan_cache_scores_int c cx cy H i h0 h7
  generalize xor4 previous = p at *
  have key := select_loop_spec p s 6 UP
    (if p = RIGHT then UP_RIGHT else if p ≠ UP_RIGHT ∧ s UP_RIGHT < s RIGHT then UP_RIGHT
      else RIGHT)
  generalize hd0 : (if p = RIGHT then UP_RIGHT
    else if p ≠ UP_RIGHT ∧ s UP_RIGHT < s RIGHT then UP_RIGHT else RIGHT) = d0 at key ⊢
  have hinit : 0 ≤ d0 ∧ d0 < UP ∧ d0 ≠ p ∧ (∀ e, 0 ≤ e → e < UP → e ≠ p → s d0 ≤ s e)
      ∧ (∀ e, 0 ≤ e → e < d0 → e ≠ p → s d0 < s e) := by
    unfold RIGHT UP_RIGHT at hd0
    unfold UP
    by_cases h1 : p = 0
    · rw [if_pos h1] at hd0
      subst hd0
      refine ⟨by norm_num, by norm_num, by omega, fun e he0 he1 he2 => ?_,
        fun e he0 he1 he2 => ?_⟩
      · have : e = 1 := by omega
        rw [this]
      · omega
    · rw [if_neg h1] at hd0
      by_cases h2 : p ≠ 1 ∧ s 1 < s 0
      · rw [if_pos h2] at hd0
        subst hd0
        refine ⟨by norm_num, by norm_num, fun h => h2.1 h.symm, fun e he0 he1 he2 => ?_,
          fun e he0 he1 he2 => ?_⟩
        · have : e = 0 ∨ e = 1 := by omega
          rcases this with h | h <;> rw [h]
          exact le_of_lt h2.2
        · have : e = 0 := by omega
          rw [this]; exact h2.2
      · rw [if_neg h2] at hd0
        subst hd0
        refine ⟨by norm_num, by norm_num, fun h => h1 h.symm, fun e he0 he1 he2 => ?_,
          fun e he0 he1 he2 => ?_⟩
        · have : e = 0 ∨ e = 1 := by omega
          rcases this with h | h
          · rw [h]
          · subst h
            have : ¬ s 1 < s 0 := fun h' => h2 ⟨fun h'' => he2 h''.symm, h'⟩
            omega
        · omega
  obtain ⟨i0, i1, i2, i3, i4⟩ := hinit
  obtain ⟨r0, r1, r2, r3, r4⟩ := key i0 i1 i2 i3 i4
  generalize select_loop p s 6 UP d0 = r at r0 r1 r2 r3 r4 ⊢
  have r1' : r ≤ 7 := by unfold UP at r1; push_cast at r1; omega
  refine ⟨⟨r0, r1', r2⟩, fun e he => ?_, fun e he hlt => ?_⟩
  · rw [← hsc r r0 r1', ← hsc e he.1 he.2.1]
    exact r3 e he.1 (by unfold UP; push_cast; omega) he.2.2
  · rw [← hsc r r0 r1', ← hsc e he.1 he.2.1]
    exact r4 e he.1 hlt he.2.2

/-! ## The reference value of the scores -/

theorem score_unmoved_values :
    score_unmoved (-1750) (-41) DOWN = 83 ∧ score_unmoved (-1750) (-41) DOWN_RIGHT = 3416 := by
  obtain ⟨-, -, -, -, -, -, o6, o7⟩ := offset_change_values
  unfold score_unmoved DOWN DOWN_RIGHT
  rw [o6, o7]
  constructor <;> norm_num

set_option maxRecDepth 1000000 in
/-- The offset and `previous` of the frame loop after its first 41 iterations. -/
theorem offset_walk_41 :
    (offset_walk 41 (fun _ => 0) initial_vars DOWN).1.cx = -1750
      ∧ (offset_walk 41 (fun _ => 0) initial_vars DOWN).1.cy = -41
      ∧ (offset_walk 41 (fun _ => 0) initial_vars DOWN).2 = DOWN := by
  decide!

/-- Claim C13 (counterexample).  After 41 iterations the frame loop is at the offset
`(-1750, -41)` with `previous = DOWN`.  There the selector returns DOWN_RIGHT, whose
score against the reference `cx^2 + cy^2` is 3416, while the eligible direction DOWN
scores 83: the returned direction is not a lowest-scoring eligible direction under
the score of the algorithm description. -/
theorem pan_direction_not_unmoved_minimum :
    ((offset_walk 41 (fun _ => 0) initial_vars DOWN).1.cx = -1750
        ∧ (offset_walk 41 (fun _ => 0) initial_vars DOWN).1.cy = -41
        ∧ (offset_walk 41 (fun _ => 0) initial_vars DOWN).2 = DOWN)
      ∧ (mandelbrot_pan_direction (fun _ => 0) (-1750) (-41) DOWN).1 = DOWN_RIGHT
      ∧ eligible DOWN DOWN
      ∧ score_unmoved (-1750) (-41) DOWN = 83
      ∧ score_unmoved (-1750) (-41) DOWN_RIGHT = 3416
      ∧ ¬ (∀ e, eligible DOWN e →
          score_unmoved (-1750) (-41) (mandelbrot_pan_direction (fun _ => 0) (-1750) (-41) DOWN).1
            ≤ score_unmoved (-1750) (-41) e) := by
  have hd : (mandelbrot_pan_direction (fun _ => 0) (-1750) (-41) DOWN).1 = DOWN_RIGHT := by
    decide
  have he : eligible DOWN DOWN := by unfold eligible; decide
  obtain ⟨s1, s2⟩ := score_unmoved_values
  refine ⟨offset_walk_41, hd, he, s1, s2, fun h => ?_⟩
  have := h DOWN he
  rw [hd, s1, s2] at this
  omega

/-- Claim C13 (amended).  For every offset `(cx, cy)` whose squared distance
`cx*cx + cy*cy` fits the signed 32-bit `int` of line 142, and every `previous`, the
reference entry of the table is `RADIUS_SQR = 1750^2`, the score the table holds for
each compass direction after the call is the absolute difference between the
squared distance reached by one step in that direction and `RADIUS^2`, and the
direction returned by `mandelbrot_pan_direction` is a lowest-scoring eligible
direction under that score. -/
theorem pan_direction_radius_minimum (c : Int → Int) (cx cy previous : Int)
    (H : cx * cx + cy * cy ≤ 2147483647) :
    (mandelbrot_pan_direction c cx cy previous).2 NO_DIRECTION = RADIUS_SQR
      ∧ RADIUS_SQR = 1750 ^ 2
      ∧ (∀ D, 0 ≤ D → D ≤ 7 → (mandelbrot_pan_direction c cx cy previous).2 D = score cx cy D)
      ∧ eligible previous (mandelbrot_pan_direction c cx cy previous).1
      ∧ (∀ e, eligible previous e →
          score cx cy (mandelbrot_pan_direction c cx cy previous).1 ≤ score cx cy e) := by
  obtain ⟨h1, h2, -⟩ := pan_direction_spec_int c cx cy previous H
  refine ⟨?_, by decide, fun D h0 h7 => ?_, h1, h2⟩
  · show absdiff_loop 8 RIGHT (fill_cache c cx cy) NO_DIRECTION = RADIUS_SQR
    rw [absdiff_loop_apply 8 RIGHT _ _ (by unfold RIGHT; norm_num),
      if_neg (by unfold RIGHT NO_DIRECTION; norm_num)]
    exact (fill_cache_entries c cx cy).2.2.2.2.2.2.2.2
  · exact pan_cache_scores_int c cx cy H D h0 h7

theorem pan_direction_radius_minimum_witness :
    (-1750 : Int) * (-1750) + (-41) * (-41) ≤ 2147483647
      ∧ (mandelbrot_pan_direction (fun _ => 0) (-1750) (-41) DOWN).1 = DOWN_RIGHT
      ∧ ∀ e, eligible DOWN e →
          score (-1750) (-41) (mandelbrot_pan_direction (fun _ => 0) (-1750) (-41) DOWN).1
            ≤ score (-1750) (-41) e :=
  ⟨by decide, by decide,
    (pan_direction_radius_minimum (fun _ => 0) (-1750) (-41) DOWN (by decide)).2.2.2.2⟩

/-! ## The view coordinate and the offset -/

/-- The view coordinate determined by the offset: `(-5734 + 2*(cx + 1750), 819 + 2*cy)`
reduced to signed 16 bits. -/
theorem pan_update_keeps_view (D : Int) (v : PanVars)
    (h : v.upper_left_r_fp = toSint16 (-5734 + 2 * (v.cx + 1750))
      ∧ v.upper_left_i_fp = toSint16 (819 + 2 * v.cy)) :
    (pan_update D v).upper_left_r_fp = toSint16 (-5734 + 2 * ((pan_update D v).cx + 1750))
      ∧ (pan_update D v).upper_left_i_fp = toSint16 (819 + 2 * (pan_update D v).cy) := by
  obtain ⟨h1, h2⟩ := h
  unfold pan_update
  split_ifs <;> refine ⟨?_, ?_⟩ <;> simp only [h1, h2, pixel_size_fp_eq, toSint16, toSint32] <;>
    omega

theorem offset_walk_keeps_view : ∀ (k : Nat) (c : Int → Int) (v : PanVars) (previous : Int),
    (v.upper_left_r_fp = toSint16 (-5734 + 2 * (v.cx + 1750))
      ∧ v.upper_left_i_fp = toSint16 (819 + 2 * v.cy)) →
    (offset_walk k c v previous).1.upper_left_r_fp
        = toSint16 (-5734 + 2 * ((offset_walk k c v previous).1.cx + 1750))
      ∧ (offset_walk k c v previous).1.upper_left_i_fp
        = toSint16 (819 + 2 * (offset_walk k c v previous).1.cy) := by
  intro k
  induction k with
  | zero => intro c v previous h; exact h
  | succ k ih =>
    intro c v previous h
    rw [offset_walk_succ]
    exact ih _ _ _ (pan_update_keeps_view _ v h)

/-- One frame step changes `upper_left - PIXEL_SIZE_FP * offset` by a multiple of 2^16
on both axes. -/
theorem pan_update_mod (D : Int) (v : PanVars) :
    ((pan_update D v).upper_left_r_fp - PIXEL_SIZE_FP * (pan_update D v).cx) % 65536
        = (v.upper_left_r_fp - PIXEL_SIZE_FP * v.cx) % 65536
      ∧ ((pan_update D v).upper_left_i_fp - PIXEL_SIZE_FP * (pan_update D v).cy) % 65536
        = (v.upper_left_i_fp - PIXEL_SIZE_FP * v.cy) % 65536 := by
  unfold pan_update
  split_ifs <;> refine ⟨?_, ?_⟩ <;> simp only [pixel_size_fp_eq, toSint16, toSint32] <;>
    omega

/-- The variables after `scroll_and_redraw` are those of `pan_update`. -/
theorem scroll_and_redraw_vars (fuel : Nat) (D : Int) (s s' : FrameState)
    (h : scroll_and_redraw fuel D s = some s') : s'.vars = pan_update D s.vars := by
  unfold scroll_and_redraw at h
  simp only at h
  split at h
  · exact Option.noConfusion h
  · simp only [Option.some.injEq] at h
    rw [← h]

/-- The table entry of direction `D` after lines 141-150 is the squared distance of
the offset that the frame loop sets for `D`, reduced modulo 2^32. -/
theorem fill_cache_pan_update (c : Int → Int) (v : PanVars) (D : Int) (h0 : 0 ≤ D) (h7 : D ≤ 7) :
    fill_cache c v.cx v.cy D
      = toUint32 ((pan_update D v).cx ^ 2 + (pan_update D v).cy ^ 2) := by
  rw [fill_cache_mod c v.cx v.cy D h0 h7]
  obtain ⟨o0, o1, o2, o3, o4, o5, o6, o7⟩ := offset_change_values
  have hi : D = 0 ∨ D = 1 ∨ D = 2 ∨ D = 3 ∨ D = 4 ∨ D = 5 ∨ D = 6 ∨ D = 7 := by
    clear o0 o1 o2 o3 o4 o5 o6 o7
    omega
  rcases hi with h | h | h | h | h | h | h | h <;> subst h
  · rw [o0]; apply toUint32_congr
    simp [pan_update, RIGHT, cast_toSint32]
  · rw [o1]; apply toUint32_congr
    simp [pan_update, RIGHT, UP_RIGHT, cast_toSint32]
  · rw [o2]; apply toUint32_congr
    simp [pan_update, RIGHT, UP_RIGHT, UP, cast_toSint32]
  · rw [o3]; apply toUint32_congr
    simp [pan_update, RIGHT, UP_RIGHT, UP, UP_LEFT, cast_toSint32]; ring
  · rw [o4]; apply toUint32_congr
    simp [pan_update, RIGHT, UP_RIGHT, UP, UP_LEFT, LEFT, cast_toSint32]; ring
  · rw [o5]; apply toUint32_congr
    simp [pan_update, RIGHT, UP_RIGHT, UP, UP_LEFT, LEFT, DOWN_LEFT, cast_toSint32]; ring
  · rw [o6]; apply toUint32_congr
    simp [pan_update, RIGHT, UP_RIGHT, UP, UP_LEFT, LEFT, DOWN_LEFT, DOWN, cast_toSint32]; ring
  · rw [o7]; apply toUint32_congr
    simp [pan_update, RIGHT, UP_RIGHT, UP, UP_LEFT, LEFT, DOWN_LEFT, DOWN, DOWN_RIGHT,
      cast_toSint32]; ring

/-- When `cx*cx + cy*cy` fits a signed 32-bit `int`, the frame loop moves the offset by
`offset_change D`. -/
theorem pan_update_offset (v : PanVars) (D : Int) (h0 : 0 ≤ D) (h7 : D ≤ 7)
    (H : v.cx * v.cx + v.cy * v.cy ≤ 2147483647) :
    (pan_update D v).cx = v.cx + (offset_change D).1
      ∧ (pan_update D v).cy = v.cy + (offset_change D).2 := by
  obtain ⟨hx, hy⟩ := offset_bound_of_fits v.cx v.cy H
  obtain ⟨o0, o1, o2, o3, o4, o5, o6, o7⟩ := offset_change_values
  have e1 : toSint32 (v.cx + 1) = v.cx + 1 := toSint32_of_range (by omega) (by omega)
  have e2 : toSint32 (v.cx - 1) = v.cx + -1 := by
    rw [toSint32_of_range (by omega) (by omega)]; ring
  have e3 : toSint32 (v.cy + 1) = v.cy + 1 := toSint32_of_range (by omega) (by omega)
  have e4 : toSint32 (v.cy - 1) = v.cy + -1 := by
    rw [toSint32_of_range (by omega) (by omega)]; ring
  have hi : D = 0 ∨ D = 1 ∨ D = 2 ∨ D = 3 ∨ D = 4 ∨ D = 5 ∨ D = 6 ∨ D = 7 := by
    clear o0 o1 o2 o3 o4 o5 o6 o7 e1 e2 e3 e4
    omega
  rcases hi with h | h | h | h | h | h | h | h <;> subst h
  · rw [o0]; simp [pan_update, RIGHT, e1]
  · rw [o1]; simp [pan_update, RIGHT, UP_RIGHT, e1, e3]
  · rw [o2]; simp [pan_update, RIGHT, UP_RIGHT, UP, e3]
  · rw [o3]; simp [pan_update, RIGHT, UP_RIGHT, UP, UP_LEFT, e2, e3]
  · rw [o4]; simp [pan_update, RIGHT, UP_RIGHT, UP, UP_LEFT, LEFT, e2]
  · rw [o5]; simp [pan_update, RIGHT, UP_RIGHT, UP, UP_LEFT, LEFT, DOWN_LEFT, e2, e4]
  · rw [o6]; simp [pan_update, RIGHT, UP_RIGHT, UP, UP_LEFT, LEFT, DOWN_LEFT, DOWN, e4]
  · rw [o7]; simp [pan_update, RIGHT, UP_RIGHT, UP, UP_LEFT, LEFT, DOWN_LEFT, DOWN, DOWN_RIGHT,
      e1, e4]

/-- In the band the view coordinate is not reduced. -/
theorem view_exact_of_band (v : PanVars) (h : in_band v) :
    toSint16 (-5734 + 2 * (v.cx + 1750)) = -5734 + 2 * (v.cx + 1750)
      ∧ toSint16 (819 + 2 * v.cy) = 819 + 2 * v.cy := by
  unfold in_band at h
  have e2 : (RADIUS + 1) ^ 2 = 3066001 := by decide
  rw [e2] at h
  have h2 : v.cx * v.cx + v.cy * v.cy ≤ 3066001 := by
    have := h.2; ring_nf at this ⊢; linarith
  have sA : 0 ≤ v.cx * v.cx := mul_self_nonneg _
  have sB : 0 ≤ v.cy * v.cy := mul_self_nonneg _
  have b1 : -1752 < v.cx := by
    by_contra hc
    have : v.cx ≤ -1752 := by omega
    nlinarith
  have b2 : v.cx < 1752 := by
    by_contra hc
    have : 1752 ≤ v.cx := by omega
    nlinarith
  have b3 : -1752 < v.cy := by
    by_contra hc
    have : v.cy ≤ -1752 := by omega
    nlinarith
  have b4 : v.cy < 1752 := by
    by_contra hc
    have : 1752 ≤ v.cy := by omega
    nlinarith
  exact ⟨toSint16_of_range (by omega) (by omega), toSint16_of_range (by omega) (by omega)⟩

/-- Claim C16.  Every frame step, for each direction, leaves
`upper_left_r_fp - PIXEL_SIZE_FP * cx` and `upper_left_i_fp - PIXEL_SIZE_FP * cy` unchanged
modulo 2^16 (`PIXEL_SIZE_FP = 2`); so in every state reached from the initial state
`(upper_left, cx, cy) = (-5734, 819, -1750, 0)` the upper-left coordinate is
`(-5734 + 2*(cx + 1750), 819 + 2*cy)` as a signed 16-bit value (and exactly that
value during the first 1000 frames); and the offset the frame loop sets for a
direction `D` is the one whose squared distance lines 141-150 store in the table
entry of `D` (modulo 2^32, and exactly when `cx*cx + cy*cy` fits an `int`). -/
theorem frame_keeps_view_and_offset_in_step :
    PIXEL_SIZE_FP = 2
      ∧ (∀ (D : Int) (v : PanVars),
          ((pan_update D v).upper_left_r_fp - PIXEL_SIZE_FP * (pan_update D v).cx) % 65536
              = (v.upper_left_r_fp - PIXEL_SIZE_FP * v.cx) % 65536
            ∧ ((pan_update D v).upper_left_i_fp - PIXEL_SIZE_FP * (pan_update D v).cy) % 65536
              = (v.upper_left_i_fp - PIXEL_SIZE_FP * v.cy) % 65536)
      ∧ (∀ (fuel : Nat) (D : Int) (s s' : FrameState),
          scroll_and_redraw fuel D s = some s' → s'.vars = pan_update D s.vars)
      ∧ (initial_vars.upper_left_r_fp = -5734 ∧ initial_vars.upper_left_i_fp = 819
          ∧ initial_vars.cx = -1750 ∧ initial_vars.cy = 0)
      ∧ (∀ (k : Nat) (c : Int → Int),
          (offset_walk k c initial_vars DOWN).1.upper_left_r_fp
              = toSint16 (-5734 + 2 * ((offset_walk k c initial_vars DOWN).1.cx + 1750))
            ∧ (offset_walk k c initial_vars DOWN).1.upper_left_i_fp
              = toSint16 (819 + 2 * (offset_walk k c initial_vars DOWN).1.cy))
      ∧ (∀ (k : Nat) (c : Int → Int), k ≤ 1000 →
          (offset_walk k c initial_vars DOWN).1.upper_left_r_fp
              = -5734 + 2 * ((offset_walk k c initial_vars DOWN).1.cx + 1750)
            ∧ (offset_walk k c initial_vars DOWN).1.upper_left_i_fp
              = 819 + 2 * (offset_walk k c initial_vars DOWN).1.cy)
      ∧ (∀ (c : Int → Int) (v : PanVars) (D : Int), 0 ≤ D → D ≤ 7 →
          fill_cache c v.cx v.cy D
            = toUint32 ((pan_update D v).cx ^ 2 + (pan_update D v).cy ^ 2))
      ∧ (∀ (c : Int → Int) (v : PanVars) (D : Int), 0 ≤ D → D ≤ 7 →
          v.cx * v.cx + v.cy * v.cy ≤ 2147483647 →
          fill_cache c v.cx v.cy D = (pan_update D v).cx ^ 2 + (pan_update D v).cy ^ 2
            ∧ (pan_update D v).cx = v.cx + (offset_change D).1
            ∧ (pan_update D v).cy = v.cy + (offset_change D).2) := by
  have hinit : initial_vars.upper_left_r_fp = toSint16 (-5734 + 2 * (initial_vars.cx + 1750))
      ∧ initial_vars.upper_left_i_fp = toSint16 (819 + 2 * initial_vars.cy) := by decide
  refine ⟨pixel_size_fp_eq, pan_update_mod, scroll_and_redraw_vars, by decide,
    fun k c => offset_walk_keeps_view k c _ _ hinit, fun k c hk => ?_,
    fill_cache_pan_update, fun c v D h0 h7 H => ?_⟩
  · obtain ⟨w1, w2⟩ := offset_walk_keeps_view k c initial_vars DOWN hinit
    by_cases hk0 : k = 0
    · subst hk0
      show initial_vars.upper_left_r_fp = -5734 + 2 * (initial_vars.cx + 1750)
        ∧ initial_vars.upper_left_i_fp = 819 + 2 * initial_vars.cy
      decide
    · have hb := band_check_sound 1000 (fun _ => 0) initial_vars DOWN band_check_1000 k
        (by omega) hk
      rw [← offset_walk_indep k c (fun _ => 0)] at hb
      obtain ⟨x1, x2⟩ := view_exact_of_band _ hb
      rw [x1] at w1
      rw [x2] at w2
      exact ⟨w1, w2⟩
  · obtain ⟨u1, u2⟩ := pan_update_offset v D h0 h7 H
    obtain ⟨m0, m1⟩ := moved_distance_fits v.cx v.cy H D h0 h7
    refine ⟨?_, u1, u2⟩
    rw [fill_cache_mod c v.cx v.cy D h0 h7, toUint32_of_range m0 m1, u1, u2]

/-! ## The shift loops and their accesses -/

/-- The inner shift loop carries out its accesses in order. -/
theorem shift_inner_link (w dx dy my1 my2 tmpx : Int) :
    ∀ (fuel : Nat) (tmpy : Int) (p : Int → Color),
    shift_inner w dx dy my1 my2 tmpx fuel tmpy p
      = (shift_inner_accesses dx dy my1 my2 tmpx fuel tmpy).map (fun l => apply_accesses w l p) := by
  intro fuel
  induction fuel with
  | zero => intro tmpy p; rfl
  | succ fuel ih =>
    intro tmpy p
    unfold shift_inner shift_inner_accesses
    by_cases hc : tmpy ≠ my2
    · rw [if_pos hc, if_pos hc, ih]
      cases shift_inner_accesses dx dy my1 my2 tmpx fuel
          (if my1 > my2 then tmpy - 1 else tmpy + 1) with
      | none => rfl
      | some l => rfl
    · rw [if_neg hc, if_neg hc]; rfl

/-- The outer shift loop carries out its accesses in order. -/
theorem shift_outer_link (w dx dy mx1 mx2 my1 my2 : Int) (inner_fuel : Nat) :
    ∀ (fuel : Nat) (tmpx : Int) (p : Int → Color),
    shift_outer w dx dy mx1 mx2 my1 my2 inner_fuel fuel tmpx p
      = (shift_outer_accesses dx dy mx1 mx2 my1 my2 inner_fuel fuel tmpx).map
          (fun l => apply_accesses w l p) := by
  intro fuel
  induction fuel with
  | zero => intro tmpx p; rfl
  | succ fuel ih =>
    intro tmpx p
    unfold shift_outer shift_outer_accesses
    by_cases hc : tmpx ≠ mx2
    · rw [if_pos hc, if_pos hc, shift_inner_link]
      cases shift_inner_accesses dx dy my1 my2 tmpx inner_fuel my1 with
      | none => rfl
      | some l =>
        simp only [Option.map_some']
        rw [ih]
        cases shift_outer_accesses dx dy mx1 mx2 my1 my2 inner_fuel fuel
            (if mx1 > mx2 then tmpx - 1 else tmpx + 1) with
        | none => rfl
        | some l' =>
          simp only [Option.map_some', apply_accesses, List.foldl_append]
    · rw [if_neg hc, if_neg hc]; rfl

/-- The inner snapshot loop carries out its accesses with the sources read in the
snapshot. -/
theorem shift_inner_snapshot_link (snap : Int → Color) (w dx dy my1 my2 tmpx : Int) :
    ∀ (fuel : Nat) (tmpy : Int) (p : Int → Color),
    shift_inner_snapshot snap w dx dy my1 my2 tmpx fuel tmpy p
      = (shift_inner_accesses dx dy my1 my2 tmpx fuel tmpy).map
          (fun l => apply_accesses_snapshot w snap l p) := by
  intro fuel
  induction fuel with
  | zero => intro tmpy p; rfl
  | succ fuel ih =>
    intro tmpy p
    unfold shift_inner_snapshot shift_inner_accesses
    by_cases hc : tmpy ≠ my2
    · rw [if_pos hc, if_pos hc, ih]
      cases shift_inner_accesses dx dy my1 my2 tmpx fuel
          (if my1 > my2 then tmpy - 1 else tmpy + 1) with
      | none => rfl
      | some l => rfl
    · rw [if_neg hc, if_neg hc]; rfl

/-- The outer snapshot loop carries out its accesses with the sources read in the
snapshot. -/
theorem shift_outer_snapshot_link (snap : Int → Color) (w dx dy mx1 mx2 my1 my2 : Int)
    (inner_fuel : Nat) :
    ∀ (fuel : Nat) (tmpx : Int) (p : Int → Color),
    shift_outer_snapshot snap w dx dy mx1 mx2 my1 my2 inner_fuel fuel tmpx p
      = (shift_outer_accesses dx dy mx1 mx2 my1 my2 inner_fuel fuel tmpx).map
          (fun l => apply_accesses_snapshot w snap l p) := by
  intro fuel
  induction fuel with
  | zero => intro tmpx p; rfl
  | succ fuel ih =>
    intro tmpx p
    unfold shift_outer_snapshot shift_outer_accesses
    by_cases hc : tmpx ≠ mx2
    · rw [if_pos hc, if_pos hc, shift_inner_snapshot_link]
      cases shift_inner_accesses dx dy my1 my2 tmpx inner_fuel my1 with
      | none => rfl
      | some l =>
        simp only [Option.map_some']
        rw [ih]
        cases shift_outer_accesses dx dy mx1 mx2 my1 my2 inner_fuel fuel
            (if mx1 > mx2 then tmpx - 1 else tmpx + 1) with
        | none => rfl
        | some l' =>
          simp only [Option.map_some', apply_accesses_snapshot, List.foldl_append]
    · rw [if_neg hc, if_neg hc]; rfl

theorem apply_accesses_cons (w : Int) (a : ShiftAccess) (l : List ShiftAccess)
    (p : Int → Color) :
    apply_accesses w (a :: l) p
      = apply_accesses w l (write p (a.dst_y * w + a.dst_x) (p (a.src_y * w + a.src_x))) := rfl

theorem apply_accesses_snapshot_cons (w : Int) (snap : Int → Color) (a : ShiftAccess)
    (l : List ShiftAccess) (p : Int → Color) :
    apply_accesses_snapshot w snap (a :: l) p
      = apply_accesses_snapshot w snap l
          (write p (a.dst_y * w + a.dst_x) (snap (a.src_y * w + a.src_x))) := rfl

/-- When every source is read before any write to it, carrying out the accesses in
place gives the same buffer as carrying them out from a snapshot. -/
theorem apply_accesses_eq_snapshot (w : Int) (snap : Int → Color) :
    ∀ (l : List ShiftAccess) (q : Int → Color),
    (∀ b ∈ l, q (b.src_y * w + b.src_x) = snap (b.src_y * w + b.src_x)) →
    read_before_write w l →
    apply_accesses w l q = apply_accesses_snapshot w snap l q := by
  intro l
  induction l with
  | nil => intro q _ _; rfl
  | cons a l ih =>
    intro q hq hp
    rw [apply_accesses_cons, apply_accesses_snapshot_cons, hq a (List.mem_cons_self _ _)]
    unfold read_before_write at hp
    rw [List.pairwise_cons] at hp
    apply ih _ _ hp.2
    intro b hb
    unfold write
    rw [if_neg (fun h => hp.1 b hb h.symm)]
    exact hq b (List.mem_cons_of_mem _ hb)

/-- Accesses from a snapshot leave a pixel that is no destination as it was. -/
theorem apply_accesses_snapshot_frame (w : Int) (snap : Int → Color) :
    ∀ (l : List ShiftAccess) (q : Int → Color) (i : Int),
    (∀ a ∈ l, a.dst_y * w + a.dst_x ≠ i) → apply_accesses_snapshot w snap l q i = q i := by
  intro l
  induction l with
  | nil => intro q i _; rfl
  | cons a l ih =>
    intro q i h
    rw [apply_accesses_snapshot_cons, ih _ _ (fun b hb => h b (List.mem_cons_of_mem _ hb))]
    unfold write
    rw [if_neg (fun hc => h a (List.mem_cons_self _ _) hc.symm)]

/-- Accesses from a snapshot leave in every destination the snapshot value of its
source, when accesses with the same destination have the same source. -/
theorem apply_accesses_snapshot_dst (w : Int) (snap : Int → Color) :
    ∀ (l : List ShiftAccess) (q : Int → Color) (a : ShiftAccess), a ∈ l →
    (∀ b ∈ l, b.dst_y * w + b.dst_x = a.dst_y * w + a.dst_x →
      b.src_y * w + b.src_x = a.src_y * w + a.src_x) →
    apply_accesses_snapshot w snap l q (a.dst_y * w + a.dst_x) = snap (a.src_y * w + a.src_x) := by
  intro l
  induction l with
  | nil => intro q a ha; exact absurd ha (List.not_mem_nil _)
  | cons b l ih =>
    intro q a ha h
    rw [apply_accesses_snapshot_cons]
    by_cases hex : ∃ c ∈ l, c.dst_y * w + c.dst_x = a.dst_y * w + a.dst_x
    · obtain ⟨c, hc, hcd⟩ := hex
      have hcs := h c (List.mem_cons_of_mem _ hc) hcd
      rw [← hcd, ← hcs]
      apply ih _ c hc
      intro e he hed
      rw [hcs]
      exact h e (List.mem_cons_of_mem _ he) (hed.trans hcd)
    · have hno : ∀ c ∈ l, c.dst_y * w + c.dst_x ≠ a.dst_y * w + a.dst_x :=
        fun c hc hcd => hex ⟨c, hc, hcd⟩
      rw [apply_accesses_snapshot_frame w snap l _ _ hno]
      have hab : a = b := by
        rcases List.mem_cons.mp ha with h1 | h1
        · exact h1
        · exact absurd rfl (hno a h1)
      subst hab
      unfold write
      rw [if_pos rfl]

/-- The accesses of the inner shift loop on a surface of width 800: the loop
terminates, it visits the rows from `tmpy` to `my2`, the latter excluded, and it
reads every source before any write to it when the rows are visited against the
vertical shift (or the source lies in another column). -/
theorem shift_inner_accesses_spec (dx dy my1 my2 tmpx : Int)
    (hcol : 0 ≤ tmpx ∧ tmpx < 800 ∧ 0 ≤ tmpx + dx ∧ tmpx + dx < 800)
    (hyo : dx ≠ 0 ∨ (if my1 > my2 then 0 ≤ dy else dy ≤ 0)) :
    ∀ (fuel : Nat) (tmpy : Int),
    (if my1 > my2 then my2 ≤ tmpy ∧ tmpy - my2 < fuel else tmpy ≤ my2 ∧ my2 - tmpy < fuel) →
    ∃ l, shift_inner_accesses dx dy my1 my2 tmpx fuel tmpy = some l
      ∧ (∀ a, a ∈ l ↔ ∃ t, a = ⟨tmpx, t, tmpx + dx, t - dy⟩
          ∧ (if my1 > my2 then my2 < t ∧ t ≤ tmpy else tmpy ≤ t ∧ t < my2))
      ∧ read_before_write 800 l := by
  intro fuel
  induction fuel with
  | zero =>
    intro tmpy h
    exfalso
    split_ifs at h <;> push_cast at h <;> omega
  | succ fuel ih =>
    intro tmpy h
    unfold shift_inner_accesses
    by_cases hc : tmpy ≠ my2
    · rw [if_pos hc]
      obtain ⟨l, hl1, hl2, hl3⟩ := ih (if my1 > my2 then tmpy - 1 else tmpy + 1)
        (by split_ifs at h ⊢ <;> push_cast at h <;> omega)
      rw [hl1]
      refine ⟨_, rfl, fun a => ?_, ?_⟩
      · rw [List.mem_cons, hl2]
        constructor
        · rintro (h1 | ⟨t, ht1, ht2⟩)
          · exact ⟨tmpy, h1, by split_ifs at h ⊢ <;> omega⟩
          · exact ⟨t, ht1, by split_ifs at h ht2 ⊢ <;> omega⟩
        · rintro ⟨t, ht1, ht2⟩
          by_cases htt : t = tmpy
          · left; rw [ht1, htt]
          · right; exact ⟨t, ht1, by split_ifs at h ht2 ⊢ <;> omega⟩
      · unfold read_before_write at hl3 ⊢
        rw [List.pairwise_cons]
        refine ⟨fun b hb => ?_, hl3⟩
        obtain ⟨t, ht1, ht2⟩ := (hl2 b).mp hb
        rw [ht1]
        simp only
        split_ifs at h ht2 hyo <;> omega
    · rw [if_neg hc]
      refine ⟨[], rfl, fun a => ?_, List.Pairwise.nil⟩
      constructor
      · intro ha; exact absurd ha (List.not_mem_nil _)
      · rintro ⟨t, -, ht2⟩
        exfalso
        split_ifs at h ht2 <;> omega

/-- The accesses of the outer shift loop on a surface of width 800: both loops
terminate, the columns from `tmpx` to `mx2`, the latter excluded, and in each the
rows from `my1` to `my2`, the latter excluded, are visited, and every source is
read before any write to it when columns and rows are visited against the shift. -/
theorem shift_outer_accesses_spec (dx dy mx1 mx2 my1 my2 : Int) (inner_fuel : Nat)
    (hin : my1 - my2 < inner_fuel ∧ my2 - my1 < inner_fuel)
    (hxo : if mx1 > mx2 then dx ≤ 0 else 0 ≤ dx)
    (hyo : dx ≠ 0 ∨ (if my1 > my2 then 0 ≤ dy else dy ≤ 0)) :
    ∀ (fuel : Nat) (tmpx : Int),
    (if mx1 > mx2 then mx2 ≤ tmpx ∧ tmpx - mx2 < fuel else tmpx ≤ mx2 ∧ mx2 - tmpx < fuel) →
    (∀ x, (if mx1 > mx2 then mx2 < x ∧ x ≤ tmpx else tmpx ≤ x ∧ x < mx2) →
      0 ≤ x ∧ x < 800 ∧ 0 ≤ x + dx ∧ x + dx < 800) →
    ∃ l, shift_outer_accesses dx dy mx1 mx2 my1 my2 inner_fuel fuel tmpx = some l
      ∧ (∀ a, a ∈ l ↔ ∃ x t, a = ⟨x, t, x + dx, t - dy⟩
          ∧ (if mx1 > mx2 then mx2 < x ∧ x ≤ tmpx else tmpx ≤ x ∧ x < mx2)
          ∧ (if my1 > my2 then my2 < t ∧ t ≤ my1 else my1 ≤ t ∧ t < my2))
      ∧ read_before_write 800 l := by
  intro fuel
  induction fuel with
  | zero =>
    intro tmpx h
    exfalso
    split_ifs at h <;> push_cast at h <;> omega
  | succ fuel ih =>
    intro tmpx h hcols
    unfold shift_outer_accesses
    by_cases hc : tmpx ≠ mx2
    · rw [if_pos hc]
      have hcol := hcols tmpx (by split_ifs at h ⊢ <;> omega)
      obtain ⟨l1, hl1, hm1, hp1⟩ := shift_inner_accesses_spec dx dy my1 my2 tmpx hcol hyo
        inner_fuel my1 (by split_ifs <;> omega)
      obtain ⟨l2, hl2, hm2, hp2⟩ := ih (if mx1 > mx2 then tmpx - 1 else tmpx + 1)
        (by split_ifs at h ⊢ <;> push_cast at h <;> omega)
        (fun x hx => hcols x (by split_ifs at h hx ⊢ <;> omega))
      rw [hl1]
      simp only
      rw [hl2]
      refine ⟨_, rfl, fun a => ?_, ?_⟩
      · rw [List.mem_append, hm1, hm2]
        constructor
        · rintro (⟨t, ht1, ht2⟩ | ⟨x, t, hx1, hx2, hx3⟩)
          · exact ⟨tmpx, t, ht1, by split_ifs at h ⊢ <;> omega, ht2⟩
          · exact ⟨x, t, hx1, by split_ifs at h hx2 ⊢ <;> omega, hx3⟩
        · rintro ⟨x, t, hx1, hx2, hx3⟩
          by_cases hxt : x = tmpx
          · left; exact ⟨t, by rw [hx1, hxt], hx3⟩
          · right; exact ⟨x, t, hx1, by split_ifs at h hx2 ⊢ <;> omega, hx3⟩
      · unfold read_before_write at hp1 hp2 ⊢
        rw [List.pairwise_append]
        refine ⟨hp1, hp2, fun a ha b hb => ?_⟩
        obtain ⟨t, ht1, -⟩ := (hm1 a).mp ha
        obtain ⟨x, t', hx1, hx2, -⟩ := (hm2 b).mp hb
        have hxb := hcols x (by split_ifs at h hx2 ⊢ <;> omega)
        rw [ht1, hx1]
        simp only
        split_ifs at h hx2 hxo <;> omega
    · rw [if_neg hc]
      refine ⟨[], rfl, fun a => ?_, List.Pairwise.nil⟩
      constructor
      · intro ha; exact absurd ha (List.not_mem_nil _)
      · rintro ⟨x, t, -, hx2, -⟩
        exfalso
        split_ifs at h hx2 <;> omega

/-- The parameters that the frame loop sets for each of the eight directions
satisfy `shift_params_ok`. -/
theorem pan_update_shift_ok (D : Int) (h0 : 0 ≤ D) (h7 : D ≤ 7) (v : PanVars) :
    shift_params_ok (pan_update D v).dx (pan_update D v).dy (pan_update D v).mx1
      (pan_update D v).mx2 (pan_update D v).my1 (pan_update D v).my2 := by
  have hi : D = 0 ∨ D = 1 ∨ D = 2 ∨ D = 3 ∨ D = 4 ∨ D = 5 ∨ D = 6 ∨ D = 7 := by omega
  rcases hi with h | h | h | h | h | h | h | h <;> subst h <;>
    simp only [pan_update, RIGHT, UP_RIGHT, UP, UP_LEFT, LEFT, DOWN_LEFT, DOWN, DOWN_RIGHT,
      WIDTH, HEIGHT, shift_params_ok] <;>
    norm_num <;>
    refine ⟨fun x h1 h2 => ?_, fun t h1 h2 => ?_⟩ <;> omega

/-- The in-place shift under `shift_params_ok`, on a surface of width 800: both loops
terminate, every source is read before any write to it, the result is that of the
shift from a snapshot, every visited pixel holds the old value of its source and
every other pixel is unchanged. -/
theorem shift_outer_spec (dx dy mx1 mx2 my1 my2 : Int)
    (hok : shift_params_ok dx dy mx1 mx2 my1 my2) (fuel : Nat) (hf : 801 ≤ fuel)
    (p : Int → Color) :
    ∃ l, shift_outer_accesses dx dy mx1 mx2 my1 my2 fuel fuel mx1 = some l
      ∧ shift_outer 800 dx dy mx1 mx2 my1 my2 fuel fuel mx1 p = some (apply_accesses 800 l p)
      ∧ shift_outer_snapshot p 800 dx dy mx1 mx2 my1 my2 fuel fuel mx1 p
          = some (apply_accesses 800 l p)
      ∧ (∀ a, a ∈ l ↔ ∃ x t, a = ⟨x, t, x + dx, t - dy⟩
          ∧ (if mx1 > mx2 then mx2 < x ∧ x ≤ mx1 else mx1 ≤ x ∧ x < mx2)
          ∧ (if my1 > my2 then my2 < t ∧ t ≤ my1 else my1 ≤ t ∧ t < my2))
      ∧ read_before_write 800 l
      ∧ (∀ x t, (if mx1 > mx2 then mx2 < x ∧ x ≤ mx1 else mx1 ≤ x ∧ x < mx2) →
          (if my1 > my2 then my2 < t ∧ t ≤ my1 else my1 ≤ t ∧ t < my2) →
          apply_accesses 800 l p (t * 800 + x) = p ((t - dy) * 800 + (x + dx)))
      ∧ (∀ idx, (∀ x t, (if mx1 > mx2 then mx2 < x ∧ x ≤ mx1 else mx1 ≤ x ∧ x < mx2) →
          (if my1 > my2 then my2 < t ∧ t ≤ my1 else my1 ≤ t ∧ t < my2) → idx ≠ t * 800 + x) →
          apply_accesses 800 l p idx = p idx) := by
  obtain ⟨hfx, hfy, hxo, hyo, hcols, hrows⟩ := hok
  obtain ⟨l, hl, hm, hp⟩ := shift_outer_accesses_spec dx dy mx1 mx2 my1 my2 fuel
    (by omega) hxo hyo fuel mx1 (by split_ifs <;> omega) hcols
  have hsnap : apply_accesses 800 l p = apply_accesses_snapshot 800 p l p :=
    apply_accesses_eq_snapshot 800 p l p (fun _ _ => rfl) hp
  refine ⟨l, hl, ?_, ?_, hm, hp, fun x t hx ht => ?_, fun idx hidx => ?_⟩
  · rw [shift_outer_link, hl]; rfl
  · rw [shift_outer_snapshot_link, hl, hsnap]; rfl
  · rw [hsnap]
    have ha : (⟨x, t, x + dx, t - dy⟩ : ShiftAccess) ∈ l := (hm _).mpr ⟨x, t, rfl, hx, ht⟩
    have := apply_accesses_snapshot_dst 800 p l p _ ha (fun b hb hbd => by
      obtain ⟨x', t', hb1, hb2, -⟩ := (hm b).mp hb
      have c1 := hcols x hx
      have c2 := hcols x' hb2
      rw [hb1] at hbd ⊢
      simp only at hbd ⊢
      omega)
    exact this
  · rw [hsnap]
    apply apply_accesses_snapshot_frame
    intro a ha
    obtain ⟨x, t, ha1, hx, ht⟩ := (hm a).mp ha
    rw [ha1]
    exact fun h => hidx x t hx ht h.symm

/-- Claim C19.  For each of the eight directions, with the shift parameters the
frame loop sets for it on an 800x600 surface: both shift loops terminate (with 801
tests of each loop condition), and every access of the shift has its destination
`(tmpx, tmpy)` and its source `(tmpx+dx, tmpy-dy)` inside `0 <= x < WIDTH`,
`0 <= y < HEIGHT`, so that both indices into the pixel array lie in
`[0, WIDTH*HEIGHT)`. -/
theorem shift_indices_in_bounds (D : Int) (hD : 0 ≤ D ∧ D ≤ 7) (v : PanVars) (fuel : Nat)
    (hf : 801 ≤ fuel) :
    ∃ l, shift_outer_accesses (pan_update D v).dx (pan_update D v).dy (pan_update D v).mx1
          (pan_update D v).mx2 (pan_update D v).my1 (pan_update D v).my2 fuel fuel
          (pan_update D v).mx1 = some l
      ∧ (∀ p, shift_outer WIDTH (pan_update D v).dx (pan_update D v).dy (pan_update D v).mx1
          (pan_update D v).mx2 (pan_update D v).my1 (pan_update D v).my2 fuel fuel
          (pan_update D v).mx1 p = some (apply_accesses WIDTH l p))
      ∧ ∀ a ∈ l,
          (a.src_x = a.dst_x + (pan_update D v).dx ∧ a.src_y = a.dst_y - (pan_update D v).dy)
          ∧ (0 ≤ a.dst_x ∧ a.dst_x < WIDTH ∧ 0 ≤ a.dst_y ∧ a.dst_y < HEIGHT)
          ∧ (0 ≤ a.src_x ∧ a.src_x < WIDTH ∧ 0 ≤ a.src_y ∧ a.src_y < HEIGHT)
          ∧ (0 ≤ a.dst_y * WIDTH + a.dst_x ∧ a.dst_y * WIDTH + a.dst_x < WIDTH * HEIGHT)
          ∧ (0 ≤ a.src_y * WIDTH + a.src_x ∧ a.src_y * WIDTH + a.src_x < WIDTH * HEIGHT) := by
  have hok := pan_update_shift_ok D hD.1 hD.2 v
  generalize (pan_update D v).dx = dx at hok ⊢
  generalize (pan_update D v).dy = dy at hok ⊢
  generalize (pan_update D v).mx1 = mx1 at hok ⊢
  generalize (pan_update D v).mx2 = mx2 at hok ⊢
  generalize (pan_update D v).my1 = my1 at hok ⊢
  generalize (pan_update D v).my2 = my2 at hok ⊢
  obtain ⟨l, hl, -, -, hm, -⟩ := shift_outer_spec dx dy mx1 mx2 my1 my2 hok fuel hf
    (fun _ => ⟨0, 0, 0⟩)
  refine ⟨l, hl, fun p => ?_, fun a ha => ?_⟩
  · obtain ⟨l', hl', hs, -⟩ := shift_outer_spec dx dy mx1 mx2 my1 my2 hok fuel hf p
    rw [hl] at hl'
    rw [Option.some.injEq] at hl'
    rw [hl']
    exact hs
  · obtain ⟨x, t, ha1, hx, ht⟩ := (hm a).mp ha
    obtain ⟨-, -, -, -, hcols, hrows⟩ := hok
    have c1 := hcols x hx
    have c2 := hrows t ht
    rw [ha1]
    refine ⟨⟨rfl, rfl⟩, ?_, ?_, ?_, ?_⟩ <;> simp only [WIDTH, HEIGHT] <;> omega

theorem shift_indices_in_bounds_witness :
    ∃ l, shift_outer_accesses (pan_update UP_LEFT initial_vars).dx
          (pan_update UP_LEFT initial_vars).dy (pan_update UP_LEFT initial_vars).mx1
          (pan_update UP_LEFT initial_vars).mx2 (pan_update UP_LEFT initial_vars).my1
          (pan_update UP_LEFT initial_vars).my2 801 801
          (pan_update UP_LEFT initial_vars).mx1 = some l
      ∧ ∀ a ∈ l, (0 ≤ a.dst_x ∧ a.dst_x < WIDTH ∧ 0 ≤ a.dst_y ∧ a.dst_y < HEIGHT)
          ∧ (0 ≤ a.src_x ∧ a.src_x < WIDTH ∧ 0 ≤ a.src_y ∧ a.src_y < HEIGHT) := by
  obtain ⟨l, h1, -, h3⟩ := shift_indices_in_bounds UP_LEFT (by decide) initial_vars 801
    (by decide)
  exact ⟨l, h1, fun a ha => ⟨(h3 a ha).2.1, (h3 a ha).2.2.1⟩⟩

/-- Claim C15.  For each of the eight directions, with the `(dx, dy)` and loop bounds
the frame loop sets for it, on a surface of width `WIDTH` : every source pixel
`(x+dx, y-dy)` is read before any write to it, so each destination pixel `(x, y)`
visited by the shift ends up holding the pre-shift value of `(x+dx, y-dy)`, and the
in-place shift returns the buffer that the same shift returns when it reads its
sources in a snapshot copy of the buffer. -/
theorem shift_in_place_eq_snapshot (D : Int) (hD : 0 ≤ D ∧ D ≤ 7) (v : PanVars) (fuel : Nat)
    (hf : 801 ≤ fuel) (p : Int → Color) :
    ∃ l p', shift_outer_accesses (pan_update D v).dx (pan_update D v).dy (pan_update D v).mx1
          (pan_update D v).mx2 (pan_update D v).my1 (pan_update D v).my2 fuel fuel
          (pan_update D v).mx1 = some l
      ∧ read_before_write WIDTH l
      ∧ shift_outer WIDTH (pan_update D v).dx (pan_update D v).dy (pan_update D v).mx1
          (pan_update D v).mx2 (pan_update D v).my1 (pan_update D v).my2 fuel fuel
          (pan_update D v).mx1 p = some p'
      ∧ p' = apply_accesses WIDTH l p
      ∧ shift_outer_snapshot p WIDTH (pan_update D v).dx (pan_update D v).dy
          (pan_update D v).mx1 (pan_update D v).mx2 (pan_update D v).my1 (pan_update D v).my2
          fuel fuel (pan_update D v).mx1 p = some p'
      ∧ ∀ a ∈ l,
          (a.src_x = a.dst_x + (pan_update D v).dx ∧ a.src_y = a.dst_y - (pan_update D v).dy)
          ∧ p' (a.dst_y * WIDTH + a.dst_x) = p (a.src_y * WIDTH + a.src_x) := by
  have hok := pan_update_shift_ok D hD.1 hD.2 v
  generalize (pan_update D v).dx = dx at hok ⊢
  generalize (pan_update D v).dy = dy at hok ⊢
  generalize (pan_update D v).mx1 = mx1 at hok ⊢
  generalize (pan_update D v).mx2 = mx2 at hok ⊢
  generalize (pan_update D v).my1 = my1 at hok ⊢
  generalize (pan_update D v).my2 = my2 at hok ⊢
  obtain ⟨l, hl, hs, hsnap, hm, hp, hval, -⟩ :=
    shift_outer_spec dx dy mx1 mx2 my1 my2 hok fuel hf p
  refine ⟨l, apply_accesses 800 l p, hl, hp, hs, rfl, hsnap, fun a ha => ?_⟩
  obtain ⟨x, t, ha1, hx, ht⟩ := (hm a).mp ha
  rw [ha1]
  exact ⟨⟨rfl, rfl⟩, hval x t hx ht⟩

theorem shift_in_place_eq_snapshot_witness :
    ∃ l p', shift_outer_accesses (pan_update UP initial_vars).dx (pan_update UP initial_vars).dy
          (pan_update UP initial_vars).mx1 (pan_update UP initial_vars).mx2
          (pan_update UP initial_vars).my1 (pan_update UP initial_vars).my2 801 801
          (pan_update UP initial_vars).mx1 = some l
      ∧ read_before_write WIDTH l
      ∧ shift_outer WIDTH (pan_update UP initial_vars).dx (pan_update UP initial_vars).dy
          (pan_update UP initial_vars).mx1 (pan_update UP initial_vars).mx2
          (pan_update UP initial_vars).my1 (pan_update UP initial_vars).my2 801 801
          (pan_update UP initial_vars).mx1 (fun i => ⟨i, 0, 0⟩) = some p'
      ∧ shift_outer_snapshot (fun i => ⟨i, 0, 0⟩) WIDTH (pan_update UP initial_vars).dx
          (pan_update UP initial_vars).dy (pan_update UP initial_vars).mx1
          (pan_update UP initial_vars).mx2 (pan_update UP initial_vars).my1
          (pan_update UP initial_vars).my2 801 801 (pan_update UP initial_vars).mx1
          (fun i => ⟨i, 0, 0⟩) = some p' := by
  obtain ⟨l, p', h1, h2, h3, -, h5, -⟩ := shift_in_place_eq_snapshot UP (by decide) initial_vars
    801 (by decide) (fun i => ⟨i, 0, 0⟩)
  exact ⟨l, p', h1, h2, h3, h5⟩

/-! ## The incremental redraw -/

/-- The pixel of the window moved by `(dx, dy)` grid steps is the pixel of the old
window at `(x + dx, y - dy)`. -/
theorem window_pixel_moved (ul_r ul_i dx dy x y : Int) :
    window_pixel (toSint16 (ul_r + 2 * dx)) (toSint16 (ul_i + 2 * dy)) x y
      = window_pixel ul_r ul_i (x + dx) (y - dy) := by
  unfold window_pixel
  rw [pixel_size_fp_eq]
  have e1 : toSint16 (toSint16 (ul_r + 2 * dx) + x * 2) = toSint16 (ul_r + (x + dx) * 2) := by
    unfold toSint16; omega
  have e2 : toSint16 (toSint16 (ul_i + 2 * dy) - y * 2) = toSint16 (ul_i - (y - dy) * 2) := by
    unfold toSint16; omega
  rw [e1, e2]

/-- What the frame loop sets for the six directions with a horizontal component:
the shift parameters are safe, `dx` is 1 or -1, the window moves by `(dx, dy)` grid
steps, and every pixel lies in the shifted region, in the redrawn column or in the
redrawn row. -/
theorem pan_update_horizontal (D : Int)
    (hD : D = RIGHT ∨ D = UP_RIGHT ∨ D = UP_LEFT ∨ D = LEFT ∨ D = DOWN_LEFT ∨ D = DOWN_RIGHT)
    (v : PanVars) :
    (pan_update D v).dx ≠ 0
      ∧ ((pan_update D v).dx = -1 ∨ (pan_update D v).dx = 1)
      ∧ ((pan_update D v).dy = -1 ∨ (pan_update D v).dy = 0 ∨ (pan_update D v).dy = 1)
      ∧ (pan_update D v).upper_left_r_fp
          = toSint16 (v.upper_left_r_fp + 2 * (pan_update D v).dx)
      ∧ ((pan_update D v).upper_left_i_fp
            = toSint16 (v.upper_left_i_fp + 2 * (pan_update D v).dy)
          ∨ ((pan_update D v).dy = 0 ∧ (pan_update D v).upper_left_i_fp = v.upper_left_i_fp))
      ∧ ∀ x y : Int, 0 ≤ x → x < 800 → 0 ≤ y → y < 600 →
          ((if (pan_update D v).mx1 > (pan_update D v).mx2
              then (pan_update D v).mx2 < x ∧ x ≤ (pan_update D v).mx1
              else (pan_update D v).mx1 ≤ x ∧ x < (pan_update D v).mx2)
            ∧ (if (pan_update D v).my1 > (pan_update D v).my2
              then (pan_update D v).my2 < y ∧ y ≤ (pan_update D v).my1
              else (pan_update D v).my1 ≤ y ∧ y < (pan_update D v).my2))
          ∨ x = (if (pan_update D v).dx = -1 then 0 else WIDTH - 1)
          ∨ ((pan_update D v).dy ≠ 0
              ∧ y = (if (pan_update D v).dy = -1 then HEIGHT - 1 else 0)) := by
  rcases hD with h | h | h | h | h | h <;> subst h <;>
    simp only [pan_update, RIGHT, UP_RIGHT, UP, UP_LEFT, LEFT, DOWN_LEFT, DOWN, DOWN_RIGHT,
      WIDTH, HEIGHT, pixel_size_fp_eq] <;>
    norm_num <;> (try unfold toSint16) <;> (try refine ⟨by omega, ?_⟩) <;>
    (try refine ⟨by omega, ?_⟩) <;>
    (intro x y hx0 hx1 hy0 hy1; omega)

/-- The redraw of the exposed edges after a shift with `dx != 0` : the pixels of
the exposed column, and of the exposed row when `dy != 0`, become those of the
window; every other pixel is unchanged. -/
theorem redraw_edges_apply (surface : SDL_Surface) (hw : surface.w = WIDTH) (ulr uli : Int)
    (hr : toSint16 ulr = ulr) (hi : toSint16 uli = uli) (dx dy : Int)
    (x y : Int) (hx : 0 ≤ x ∧ x < 800) (hy : 0 ≤ y ∧ y < 600) :
    (if dy ≠ 0 then
        sdl_draw_horizontal_mandelbrot
          (sdl_draw_vertical_mandelbrot surface ulr uli (if dx = -1 then 0 else WIDTH - 1))
          ulr uli (if dy = -1 then HEIGHT - 1 else 0)
      else sdl_draw_vertical_mandelbrot surface ulr uli
          (if dx = -1 then 0 else WIDTH - 1)).pixels (y * 800 + x)
      = if x = (if dx = -1 then 0 else WIDTH - 1)
            ∨ (dy ≠ 0 ∧ y = (if dy = -1 then HEIGHT - 1 else 0)) then
          window_pixel ulr uli x y
        else surface.pixels (y * 800 + x) := by
  generalize hxc : (if dx = -1 then 0 else WIDTH - 1) = xc
  generalize hyr : (if dy = -1 then HEIGHT - 1 else 0) = yr
  have hxc' : xc = 0 ∨ xc = 799 := by
    rw [← hxc]; unfold WIDTH; split_ifs <;> simp
  have hyr' : yr = 0 ∨ yr = 599 := by
    rw [← hyr]; unfold HEIGHT; split_ifs <;> simp
  have hV : ∀ idx, (sdl_draw_vertical_mandelbrot surface ulr uli xc).pixels idx =
      if (idx - xc) % 800 = 0 ∧ 0 ≤ (idx - xc) / 800 ∧ (idx - xc) / 800 < 600 then
        window_pixel ulr uli xc ((idx - xc) / 800)
      else surface.pixels idx := fun idx =>
    sdl_draw_vertical_mandelbrot_apply surface ulr uli xc idx hw hi
  have hVxy : (sdl_draw_vertical_mandelbrot surface ulr uli xc).pixels (y * 800 + x) =
      if x = xc then window_pixel ulr uli x y else surface.pixels (y * 800 + x) := by
    rw [hV]
    by_cases hxx : x = xc
    · rw [if_pos hxx, if_pos (by omega)]
      have e : (y * 800 + x - xc) / 800 = y := by omega
      rw [e, ← hxx]
    · rw [if_neg hxx, if_neg (by omega)]
  by_cases hd : dy ≠ 0
  · rw [if_pos hd, sdl_draw_horizontal_mandelbrot_apply _ _ _ _ _ hr,
      sdl_draw_vertical_mandelbrot_w, hw]
    unfold WIDTH
    by_cases hyy : y = yr
    · rw [if_pos (by omega), if_pos (Or.inr ⟨hd, hyy⟩)]
      have e : y * 800 + x - yr * 800 = x := by omega
      rw [e, ← hyy]
    · rw [if_neg (by omega), hVxy]
      by_cases hxx : x = xc
      · rw [if_pos hxx, if_pos (Or.inl hxx)]
      · rw [if_neg hxx, if_neg (by
          rintro (h | h)
          · exact hxx h
          · exact hyy h.2)]
  · rw [if_neg hd, hVxy]
    by_cases hxx : x = xc
    · rw [if_pos hxx, if_pos (Or.inl hxx)]
    · rw [if_neg hxx, if_neg (by
        rintro (h | h)
        · exact hxx h
        · exact hd h.1)]

/-- Claim C18.  For the six directions with a horizontal component (RIGHT, UP_RIGHT,
UP_LEFT, LEFT, DOWN_LEFT, DOWN_RIGHT), on a surface of width `WIDTH` : if the buffer
equals the full render of the window before the step, then the frame step (shift,
redraw of column 0 or `WIDTH-1`, and of row 0 or `HEIGHT-1` for the diagonals)
returns, and after it the buffer equals the full render of the new window at every
one of the 800x600 pixels. -/
theorem scroll_horizontal_matches_full_render (D : Int)
    (hD : D = RIGHT ∨ D = UP_RIGHT ∨ D = UP_LEFT ∨ D = LEFT ∨ D = DOWN_LEFT ∨ D = DOWN_RIGHT)
    (fuel : Nat) (hf : 801 ≤ fuel) (s : FrameState) (hw : s.surface.w = WIDTH)
    (hr : toSint16 s.vars.upper_left_r_fp = s.vars.upper_left_r_fp)
    (hi : toSint16 s.vars.upper_left_i_fp = s.vars.upper_left_i_fp)
    (surface0 : SDL_Surface) (hw0 : surface0.w = WIDTH)
    (hbuf : ∀ x y : Int, 0 ≤ x ∧ x < WIDTH → 0 ≤ y ∧ y < HEIGHT →
      s.surface.pixels (y * WIDTH + x)
        = (sdl_draw_mandelbrot surface0 s.vars.upper_left_r_fp
            s.vars.upper_left_i_fp).pixels (y * WIDTH + x)) :
    ∃ s', scroll_and_redraw fuel D s = some s'
      ∧ s'.vars = pan_update D s.vars
      ∧ ∀ x y : Int, 0 ≤ x ∧ x < WIDTH → 0 ≤ y ∧ y < HEIGHT →
          s'.surface.pixels (y * WIDTH + x)
            = (sdl_draw_mandelbrot surface0 s'.vars.upper_left_r_fp
                s'.vars.upper_left_i_fp).pixels (y * WIDTH + x) := by
  have hD07 : 0 ≤ D ∧ D ≤ 7 := by
    unfold RIGHT UP_RIGHT UP_LEFT LEFT DOWN_LEFT DOWN_RIGHT at hD; omega
  have hok := pan_update_shift_ok D hD07.1 hD07.2 s.vars
  obtain ⟨hdx, -, -, hulr, huli, hcov⟩ := pan_update_horizontal D hD s.vars
  have huli' : (pan_update D s.vars).upper_left_i_fp
      = toSint16 (s.vars.upper_left_i_fp + 2 * (pan_update D s.vars).dy) := by
    rcases huli with h | ⟨h1, h2⟩
    · exact h
    · rw [h1, h2, mul_zero, add_zero, hi]
  unfold scroll_and_redraw
  simp only
  generalize pan_update D s.vars = v at hok hdx hulr huli' hcov ⊢
  obtain ⟨l, -, hs, -, -, -, hval, hframe⟩ :=
    shift_outer_spec v.dx v.dy v.mx1 v.mx2 v.my1 v.my2 hok fuel hf s.surface.pixels
  have hw' : s.surface.w = 800 := hw
  rw [hw', hs]
  simp only [if_pos hdx]
  refine ⟨_, rfl, rfl, fun x y hx hy => ?_⟩
  simp only
  have hrv : toSint16 v.upper_left_r_fp = v.upper_left_r_fp := by
    rw [hulr]; exact toSint16_idem _
  have hiv : toSint16 v.upper_left_i_fp = v.upper_left_i_fp := by
    rw [huli']; exact toSint16_idem _
  rw [sdl_draw_mandelbrot_apply surface0 _ _ x y hw0 hrv hx hy]
  have hx' : 0 ≤ x ∧ x < 800 := hx
  have hy' : 0 ≤ y ∧ y < 600 := hy
  have key := redraw_edges_apply ⟨800, apply_accesses 800 l s.surface.pixels⟩ rfl
    v.upper_left_r_fp v.upper_left_i_fp hrv hiv v.dx v.dy x y hx' hy'
  have e800 : y * WIDTH + x = y * 800 + x := rfl
  first | rw [key] | rw [e800, key]
  by_cases hred : x = (if v.dx = -1 then 0 else WIDTH - 1)
      ∨ (v.dy ≠ 0 ∧ y = (if v.dy = -1 then HEIGHT - 1 else 0))
  · rw [if_pos hred]
  · rw [if_neg hred]
    simp only
    rcases hcov x y hx'.1 hx'.2 hy'.1 hy'.2 with ⟨hc, hrw⟩ | hc | hc
    · rw [hval x y hc hrw]
      obtain ⟨-, -, -, -, hcols, hrows⟩ := hok
      have c1 := hcols x hc
      have c2 := hrows y hrw
      have := hbuf (x + v.dx) (y - v.dy) (by unfold WIDTH; omega) (by unfold HEIGHT; omega)
      have e2 : (y - v.dy) * WIDTH + (x + v.dx) = (y - v.dy) * 800 + (x + v.dx) := rfl
      rw [e2] at this
      rw [this, ← e2, sdl_draw_mandelbrot_apply surface0 _ _ _ _ hw0 hr
        (by unfold WIDTH; omega) (by unfold HEIGHT; omega), hulr, huli', window_pixel_moved]
    · exact absurd (Or.inl hc) hred
    · exact absurd (Or.inr hc) hred

theorem scroll_horizontal_matches_full_render_witness :
    ∃ s', scroll_and_redraw 801 UP_LEFT
        { surface := sdl_draw_mandelbrot ⟨WIDTH, fun _ => ⟨0, 0, 0⟩⟩ (-5734) 819,
          vars := { cx := -1750, cy := 0, upper_left_r_fp := -5734, upper_left_i_fp := 819,
                    dx := 0, dy := 0, mx1 := 0, mx2 := 0, my1 := 0, my2 := 0 },
          previous := DOWN } = some s'
      ∧ ∀ x y : Int, 0 ≤ x ∧ x < WIDTH → 0 ≤ y ∧ y < HEIGHT →
          s'.surface.pixels (y * WIDTH + x)
            = (sdl_draw_mandelbrot ⟨WIDTH, fun _ => ⟨0, 0, 0⟩⟩ s'.vars.upper_left_r_fp
                s'.vars.upper_left_i_fp).pixels (y * WIDTH + x) := by
  obtain ⟨s', h1, -, h3⟩ := scroll_horizontal_matches_full_render UP_LEFT (by decide) 801
    (by decide)
    { surface := sdl_draw_mandelbrot ⟨WIDTH, fun _ => ⟨0, 0, 0⟩⟩ (-5734) 819,
      vars := { cx := -1750, cy := 0, upper_left_r_fp := -5734, upper_left_i_fp := 819,
                dx := 0, dy := 0, mx1 := 0, mx2 := 0, my1 := 0, my2 := 0 },
      previous := DOWN }
    (by simp only [sdl_draw_mandelbrot_w]) (by decide) (by decide)
    ⟨WIDTH, fun _ => ⟨0, 0, 0⟩⟩ (by simp only) (by intro x y _ _; simp only)
  exact ⟨s', h1, h3⟩

/-! ## Ranges of the intermediates of the evaluator -/

theorem ok_bind {α β : Type} (a : α) (f : α → Except Fault β) :
    (Except.ok a >>= f) = f a := rfl

theorem pure_eq_ok {α : Type} (a : α) : (pure a : Except Fault α) = Except.ok a := rfl

/-- With the conversions of the machine, `mandelbrot_shortcuts_conv` is
`mandelbrot_shortcuts`. -/
theorem mandelbrot_shortcuts_conv_wrap (c_r c_i : Int) :
    mandelbrot_shortcuts_conv wrap8 wrap16 wrap32 c_r c_i
      = .ok (mandelbrot_shortcuts c_r c_i) := by
  unfold mandelbrot_shortcuts_conv mandelbrot_shortcuts
  simp only [wrap8, wrap16, wrap32, ok_bind, pure_eq_ok, FROM_FP, FROM_FP_BITS]
  split_ifs <;> rfl

/-- With the conversions of the machine, `mandelbrot_loop_conv` is
`mandelbrot_loop`. -/
theorem mandelbrot_loop_conv_wrap (c_r c_i : Int) :
    ∀ (fuel : Nat) (n z_r z_i : Int) (u : Nat),
      mandelbrot_loop_conv wrap8 wrap16 wrap32 c_r c_i fuel n z_r z_i
        = of_fuel ((mandelbrot_loop c_r c_i fuel n z_r z_i u).map Prod.fst) := by
  intro fuel
  induction fuel with
  | zero => intro n z_r z_i u; rfl
  | succ fuel ih =>
    intro n z_r z_i u
    unfold mandelbrot_loop_conv mandelbrot_loop
    simp only [wrap8, wrap16, wrap32, ok_bind, pure_eq_ok, FROM_FP]
    by_cases h1 : n > MAXITER
    · rw [if_pos h1, if_pos (Or.inl h1)]; rfl
    rw [if_neg h1]
    by_cases h2 : toSint32 (toSint32 (z_r * z_r) + toSint32 (z_i * z_i))
        ≥ TO_FP_CONST BAIL_OUT_SQR 1
    · rw [if_pos h2, if_pos (Or.inr h2)]; rfl
    rw [if_neg h2, if_neg (by rintro (h | h); exact h1 h; exact h2 h)]
    have := ih (toUint8 (n + 1)) (toSint16 (toSint16 (sar (toSint32 (z_r * z_r)) DECIMAL_BITS)
      - toSint16 (sar (toSint32 (z_i * z_i)) DECIMAL_BITS) + c_r))
      (toSint16 (sar (toSint32 (z_r * z_i)) (DECIMAL_BITS - 1) + c_i)) (u + 1)
    simp only [wrap8, wrap16, wrap32] at this
    exact this

/-- With the conversions of the machine, `mandelbrot_pixel_conv` is
`mandelbrot_pixel_fuel`, for all inputs and every fuel. -/
theorem mandelbrot_pixel_conv_wrap (fuel : Nat) (c_r c_i : Int) :
    mandelbrot_pixel_conv wrap8 wrap16 wrap32 fuel c_r c_i
      = of_fuel (mandelbrot_pixel_fuel fuel c_r c_i) := by
  unfold mandelbrot_pixel_conv mandelbrot_pixel_fuel
  rw [mandelbrot_shortcuts_conv_wrap, ok_bind]
  cases mandelbrot_shortcuts c_r c_i with
  | some v => rfl
  | none => exact mandelbrot_loop_conv_wrap c_r c_i fuel 0 c_r c_i 0

/-- When both coordinates are below 2.0 in magnitude, conversions that keep every
value in the range of their type find all values of `mandelbrot_shortcuts_conv` in
range: the result is that of `mandelbrot_shortcuts`. -/
theorem mandelbrot_shortcuts_conv_box (to8 to16 to32 : Int → Except Fault Int)
    (h8 : ∀ x, 0 ≤ x → x ≤ 255 → to8 x = .ok x)
    (h16 : ∀ x, -32768 ≤ x → x ≤ 32767 → to16 x = .ok x)
    (h32 : ∀ x, -2147483648 ≤ x → x ≤ 2147483647 → to32 x = .ok x)
    (c_r c_i : Int) (hr1 : -8192 < c_r) (hr2 : c_r < 8192)
    (hi1 : -8192 < c_i) (hi2 : c_i < 8192) :
    mandelbrot_shortcuts_conv to8 to16 to32 c_r c_i = .ok (mandelbrot_shortcuts c_r c_i) := by
  rw [mandelbrot_shortcuts_box c_r c_i hr1 hr2 hi1 hi2]
  obtain ⟨hA0, hA1⟩ := sq_lt_of_box hr1 hr2
  obtain ⟨hB0, hB1⟩ := sq_lt_of_box hi1 hi2
  have e1 : (c_r + 2048) * (c_r + 2048) = c_r * c_r + 4096 * c_r + 4194304 := by ring
  have e2 : (c_r - 1024) * (c_r - 1024) = c_r * c_r - 2048 * c_r + 1048576 := by ring
  have e3 : (c_r + 4096) * (c_r + 4096) = c_r * c_r + 8192 * c_r + 16777216 := by ring
  have a1 : to32 (c_r * c_r) = .ok (c_r * c_r) := h32 _ (by omega) (by omega)
  have a2 : to16 (c_r * c_r / 4096) = .ok (c_r * c_r / 4096) := h16 _ (by omega) (by omega)
  have a3 : to32 (c_i * c_i) = .ok (c_i * c_i) := h32 _ (by omega) (by omega)
  have a4 : to16 (c_i * c_i / 4096) = .ok (c_i * c_i / 4096) := h16 _ (by omega) (by omega)
  have a5 : to16 (c_r + 2048) = .ok (c_r + 2048) := h16 _ (by omega) (by omega)
  have a6 : to32 ((c_r + 2048) * (c_r + 2048)) = .ok ((c_r + 2048) * (c_r + 2048)) :=
    h32 _ (by rw [e1]; omega) (by rw [e1]; omega)
  have a7 : to16 ((c_r + 2048) * (c_r + 2048) / 4096) = .ok ((c_r + 2048) * (c_r + 2048) / 4096) :=
    h16 _ (by rw [e1]; omega) (by rw [e1]; omega)
  have a8 : to16 (c_r - 1024) = .ok (c_r - 1024) := h16 _ (by omega) (by omega)
  have a9 : to32 ((c_r - 1024) * (c_r - 1024)) = .ok ((c_r - 1024) * (c_r - 1024)) :=
    h32 _ (by rw [e2]; omega) (by rw [e2]; omega)
  have a10 : to16 ((c_r - 1024) * (c_r - 1024) / 4096) = .ok ((c_r - 1024) * (c_r - 1024) / 4096) :=
    h16 _ (by rw [e2]; omega) (by rw [e2]; omega)
  have sq2 : 0 ≤ (c_r - 1024) * (c_r - 1024) := mul_self_nonneg _
  have hq0 : 0 ≤ (c_r - 1024) * (c_r - 1024) / 4096 + c_i * c_i / 4096 := by rw [e2]; omega
  have hq1 : (c_r - 1024) * (c_r - 1024) / 4096 + c_i * c_i / 4096 ≤ 37120 := by rw [e2]; omega
  have hp0 : -4865 ≤ c_r * c_r / 4096 + c_r / 2 + c_i * c_i / 4096 - 768 := by omega
  have hp1 : c_r * c_r / 4096 + c_r / 2 + c_i * c_i / 4096 - 768 ≤ 36864 := by omega
  have a11 : to32 (((c_r - 1024) * (c_r - 1024) / 4096 + c_i * c_i / 4096)
            * (c_r * c_r / 4096 + c_r / 2 + c_i * c_i / 4096 - 768))
      = .ok (((c_r - 1024) * (c_r - 1024) / 4096 + c_i * c_i / 4096)
            * (c_r * c_r / 4096 + c_r / 2 + c_i * c_i / 4096 - 768)) := by
    generalize (c_r - 1024) * (c_r - 1024) / 4096 + c_i * c_i / 4096 = q at hq0 hq1 ⊢
    generalize c_r * c_r / 4096 + c_r / 2 + c_i * c_i / 4096 - 768 = p at hp0 hp1 ⊢
    exact h32 _ (by nlinarith) (by nlinarith)
  have a12 : to32 (((c_r - 1024) * (c_r - 1024) / 4096 + c_i * c_i / 4096)
            * (c_r * c_r / 4096 + c_r / 2 + c_i * c_i / 4096 - 768) / 1024)
      = .ok (((c_r - 1024) * (c_r - 1024) / 4096 + c_i * c_i / 4096)
            * (c_r * c_r / 4096 + c_r / 2 + c_i * c_i / 4096 - 768) / 1024) := by
    generalize (c_r - 1024) * (c_r - 1024) / 4096 + c_i * c_i / 4096 = q at hq0 hq1 ⊢
    generalize c_r * c_r / 4096 + c_r / 2 + c_i * c_i / 4096 - 768 = p at hp0 hp1 ⊢
    have b1 : -2147483648 ≤ q * p := by nlinarith
    have b2 : q * p ≤ 2147483647 := by nlinarith
    exact h32 _ (by omega) (by omega)
  have a13 : to8 (MAXITER + 1) = .ok 31 := h8 31 (by omega) (by omega)
  unfold mandelbrot_shortcuts_conv
  simp only [fp_neg_two, fp_two, fp_four, fp_half, fp_nine_quarters, fp_quarter,
    fp_three_sixteenths, fp_one, fp_sixteenth, sar_12, sar_10, sar_1, a1, a2, a3, a4, a5, a6,
    a7, a8, a9, a10, a11, a12, a13, ok_bind, pure_eq_ok]
  rw [if_neg (by omega)]
  by_cases hA : c_r * c_r / 4096 + c_i * c_i / 4096 ≥ 16384
  · rw [if_pos hA, if_pos hA]
  rw [if_neg hA, if_neg hA]
  by_cases hB : (c_r + 2048) * (c_r + 2048) / 4096 + c_i * c_i / 4096 > 9216
  · rw [if_pos hB, if_pos hB]
  rw [if_neg hB, if_neg hB]
  by_cases hC : ((c_r - 1024) * (c_r - 1024) / 4096 + c_i * c_i / 4096)
            * (c_r * c_r / 4096 + c_r / 2 + c_i * c_i / 4096 - 768) / 1024
            < c_i * c_i / 4096
  · rw [if_pos hC, if_pos hC]
  rw [if_neg hC, if_neg hC]
  have hsq : (c_r + 2048) * (c_r + 2048) ≤ 37752831 := by omega
  have hcr : c_r ≤ 4096 := by
    by_contra hc
    have : 4097 ≤ c_r := by omega
    nlinarith
  have a14 : to16 (c_r + 4096) = .ok (c_r + 4096) := h16 _ (by omega) (by omega)
  have a15 : to32 ((c_r + 4096) * (c_r + 4096)) = .ok ((c_r + 4096) * (c_r + 4096)) :=
    h32 _ (by rw [e3]; omega) (by rw [e3]; omega)
  have a16 : to16 ((c_r + 4096) * (c_r + 4096) / 4096) = .ok ((c_r + 4096) * (c_r + 4096) / 4096) :=
    h16 _ (by rw [e3]; omega) (by rw [e3]; omega)
  simp only [a14, a15, a16, ok_bind]
  split_ifs <;> rfl

/-- For `c` below 2.0 in magnitude and `z` within 6.0, conversions that keep every
value in the range of their type find all values of `mandelbrot_loop_conv` in range:
the result is that of `mandelbrot_loop`. -/
theorem mandelbrot_loop_conv_box (to8 to16 to32 : Int → Except Fault Int)
    (h8 : ∀ x, 0 ≤ x → x ≤ 255 → to8 x = .ok x)
    (h16 : ∀ x, -32768 ≤ x → x ≤ 32767 → to16 x = .ok x)
    (h32 : ∀ x, -2147483648 ≤ x → x ≤ 2147483647 → to32 x = .ok x)
    (c_r c_i : Int) (hr : -8192 < c_r ∧ c_r < 8192) (hi : -8192 < c_i ∧ c_i < 8192) :
    ∀ (fuel : Nat) (n z_r z_i : Int) (u : Nat), 0 ≤ n →
      (-24576 ≤ z_r ∧ z_r ≤ 24576) → (-24576 ≤ z_i ∧ z_i ≤ 24576) →
      mandelbrot_loop_conv to8 to16 to32 c_r c_i fuel n z_r z_i
        = of_fuel ((mandelbrot_loop c_r c_i fuel n z_r z_i u).map Prod.fst) := by
  intro fuel
  induction fuel with
  | zero => intro n z_r z_i u _ _ _; rfl
  | succ fuel ih =>
    intro n z_r z_i u hn hb1 hb2
    have sA : 0 ≤ z_r * z_r := mul_self_nonneg _
    have sB : 0 ≤ z_i * z_i := mul_self_nonneg _
    have sA2 : z_r * z_r ≤ 603979776 := by nlinarith
    have sB2 : z_i * z_i ≤ 603979776 := by nlinarith
    have a1 : to32 (z_r * z_r) = .ok (z_r * z_r) := h32 _ (by omega) (by omega)
    have a2 : to32 (z_i * z_i) = .ok (z_i * z_i) := h32 _ (by omega) (by omega)
    have a3 : to32 (z_r * z_r + z_i * z_i) = .ok (z_r * z_r + z_i * z_i) :=
      h32 _ (by omega) (by omega)
    unfold mandelbrot_loop_conv mandelbrot_loop
    simp only [fp_bail_out, a1, a2, a3, ok_bind, pure_eq_ok]
    rw [toSint32_of_range (x := z_r * z_r) (by omega) (by omega),
      toSint32_of_range (x := z_i * z_i) (by omega) (by omega),
      toSint32_of_range (x := z_r * z_r + z_i * z_i) (by omega) (by omega)]
    by_cases h1 : n > MAXITER
    · rw [if_pos h1, if_pos (Or.inl h1)]; rfl
    rw [if_neg h1]
    by_cases h2 : z_r * z_r + z_i * z_i ≥ 67108864
    · rw [if_pos h2, if_pos (Or.inr h2)]; rfl
    rw [if_neg h2, if_neg (by rintro (h | h); exact h1 h; exact h2 h)]
    have hn30 : n ≤ 30 := by unfold MAXITER at h1; omega
    have hesc : z_r * z_r + z_i * z_i < 67108864 := by omega
    obtain ⟨u1, u2, u3, u4⟩ := loop_update_eq c_r c_i z_r z_i hr hi hesc
    rw [toSint32_of_range (x := z_r * z_r) (by omega) (by omega),
      toSint32_of_range (x := z_i * z_i) (by omega) (by omega)] at u1
    have hP1 : z_r * z_i ≤ 33554431 := by nlinarith [mul_self_nonneg (z_r - z_i)]
    have hP2 : -33554431 ≤ z_r * z_i := by nlinarith [mul_self_nonneg (z_r + z_i)]
    have a4 : to16 (z_r * z_r / 4096) = .ok (z_r * z_r / 4096) := h16 _ (by omega) (by omega)
    have a5 : to16 (z_i * z_i / 4096) = .ok (z_i * z_i / 4096) := h16 _ (by omega) (by omega)
    have a6 : to16 (z_r * z_r / 4096 - z_i * z_i / 4096 + c_r)
        = .ok (z_r * z_r / 4096 - z_i * z_i / 4096 + c_r) := h16 _ (by omega) (by omega)
    have a7 : to32 (z_r * z_i) = .ok (z_r * z_i) := h32 _ (by omega) (by omega)
    have a8 : to16 (z_r * z_i / 2048 + c_i) = .ok (z_r * z_i / 2048 + c_i) :=
      h16 _ (by omega) (by omega)
    have a9 : to8 (n + 1) = .ok (n + 1) := h8 _ (by omega) (by omega)
    have e12 : ∀ x : Int, sar x 12 = x / 4096 := fun x => by rw [sar_eq_ediv]; rfl
    have e11 : ∀ x : Int, sar x 11 = x / 2048 := fun x => by rw [sar_eq_ediv]; rfl
    have o1 : (orbit_step c_r c_i (z_r, z_i)).1 = z_r * z_r / 4096 - z_i * z_i / 4096 + c_r := by
      unfold orbit_step; simp only [e12]
    have o2 : (orbit_step c_r c_i (z_r, z_i)).2 = z_r * z_i / 2048 + c_i := by
      unfold orbit_step; simp only [e11]
    rw [o1] at u1 u3
    rw [o2] at u2 u4
    rw [toUint8_of_range (by omega) (by omega), u1, u2]
    simp only [sar_12, sar_11, a4, a5, a6, a7, a8, a9, ok_bind]
    exact ih (n + 1) _ _ (u + 1) (by omega) u3 u4

/-- For `c` below 2.0 in magnitude, conversions that keep every value in the range
of their type find all values of `mandelbrot_pixel_conv` in range: the result is
that of `mandelbrot_pixel_fuel`, for every fuel. -/
theorem mandelbrot_pixel_conv_box (to8 to16 to32 : Int → Except Fault Int)
    (h8 : ∀ x, 0 ≤ x → x ≤ 255 → to8 x = .ok x)
    (h16 : ∀ x, -32768 ≤ x → x ≤ 32767 → to16 x = .ok x)
    (h32 : ∀ x, -2147483648 ≤ x → x ≤ 2147483647 → to32 x = .ok x)
    (fuel : Nat) (c_r c_i : Int) (hr : -8192 < c_r ∧ c_r < 8192)
    (hi : -8192 < c_i ∧ c_i < 8192) :
    mandelbrot_pixel_conv to8 to16 to32 fuel c_r c_i
      = of_fuel (mandelbrot_pixel_fuel fuel c_r c_i) := by
  unfold mandelbrot_pixel_conv mandelbrot_pixel_fuel
  rw [mandelbrot_shortcuts_conv_box to8 to16 to32 h8 h16 h32 c_r c_i hr.1 hr.2 hi.1 hi.2,
    ok_bind]
  cases mandelbrot_shortcuts c_r c_i with
  | some v => rfl
  | none =>
    exact mandelbrot_loop_conv_box to8 to16 to32 h8 h16 h32 c_r c_i hr hi fuel 0 c_r c_i 0
      (le_refl _) ⟨by omega, by omega⟩ ⟨by omega, by omega⟩

/-- For 16-bit inputs with a coordinate of magnitude 2.0 or more, the two squares
fit 32 bits and the per-axis test returns 0, whatever the 16-bit conversion
stores in `xsqr` and `ysqr`. -/
theorem mandelbrot_pixel_conv_axis (to8 to16 to32 : Int → Except Fault Int)
    (h16 : ∀ x, ∃ y, to16 x = .ok y)
    (h32 : ∀ x, -2147483648 ≤ x → x ≤ 2147483647 → to32 x = .ok x)
    (fuel : Nat) (c_r c_i : Int) (hr : -32768 ≤ c_r ∧ c_r ≤ 32767)
    (hi : -32768 ≤ c_i ∧ c_i ≤ 32767)
    (h : c_r ≤ -8192 ∨ c_r ≥ 8192 ∨ c_i ≤ -8192 ∨ c_i ≥ 8192) :
    mandelbrot_pixel_conv to8 to16 to32 fuel c_r c_i = .ok 0 := by
  have sA : 0 ≤ c_r * c_r := mul_self_nonneg _
  have sB : 0 ≤ c_i * c_i := mul_self_nonneg _
  have sA2 : c_r * c_r ≤ 1073741824 := by nlinarith
  have sB2 : c_i * c_i ≤ 1073741824 := by nlinarith
  have a1 : to32 (c_r * c_r) = .ok (c_r * c_r) := h32 _ (by omega) (by omega)
  have a2 : to32 (c_i * c_i) = .ok (c_i * c_i) := h32 _ (by omega) (by omega)
  obtain ⟨x, hx⟩ := h16 (sar (c_r * c_r) DECIMAL_BITS)
  obtain ⟨y, hy⟩ := h16 (sar (c_i * c_i) DECIMAL_BITS)
  unfold mandelbrot_pixel_conv mandelbrot_shortcuts_conv
  simp only [a1, a2, hx, hy, ok_bind, pure_eq_ok, fp_neg_two, fp_two]
  rw [if_pos h]
  rfl

theorem wrap8_of_range (x : Int) (h1 : 0 ≤ x) (h2 : x ≤ 255) : wrap8 x = .ok x := by
  unfold wrap8; rw [toUint8_of_range h1 h2]

theorem wrap16_of_range (x : Int) (h1 : -32768 ≤ x) (h2 : x ≤ 32767) : wrap16 x = .ok x := by
  unfold wrap16; rw [toSint16_of_range h1 h2]

theorem check8_of_range (x : Int) (h1 : 0 ≤ x) (h2 : x ≤ 255) : check8 x = .ok x := by
  unfold check8; rw [if_pos ⟨h1, h2⟩]

theorem check16_of_range (x : Int) (h1 : -32768 ≤ x) (h2 : x ≤ 32767) : check16 x = .ok x := by
  unfold check16; rw [if_pos ⟨h1, h2⟩]

theorem check32_of_range (x : Int) (h1 : -2147483648 ≤ x) (h2 : x ≤ 2147483647) :
    check32 x = .ok x := by
  unfold check32; rw [if_pos ⟨h1, h2⟩]

/-- Claim C14.  Range guarantee of the evaluator, for every pair of signed 16-bit
inputs `(c_r, c_i)` and every fuel of 32 or more.  `mandelbrot_pixel_conv` is
`mandelbrot_pixel` with each conversion made explicit; with the wrapping
conversions of the machine it returns `mandelbrot_pixel c_r c_i`.  (1) With the
32-bit conversion replaced by one that refuses any value outside
`[-2^31, 2^31 - 1]` (16-bit conversions still wrapping) the run meets no refused
value and returns the same result: every 32-bit intermediate (the products
`z_r*z_r`, `z_i*z_i`, `z_r*z_i`, the squares of `tmp16`, the sum of the squares, the
product of the cardioid test and its shifted value) stays in the signed 32-bit
range.  (2) For inputs that pass the per-axis check, `-8192 < c_r, c_i < 8192`, also
with the 16-bit conversion refusing any value outside `[-32768, 32767]` and the
8-bit conversion refusing any value outside `[0, 255]` the run meets no refused
value: every value stored into `xsqr`, `ysqr`, `tmp16`, `z_r`, `z_i` (and `n`) fits its
type.  (3) On all 16-bit inputs the algorithm computed over unbounded integers,
without any conversion, returns the same value as the wrapping computation, and
the two agree for every fuel. -/
theorem evaluator_range_guarantee (c_r c_i : Int)
    (hr : -32768 ≤ c_r ∧ c_r ≤ 32767) (hi : -32768 ≤ c_i ∧ c_i ≤ 32767)
    (fuel : Nat) (hf : 32 ≤ fuel) :
    mandelbrot_pixel_conv wrap8 wrap16 wrap32 fuel c_r c_i = .ok (mandelbrot_pixel c_r c_i)
      ∧ mandelbrot_pixel_conv wrap8 wrap16 check32 fuel c_r c_i
          = .ok (mandelbrot_pixel c_r c_i)
      ∧ ((-8192 < c_r ∧ c_r < 8192) ∧ (-8192 < c_i ∧ c_i < 8192) →
          mandelbrot_pixel_conv check8 check16 check32 fuel c_r c_i
            = .ok (mandelbrot_pixel c_r c_i))
      ∧ mandelbrot_pixel_conv unbounded unbounded unbounded fuel c_r c_i
          = .ok (mandelbrot_pixel c_r c_i)
      ∧ ∀ k, mandelbrot_pixel_conv unbounded unbounded unbounded k c_r c_i
          = mandelbrot_pixel_conv wrap8 wrap16 wrap32 k c_r c_i := by
  have hu : ∀ x : Int, unbounded x = .ok x := fun x => rfl
  have hfe : ∀ (c_r c_i : Int), of_fuel (mandelbrot_pixel_fuel fuel c_r c_i)
      = .ok (mandelbrot_pixel c_r c_i) := fun a b => by
    rw [mandelbrot_pixel_fuel_eq a b fuel hf]; rfl
  have hw := mandelbrot_pixel_conv_wrap
  by_cases hbox : (-8192 < c_r ∧ c_r < 8192) ∧ (-8192 < c_i ∧ c_i < 8192)
  · refine ⟨?_, ?_, fun _ => ?_, ?_, fun k => ?_⟩
    · rw [hw, hfe]
    · rw [mandelbrot_pixel_conv_box wrap8 wrap16 check32 wrap8_of_range wrap16_of_range
        check32_of_range fuel c_r c_i hbox.1 hbox.2, hfe]
    · rw [mandelbrot_pixel_conv_box check8 check16 check32 check8_of_range check16_of_range
        check32_of_range fuel c_r c_i hbox.1 hbox.2, hfe]
    · rw [mandelbrot_pixel_conv_box unbounded unbounded unbounded (fun x _ _ => hu x)
        (fun x _ _ => hu x) (fun x _ _ => hu x) fuel c_r c_i hbox.1 hbox.2, hfe]
    · rw [mandelbrot_pixel_conv_box unbounded unbounded unbounded (fun x _ _ => hu x)
        (fun x _ _ => hu x) (fun x _ _ => hu x) k c_r c_i hbox.1 hbox.2, hw]
  · have hax : c_r ≤ -8192 ∨ c_r ≥ 8192 ∨ c_i ≤ -8192 ∨ c_i ≥ 8192 := by omega
    have h0 : mandelbrot_pixel c_r c_i = 0 :=
      mandelbrot_pixel_of_shortcut (mandelbrot_shortcuts_axis c_r c_i hax)
    have hwk : ∀ k, mandelbrot_pixel_conv wrap8 wrap16 wrap32 k c_r c_i = .ok 0 := fun k => by
      rw [hw, mandelbrot_pixel_fuel_of_shortcut (mandelbrot_shortcuts_axis c_r c_i hax)]; rfl
    have huk : ∀ k, mandelbrot_pixel_conv unbounded unbounded unbounded k c_r c_i = .ok 0 :=
      fun k => mandelbrot_pixel_conv_axis unbounded unbounded unbounded (fun x => ⟨x, rfl⟩)
        (fun x _ _ => hu x) k c_r c_i hr hi hax
    refine ⟨?_, ?_, fun h => absurd h hbox, ?_, fun k => ?_⟩
    · rw [h0, hwk]
    · rw [h0]
      exact mandelbrot_pixel_conv_axis wrap8 wrap16 check32 (fun x => ⟨toSint16 x, rfl⟩)
        check32_of_range fuel c_r c_i hr hi hax
    · rw [h0, huk]
    · rw [huk, hwk]

theorem evaluator_range_guarantee_witness :
    mandelbrot_pixel_conv wrap8 wrap16 check32 32 1500 0 = .ok (mandelbrot_pixel 1500 0)
      ∧ ((-8192 < (1500 : Int) ∧ (1500 : Int) < 8192) ∧ (-8192 < (0 : Int) ∧ (0 : Int) < 8192) →
          mandelbrot_pixel_conv check8 check16 check32 32 1500 0
            = .ok (mandelbrot_pixel 1500 0))
      ∧ mandelbrot_pixel_conv unbounded unbounded unbounded 32 1500 0
          = .ok (mandelbrot_pixel 1500 0) :=
  ⟨(evaluator_range_guarantee 1500 0 (by decide) (by decide) 32 (by decide)).2.1,
    (evaluator_range_guarantee 1500 0 (by decide) (by decide) 32 (by decide)).2.2.1,
    (evaluator_range_guarantee 1500 0 (by decide) (by decide) 32 (by decide)).2.2.2.1⟩

end Mandelbrot
